import Mathlib

set_option autoImplicit false

/-!
# gritcms: event bus and workflow handlers

A shallow embedding of

* `apps/api/internal/events/events.go` (the in-process event bus),
* `apps/api/internal/handlers/sanitize.go`,
* `apps/api/internal/handlers/workflow.go` and `apps/api/internal/models/workflow.go`
  (the workflow HTTP handlers over the relational store),
* `apps/api/internal/handlers/import_helpers.go` and the CSV helpers of
  `apps/api/internal/handlers/analytics.go`,
* the quiz scoring of `apps/api/internal/handlers/course.go` and the payout handlers of
  `apps/api/internal/handlers/affiliate.go`,

followed by the properties proved about them.
-/

/-! ## Go maps with string keys -/

/-- A Go `map[string]V`: a finite list of bindings with pairwise distinct keys.
Reading an absent key yields the zero value of `V`, which callers supply. -/
abbrev GoMap (α : Type) := List (String × α)

namespace GoMap

/-- The Go expression `m[k]` in its two-result form: the binding of `k` when present. -/
def get {α : Type} (m : GoMap α) (k : String) : Option α :=
  match m with
  | [] => none
  | (k1, v) :: rest => if k1 = k then some v else get rest k

/-- The Go statement `m[k] = v`: overwrite the binding of `k`, or add one. -/
def set {α : Type} (m : GoMap α) (k : String) (v : α) : GoMap α :=
  match m with
  | [] => [(k, v)]
  | (k1, v1) :: rest => if k1 = k then (k1, v) :: rest else (k1, v1) :: set rest k v

/-- The Go statement `delete(m, k)`: remove the binding of `k`; no effect when `k` is absent. -/
def delete {α : Type} (m : GoMap α) (k : String) : GoMap α :=
  m.filter (fun kv => !(kv.1 == k))

end GoMap

/-! ## The event bus (`events.go`) -/

namespace Events

/-- `type Handler func(data interface{})`. A Go function value is a reference to code and
captured variables; it is represented by the identity of that function value. What the function
does when called is given by a `Program`. -/
abbrev Handler := Nat

/-- The lines the package writes through `log.Printf`, one constructor per format string. -/
inductive LogLine where
  /-- `[events] Registered handler for %q`. -/
  | registered (event : String)
  /-- `[events] Emitting %q (%d handlers)`. -/
  | emitting (event : String) (n : Nat)
  /-- `[events] Emitting (sync) %q (%d handlers)`. -/
  | emittingSync (event : String) (n : Nat)
  /-- `[events] Panic in handler for %q: %v`. -/
  | handlerPanic (event : String) (r : String)
deriving DecidableEq, Repr

/-- `type Bus struct { mu sync.RWMutex; handlers map[string][]Handler }`.
The mutex only serialises access to `handlers`; every method releases it before it returns or
calls a handler, so it carries no state between the operations modelled here. -/
structure Bus where
  handlers : GoMap (List Handler)
deriving DecidableEq, Repr

/-- The Go expression `b.handlers[event]`: the registered slice, or the nil slice. -/
def Bus.lookup (b : Bus) (event : String) : List Handler :=
  (b.handlers.get event).getD []

/-- The state a running program can read and write: the bus, the output of the standard logger,
and everything else (`mem`), on which the handlers act. -/
structure World (σ : Type) where
  bus : Bus
  log : List LogLine
  mem : σ

/-- How a Go call ends: it returns, or it panics with a value `r`; either way the writes made up
to that point are in the state it leaves behind. `r` is what `recover()` yields, which is not
nil for a panicking goroutine (the runtime turns `panic(nil)` into a runtime error). -/
inductive Outcome (α : Type) where
  | returned (a : α)
  | panicked (a : α) (r : String)

/-- The code behind the function values: what a call `fn(data)` does to the program state. -/
abbrev Program (σ δ : Type) := Handler → δ → World σ → Outcome (World σ)

/-- The closure started by `go func(fn Handler) { ... }(h)` in `Emit`, with the variables it
captures. -/
structure Goroutine (δ : Type) where
  event : String
  fn : Handler
  data : δ

/-- A program state together with what the bus has done so far: `calls` records every call
`fn(data)` made by bus code, in order, and `spawned` records every goroutine started by a `go`
statement of bus code, in order. Handlers see `world` only. -/
structure Exec (σ δ : Type) where
  world : World σ
  calls : List (Handler × δ)
  spawned : List (Goroutine δ)

/-- One `log.Printf` of the package. -/
def Exec.printf {σ δ : Type} (x : Exec σ δ) (l : LogLine) : Exec σ δ :=
  { x with world := { x.world with log := x.world.log ++ [l] } }

/-- `func (b *Bus) On(event string, handler Handler)`. -/
def Bus.On {σ δ : Type} (event : String) (handler : Handler) (x : Exec σ δ) : Exec σ δ :=
  let b : Bus := ⟨x.world.bus.handlers.set event (x.world.bus.lookup event ++ [handler])⟩
  Exec.printf { x with world := { x.world with bus := b } } (.registered event)

/-- `func (b *Bus) HandlerCount(event string) int`. -/
def Bus.HandlerCount {σ δ : Type} (event : String) (x : Exec σ δ) : Nat :=
  (x.world.bus.lookup event).length

/-- The call `fn(data)`. -/
def call {σ δ : Type} (prog : Program σ δ) (fn : Handler) (data : δ) (x : Exec σ δ) :
    Outcome (Exec σ δ) :=
  match prog fn data x.world with
  | .returned w => .returned { x with world := w, calls := x.calls ++ [(fn, data)] }
  | .panicked w r => .panicked { x with world := w, calls := x.calls ++ [(fn, data)] } r

/-- The function literal of `Emit` and `EmitSync`:
`func(fn Handler) { defer func() { if r := recover(); r != nil { log.Printf(...) } }(); fn(data) }`.
The deferred function recovers a panic of `fn(data)` and logs it, and the literal then returns
normally. -/
def guarded {σ δ : Type} (prog : Program σ δ) (event : String) (fn : Handler) (data : δ)
    (x : Exec σ δ) : Outcome (Exec σ δ) :=
  match call prog fn data x with
  | .returned x1 => .returned x1
  | .panicked x1 r => .returned (x1.printf (.handlerPanic event r))

/-- The loop `for _, h := range handlers { func(fn Handler) { ... }(h) }` of `EmitSync`: a panic
that escaped a call of the function literal would end the loop and propagate. -/
def syncLoop {σ δ : Type} (prog : Program σ δ) (event : String) (data : δ) :
    List Handler → Exec σ δ → Outcome (Exec σ δ)
  | [], x => .returned x
  | h :: hs, x =>
    match guarded prog event h data x with
    | .returned x1 => syncLoop prog event data hs x1
    | .panicked x1 r => .panicked x1 r

/-- `func (b *Bus) EmitSync(event string, data interface{})`. -/
def Bus.EmitSync {σ δ : Type} (prog : Program σ δ) (event : String) (data : δ) (x : Exec σ δ) :
    Outcome (Exec σ δ) :=
  let handlers := x.world.bus.lookup event
  if handlers.length = 0 then .returned x
  else syncLoop prog event data handlers (x.printf (.emittingSync event handlers.length))

/-- The loop `for _, h := range handlers { go func(fn Handler) { ... }(h) }` of `Emit`: each
iteration starts a goroutine and goes on. -/
def spawnLoop {σ δ : Type} (event : String) (data : δ) : List Handler → Exec σ δ → Exec σ δ
  | [], x => x
  | h :: hs, x => spawnLoop event data hs { x with spawned := x.spawned ++ [⟨event, h, data⟩] }

/-- `func (b *Bus) Emit(event string, data interface{})`. -/
def Bus.Emit {σ δ : Type} (event : String) (data : δ) (x : Exec σ δ) : Exec σ δ :=
  let handlers := x.world.bus.lookup event
  if handlers.length = 0 then x
  else spawnLoop event data handlers (x.printf (.emitting event handlers.length))

/-- A started goroutine runs: the body of the function literal, on its own stack. A panic that
escaped it would terminate the program. -/
def Goroutine.run {σ δ : Type} (prog : Program σ δ) (g : Goroutine δ) (x : Exec σ δ) :
    Outcome (Exec σ δ) :=
  guarded prog g.event g.fn g.data x

/-- The goroutines `gs` run one after the other in the order the scheduler picked. -/
def runGoroutines {σ δ : Type} (prog : Program σ δ) :
    List (Goroutine δ) → Exec σ δ → Outcome (Exec σ δ)
  | [], x => .returned x
  | g :: gs, x =>
    match g.run prog x with
    | .returned x1 => runGoroutines prog gs x1
    | .panicked x1 r => .panicked x1 r

/-- What a caller sees of one call of the function literal: the state `fn(data)` leaves behind,
with the panic line added when it panicked. -/
def afterHandler {σ δ : Type} (prog : Program σ δ) (event : String) (data : δ) (w : World σ)
    (fn : Handler) : World σ :=
  match prog fn data w with
  | .returned w1 => w1
  | .panicked w1 r => { w1 with log := w1.log ++ [.handlerPanic event r] }

/-- One goroutine per element of the slice `hs`, each capturing `event` and `data`. -/
def goroutinesFor {δ : Type} (event : String) (data : δ) (hs : List Handler) : List (Goroutine δ) :=
  hs.map (fun h => ⟨event, h, data⟩)

/-- A small program over a counter: handler 1 bumps the counter and then panics, every other
handler adds the payload to the counter and returns. -/
def demoProg : Program Nat Nat := fun fn data w =>
  if fn = 1 then .panicked { w with mem := w.mem + 1 } "boom"
  else .returned { w with mem := w.mem + data }

/-- A bus with handlers 1 and 2 on event `a` and handler 3 on event `b`; nothing has run yet. -/
def demoExec : Exec Nat Nat :=
  ⟨⟨⟨[("a", [1, 2]), ("b", [3])]⟩, [], 0⟩, [], []⟩

end Events

/-! ## The workflow tables (`models/workflow.go`) -/

namespace Models

def WorkflowStatusDraft : String := "draft"
def WorkflowStatusActive : String := "active"
def WorkflowStatusPaused : String := "paused"

def ExecutionRunning : String := "running"
def ExecutionCompleted : String := "completed"
def ExecutionFailed : String := "failed"

/-- A `time.Time`, as a reading of the clock. -/
abbrev Time := Nat

/-- A `datatypes.JSON` column: the raw JSON text; the nil value is the empty text. -/
abbrev JSON := String

/-- One row of `workflows` (`type Workflow struct`). `Actions` is not a column: it is loaded
from `workflow_actions` by `Preload`. `DeletedAt` is the soft-delete mark of `gorm.DeletedAt`. -/
structure Workflow where
  ID : Nat
  TenantID : Nat
  Name : String
  Description : String
  TriggerType : String
  TriggerConfig : JSON
  Status : String
  ExecutionCount : Int
  CreatedAt : Time
  UpdatedAt : Time
  DeletedAt : Option Time
deriving DecidableEq, Repr

/-- One row of `workflow_actions` (`type WorkflowAction struct`); `ActionType` is the field
`Type`. -/
structure WorkflowAction where
  ID : Nat
  TenantID : Nat
  WorkflowID : Nat
  ActionType : String
  Config : JSON
  SortOrder : Int
  DelaySeconds : Int
  Condition : JSON
  CreatedAt : Time
  UpdatedAt : Time
deriving DecidableEq, Repr

/-- One row of `workflow_executions` (`type WorkflowExecution struct`). `Workflow` and `Contact`
are not columns: they are loaded by `Preload`. -/
structure WorkflowExecution where
  ID : Nat
  TenantID : Nat
  WorkflowID : Nat
  ContactID : Nat
  TriggerEvent : String
  Status : String
  CurrentStep : Int
  Log : JSON
  StartedAt : Time
  CompletedAt : Option Time
  CreatedAt : Time
deriving DecidableEq, Repr

end Models

/-! ## Event names (`events/constants.go`) and enrollments (`models/course.go`) -/

namespace Events

def CourseEnrolled : String := "course.enrolled"
def PurchaseCompleted : String := "purchase.completed"

end Events

namespace Models

def EnrollStatusActive : String := "active"

/-- One row of `course_enrollments` (`type CourseEnrollment struct`). `ProgressPercentage` is
the `decimal(5,2)` column in hundredths. `Contact`, `Course` and `LessonProgresses` are not
columns. The pair (`contact_id`, `course_id`) carries a unique index. -/
structure CourseEnrollment where
  ID : Nat
  TenantID : Nat
  ContactID : Nat
  CourseID : Nat
  Status : String
  EnrolledAt : Time
  CompletedAt : Option Time
  ProgressPercentage : Nat
  Source : String
  CreatedAt : Time
  UpdatedAt : Time
deriving DecidableEq, Repr

end Models

/-! ## The store behind `*gorm.DB` -/

namespace Store

open Models

/-- The three workflow tables, with the last value each id sequence has handed out. -/
structure DB where
  workflows : List Workflow
  workflowActions : List WorkflowAction
  workflowExecutions : List WorkflowExecution
  workflowSeq : Nat
  actionSeq : Nat
  executionSeq : Nat
deriving DecidableEq, Repr

/-- What surrounds one request: the clock, whether the store rejects the `INSERT`, the
`UPDATE` and the `DELETE` statement the request issues (a violated constraint, a value out of
range, a lost connection), and the configuration of the `*gorm.DB` handle. The handlers read the
error of some statements and drop that of others.

`namer` is the `ColumnName` of the handle's `NamingStrategy`: `Updates` looks a key of an update
map up among the column names, then among the Go field names, and then, in the versions of the
library that have this step, as the column name the naming strategy makes of the key (the
default strategy turns `sortOrder` into `sort_order`). The identity stands for a library without
the step.

`loopFails i` tells whether the store rejects the `UPDATE` a handler issues in iteration `i` of
a loop; each of these statements is sent on its own, outside a transaction. -/
structure Env where
  now : Time
  insertFails : Bool
  updateFails : Bool
  deleteFails : Bool
  namer : String → String
  loopFails : Nat → Bool

/-- A value of a decoded JSON object (`map[string]interface{}`): a string, an integral number, or
anything else (null, booleans, fractions, arrays, objects) kept as its text. -/
inductive JVal where
  | str (s : String)
  | num (n : Int)
  | other (raw : String)
deriving DecidableEq, Repr

/-- The conversion `uint(n)` of a Go `int` on a 64-bit platform. -/
def goUint (n : Int) : Nat := (n % 2 ^ 64).toNat

/-- `DB.First(&workflow, id)`: the row of `workflows` with that primary key that is not
soft-deleted; `none` is `ErrRecordNotFound`. -/
def DB.firstWorkflow (db : DB) (id : Int) : Option Workflow :=
  db.workflows.find? (fun w => decide ((w.ID : Int) = id) && w.DeletedAt.isNone)

/-- `DB.Create(&exec)` on `workflow_executions`: the row is stored under the next id of the
sequence, `CreatedAt` is filled in, and the struct handed in gets both; when the store rejects the
`INSERT` nothing is stored and the struct stays as it was. The second component tells whether the
call returned an error. -/
def DB.createExecution (env : Env) (exec : WorkflowExecution) (db : DB) :
    DB × WorkflowExecution × Bool :=
  if env.insertFails then (db, exec, true)
  else
    let row := { exec with ID := db.executionSeq + 1, CreatedAt := env.now }
    ({ db with workflowExecutions := db.workflowExecutions ++ [row],
               executionSeq := db.executionSeq + 1 }, row, false)

/-- `DB.Model(&workflow).UpdateColumn("execution_count", gorm.Expr("execution_count + 1"))`:
`UPDATE workflows SET execution_count = execution_count + 1 WHERE id = ? AND deleted_at IS NULL`.
`UpdateColumn` sets that one column and leaves `updated_at` alone. -/
def DB.incrementExecutionCount (env : Env) (workflow : Workflow) (db : DB) : DB :=
  if env.updateFails then db
  else
    { db with workflows := db.workflows.map (fun w =>
        if w.ID = workflow.ID ∧ w.DeletedAt = none then
          { w with ExecutionCount := w.ExecutionCount + 1 }
        else w) }

/-- The columns of `workflows`. -/
inductive WorkflowColumn where
  | id | tenantId | name | description | triggerType | triggerConfig | status
  | executionCount | createdAt | updatedAt | deletedAt
deriving DecidableEq, Repr

/-- The column of `workflows` with the given column name. -/
def workflowColumnNamed (name : String) : Option WorkflowColumn :=
  if name = "id" then some .id
  else if name = "tenant_id" then some .tenantId
  else if name = "name" then some .name
  else if name = "description" then some .description
  else if name = "trigger_type" then some .triggerType
  else if name = "trigger_config" then some .triggerConfig
  else if name = "status" then some .status
  else if name = "execution_count" then some .executionCount
  else if name = "created_at" then some .createdAt
  else if name = "updated_at" then some .updatedAt
  else if name = "deleted_at" then some .deletedAt
  else none

/-- The column a key of an update map names (`Schema.LookUpField`): GORM looks the key up among
the column names, then among the Go field names, and then as the column name the naming strategy
makes of it. -/
def workflowColumn (namer : String → String) (key : String) : Option WorkflowColumn :=
  if key = "id" ∨ key = "ID" then some .id
  else if key = "tenant_id" ∨ key = "TenantID" then some .tenantId
  else if key = "name" ∨ key = "Name" then some .name
  else if key = "description" ∨ key = "Description" then some .description
  else if key = "trigger_type" ∨ key = "TriggerType" then some .triggerType
  else if key = "trigger_config" ∨ key = "TriggerConfig" then some .triggerConfig
  else if key = "status" ∨ key = "Status" then some .status
  else if key = "execution_count" ∨ key = "ExecutionCount" then some .executionCount
  else if key = "created_at" ∨ key = "CreatedAt" then some .createdAt
  else if key = "updated_at" ∨ key = "UpdatedAt" then some .updatedAt
  else if key = "deleted_at" ∨ key = "DeletedAt" then some .deletedAt
  else workflowColumnNamed (namer key)

/-- The text form of a clock reading in a request body. -/
def parseTime (s : String) : Option Time := s.toNat?

/-- One assignment `column = value` of a `SET` clause applied to a row; `none` when the store
rejects the value for that column. -/
def assignWorkflow (w : Workflow) (c : WorkflowColumn) (v : JVal) : Option Workflow :=
  match c, v with
  | .id, .num n => if 0 ≤ n then some { w with ID := n.toNat } else none
  | .tenantId, .num n => if 0 ≤ n then some { w with TenantID := n.toNat } else none
  | .name, .str s => some { w with Name := s }
  | .description, .str s => some { w with Description := s }
  | .triggerType, .str s => some { w with TriggerType := s }
  | .triggerConfig, .str s => some { w with TriggerConfig := s }
  | .triggerConfig, .other raw => some { w with TriggerConfig := raw }
  | .status, .str s => some { w with Status := s }
  | .executionCount, .num n => some { w with ExecutionCount := n }
  | .createdAt, .str s => (parseTime s).map (fun t => { w with CreatedAt := t })
  | .updatedAt, .str s => (parseTime s).map (fun t => { w with UpdatedAt := t })
  | .deletedAt, .str s => (parseTime s).map (fun t => { w with DeletedAt := some t })
  | _, _ => none

/-- The `SET` clause GORM builds from an update map, applied to a row: one assignment per key,
and `updated_at = now` when the map gives no value for it. `none` when a key names no column,
two keys name the same column, or a value is rejected. -/
def applyWorkflowUpdates (namer : String → String) (now : Time) (m : GoMap JVal)
    (w : Workflow) : Option Workflow :=
  let cols := m.map (fun kv => workflowColumn namer kv.1)
  if cols.all Option.isSome ∧ cols.Nodup then
    let stamped := if WorkflowColumn.updatedAt ∈ cols.filterMap id then w
                   else { w with UpdatedAt := now }
    m.foldlM (fun (r : Workflow) kv =>
      match workflowColumn namer kv.1 with
      | some c => assignWorkflow r c kv.2
      | none => none) stamped
  else none

/-- `DB.Model(&workflow).Updates(body)`:
`UPDATE workflows SET ... WHERE id = ? AND deleted_at IS NULL`. The statement either changes
every matching row or, when the store rejects it, none; the store rejects it too when it would
give two rows the same primary key. -/
def DB.updatesWorkflow (env : Env) (workflow : Workflow) (m : GoMap JVal) (db : DB) : DB :=
  if env.updateFails then db
  else
    let hit := fun (w : Workflow) => decide (w.ID = workflow.ID) && w.DeletedAt.isNone
    if (db.workflows.filter hit).all
        (fun w => (applyWorkflowUpdates env.namer env.now m w).isSome) then
      let rows := db.workflows.map (fun w =>
        if hit w then (applyWorkflowUpdates env.namer env.now m w).getD w else w)
      if (rows.map (fun w => w.ID)).Nodup ∨ ¬ (db.workflows.map (fun w => w.ID)).Nodup then
        { db with workflows := rows }
      else db
    else db

/-- `Preload("Actions", func(db) { return db.Order("sort_order ASC") })`: the rows of
`workflow_actions` of one workflow by ascending `sort_order`, rows of equal `sort_order` in
table order. -/
def DB.preloadActions (db : DB) (workflowID : Nat) : List WorkflowAction :=
  (db.workflowActions.filter (fun a => a.WorkflowID = workflowID)).mergeSort
    (fun a b => decide (a.SortOrder ≤ b.SortOrder))

end Store

/-! ## The store: the other statements of `handlers/workflow.go` -/

namespace Store

open Models

/-- Go `int` arithmetic on a 64-bit platform: the result of an operation wraps around. -/
def wrapInt64 (n : Int) : Int := (n + 2 ^ 63) % 2 ^ 64 - 2 ^ 63

/-- `DB.First(&action, id)`: the row of `workflow_actions` with that primary key. -/
def DB.firstAction (db : DB) (id : Int) : Option WorkflowAction :=
  db.workflowActions.find? (fun a => decide ((a.ID : Int) = id))

/-- `DB.First(&exec, id)`: the row of `workflow_executions` with that primary key. -/
def DB.firstExecution (db : DB) (id : Int) : Option WorkflowExecution :=
  db.workflowExecutions.find? (fun x => decide ((x.ID : Int) = id))

/-- `Preload("Workflow")`: the workflow a row refers to, unless it is soft-deleted or absent. -/
def DB.preloadWorkflow (db : DB) (workflowID : Nat) : Option Workflow :=
  db.workflows.find? (fun w => decide (w.ID = workflowID) && w.DeletedAt.isNone)

/-- The rows of `workflow_actions` that `WHERE workflow_id = ?` selects for a Go `int`. -/
def DB.actionsOf (db : DB) (workflowID : Int) : List WorkflowAction :=
  db.workflowActions.filter (fun a => decide ((a.WorkflowID : Int) = workflowID))

/-- `Model(&WorkflowAction{}).Where("workflow_id = ?", id).Select("COALESCE(MAX(sort_order), -1)")
.Scan(&maxOrder)`. -/
def DB.maxSortOrder (db : DB) (workflowID : Int) : Int :=
  (((db.actionsOf workflowID).map (fun a => a.SortOrder)).max?).getD (-1)

/-- `DB.Create(&body)` on `workflow_actions`. A zero `ID` is replaced by the next id of the
sequence, a non-zero one is kept; zero `CreatedAt` and `UpdatedAt` are filled in. The store
rejects the row when its primary key is taken or when `workflow_id` does not fit the column
(a `uint` above the largest `bigint`); a sequence value that was drawn stays drawn. -/
def DB.createAction (env : Env) (body : WorkflowAction) (db : DB) :
    DB × WorkflowAction × Bool :=
  let id := if body.ID = 0 then db.actionSeq + 1 else body.ID
  let seq := if body.ID = 0 then db.actionSeq + 1 else db.actionSeq
  if env.insertFails ∨ 2 ^ 63 ≤ body.WorkflowID then (db, body, true)
  else if db.workflowActions.any (fun a => decide (a.ID = id)) then
    ({ db with actionSeq := seq }, body, true)
  else
    let row := { body with
      ID := id,
      CreatedAt := if body.CreatedAt = 0 then env.now else body.CreatedAt,
      UpdatedAt := if body.UpdatedAt = 0 then env.now else body.UpdatedAt }
    ({ db with workflowActions := db.workflowActions ++ [row], actionSeq := seq }, row, false)

/-- The columns of `workflow_actions`. -/
inductive ActionColumn where
  | id | tenantId | workflowId | actionType | config | sortOrder | delaySeconds | condition
  | createdAt | updatedAt
deriving DecidableEq, Repr

/-- The column of `workflow_actions` with the given column name. -/
def actionColumnNamed (name : String) : Option ActionColumn :=
  if name = "id" then some .id
  else if name = "tenant_id" then some .tenantId
  else if name = "workflow_id" then some .workflowId
  else if name = "type" then some .actionType
  else if name = "config" then some .config
  else if name = "sort_order" then some .sortOrder
  else if name = "delay_seconds" then some .delaySeconds
  else if name = "condition" then some .condition
  else if name = "created_at" then some .createdAt
  else if name = "updated_at" then some .updatedAt
  else none

/-- The column of `workflow_actions` a key of an update map names (`Schema.LookUpField`): the
key is looked up among the column names, then among the Go field names, and then as the column
name the naming strategy makes of it. -/
def actionColumn (namer : String → String) (key : String) : Option ActionColumn :=
  if key = "id" ∨ key = "ID" then some .id
  else if key = "tenant_id" ∨ key = "TenantID" then some .tenantId
  else if key = "workflow_id" ∨ key = "WorkflowID" then some .workflowId
  else if key = "type" ∨ key = "Type" then some .actionType
  else if key = "config" ∨ key = "Config" then some .config
  else if key = "sort_order" ∨ key = "SortOrder" then some .sortOrder
  else if key = "delay_seconds" ∨ key = "DelaySeconds" then some .delaySeconds
  else if key = "condition" ∨ key = "Condition" then some .condition
  else if key = "created_at" ∨ key = "CreatedAt" then some .createdAt
  else if key = "updated_at" ∨ key = "UpdatedAt" then some .updatedAt
  else actionColumnNamed (namer key)

/-- Whether an integer fits a `bigint` column. -/
def fitsBigint (n : Int) : Bool := decide (-(2 ^ 63) ≤ n) && decide (n < 2 ^ 63)

/-- One assignment `column = value` of a `SET` clause applied to a row of `workflow_actions`;
`none` when the store rejects the value for that column. An integer column takes an integral
number that fits it; what the driver makes of any other value for such a column is not modelled
beyond a rejection, and the properties below that speak of the value stored are stated for
integral numbers. -/
def assignAction (a : WorkflowAction) (c : ActionColumn) (v : JVal) : Option WorkflowAction :=
  match c, v with
  | .id, .num n => if 0 ≤ n ∧ fitsBigint n then some { a with ID := n.toNat } else none
  | .tenantId, .num n => if 0 ≤ n ∧ fitsBigint n then some { a with TenantID := n.toNat } else none
  | .workflowId, .num n =>
    if 0 ≤ n ∧ fitsBigint n then some { a with WorkflowID := n.toNat } else none
  | .actionType, .str s => some { a with ActionType := s }
  | .config, .str s => some { a with Config := s }
  | .config, .other raw => some { a with Config := raw }
  | .sortOrder, .num n => if fitsBigint n then some { a with SortOrder := n } else none
  | .delaySeconds, .num n => if fitsBigint n then some { a with DelaySeconds := n } else none
  | .condition, .str s => some { a with Condition := s }
  | .condition, .other raw => some { a with Condition := raw }
  | .createdAt, .str s => (parseTime s).map (fun t => { a with CreatedAt := t })
  | .updatedAt, .str s => (parseTime s).map (fun t => { a with UpdatedAt := t })
  | _, _ => none

/-- The `SET` clause GORM builds from an update map, applied to a row of `workflow_actions`: one
assignment per key, and `updated_at = now` when the map gives no value for it. `none` when a key
names no column, two keys name the same column, or a value is rejected. -/
def applyActionUpdates (namer : String → String) (now : Time) (m : GoMap JVal)
    (a : WorkflowAction) : Option WorkflowAction :=
  let cols := m.map (fun kv => actionColumn namer kv.1)
  if cols.all Option.isSome ∧ cols.Nodup then
    let stamped := if ActionColumn.updatedAt ∈ cols.filterMap id then a
                   else { a with UpdatedAt := now }
    m.foldlM (fun (r : WorkflowAction) kv =>
      match actionColumn namer kv.1 with
      | some c => assignAction r c kv.2
      | none => none) stamped
  else none

/-- `DB.Model(&action).Updates(body)`: `UPDATE workflow_actions SET ... WHERE id = ?`. The
statement either changes every matching row or, when the store rejects it, none; the store
rejects it too when it would give two rows the same primary key. -/
def DB.updatesAction (env : Env) (action : WorkflowAction) (m : GoMap JVal) (db : DB) : DB :=
  if env.updateFails then db
  else
    let hit := fun (a : WorkflowAction) => decide (a.ID = action.ID)
    if (db.workflowActions.filter hit).all
        (fun a => (applyActionUpdates env.namer env.now m a).isSome) then
      let rows := db.workflowActions.map (fun a =>
        if hit a then (applyActionUpdates env.namer env.now m a).getD a else a)
      if (rows.map (fun a => a.ID)).Nodup ∨ ¬ (db.workflowActions.map (fun a => a.ID)).Nodup then
        { db with workflowActions := rows }
      else db
    else db

/-- `DB.Model(&WorkflowAction{}).Where("id = ?", id).Update("sort_order", i)`:
`UPDATE workflow_actions SET sort_order = ?, updated_at = ? WHERE id = ?`. -/
def DB.updateSortOrder (env : Env) (id : Nat) (i : Int) (db : DB) : DB :=
  if env.updateFails then db
  else
    { db with workflowActions := db.workflowActions.map (fun a =>
        if a.ID = id then { a with SortOrder := i, UpdatedAt := env.now } else a) }

/-- `DB.Delete(&WorkflowAction{}, id)`: `DELETE FROM workflow_actions WHERE id = ?`. The second
component tells whether the call returned an error. -/
def DB.deleteAction (env : Env) (id : Int) (db : DB) : DB × Bool :=
  if env.deleteFails then (db, true)
  else
    ({ db with workflowActions :=
        db.workflowActions.filter (fun a => !decide ((a.ID : Int) = id)) }, false)

/-- `DB.Delete(&Workflow{}, id)`. `Workflow` carries a `gorm.DeletedAt`, so the row is kept and
marked: `UPDATE workflows SET deleted_at = ? WHERE id = ? AND deleted_at IS NULL`. The second
component tells whether the call returned an error. -/
def DB.deleteWorkflow (env : Env) (id : Int) (db : DB) : DB × Bool :=
  if env.updateFails then (db, true)
  else
    ({ db with workflows := db.workflows.map (fun w =>
        if (w.ID : Int) = id ∧ w.DeletedAt = none then { w with DeletedAt := some env.now }
        else w) }, false)

/-- The table `course_enrollments`, with the last value its id sequence has handed out. -/
structure CourseDB where
  courseEnrollments : List CourseEnrollment
  enrollmentSeq : Nat
deriving DecidableEq, Repr

/-- `DB.Where("contact_id = ? AND course_id = ?", contactID, courseID).First(&existing)`: of
the rows that match, the one with the least primary key; `none` is `ErrRecordNotFound`. -/
def CourseDB.firstEnrollment (db : CourseDB) (contactID : Nat) (courseID : Int) :
    Option CourseEnrollment :=
  ((db.courseEnrollments.filter (fun e =>
      decide (e.ContactID = contactID) && decide ((e.CourseID : Int) = courseID))).mergeSort
    (fun a b => decide (a.ID ≤ b.ID))).head?

/-- `DB.Create(&enrollment)` on `course_enrollments`: the row is stored under the next id of
the sequence with its time stamps filled in; the store rejects it when the pair (`contact_id`,
`course_id`) is already there. The second component tells whether the call returned an error. -/
def CourseDB.createEnrollment (env : Env) (e : CourseEnrollment) (db : CourseDB) :
    CourseDB × CourseEnrollment × Bool :=
  if env.insertFails ∨ db.courseEnrollments.any (fun r =>
      decide (r.ContactID = e.ContactID) && decide (r.CourseID = e.CourseID)) then (db, e, true)
  else
    let row := { e with ID := db.enrollmentSeq + 1, CreatedAt := env.now, UpdatedAt := env.now }
    ({ courseEnrollments := db.courseEnrollments ++ [row],
       enrollmentSeq := db.enrollmentSeq + 1 }, row, false)

/-- One element of the `Actions` of a created workflow, saved with it: the element is stored
under the new workflow, as a new row, or over the row that already has its primary key (whose
`workflow_id` is then set). -/
def DB.saveAssociatedAction (env : Env) (workflowID : Nat) (db : DB) (a : WorkflowAction) : DB :=
  if a.ID ≠ 0 ∧ db.workflowActions.any (fun r => decide (r.ID = a.ID)) then
    { db with workflowActions := db.workflowActions.map (fun r =>
        if r.ID = a.ID then { r with WorkflowID := workflowID } else r) }
  else
    let row := { a with
      ID := if a.ID = 0 then db.actionSeq + 1 else a.ID,
      WorkflowID := workflowID,
      CreatedAt := if a.CreatedAt = 0 then env.now else a.CreatedAt,
      UpdatedAt := if a.UpdatedAt = 0 then env.now else a.UpdatedAt }
    { db with workflowActions := db.workflowActions ++ [row],
              actionSeq := if a.ID = 0 then db.actionSeq + 1 else db.actionSeq }

/-- `DB.Create(&body)` on `workflows`, in one transaction with the `Actions` the body carries.
The store rejects the row when its primary key is taken, and then nothing is stored. -/
def DB.createWorkflow (env : Env) (body : Workflow) (actions : List WorkflowAction) (db : DB) :
    DB × Workflow × Bool :=
  let id := if body.ID = 0 then db.workflowSeq + 1 else body.ID
  if env.insertFails ∨ db.workflows.any (fun w => decide (w.ID = id)) then (db, body, true)
  else
    let row := { body with
      ID := id,
      CreatedAt := if body.CreatedAt = 0 then env.now else body.CreatedAt,
      UpdatedAt := if body.UpdatedAt = 0 then env.now else body.UpdatedAt }
    let db1 := { db with workflows := db.workflows ++ [row],
                         workflowSeq := if body.ID = 0 then db.workflowSeq + 1
                                        else db.workflowSeq }
    (actions.foldl (DB.saveAssociatedAction env id) db1, row, false)

end Store

/-! ## The handlers (`handlers/sanitize.go`, `handlers/workflow.go`) -/

namespace Handlers

open Models Store

/-- The slice `forbidden` of `sanitizeUpdates`. -/
def forbidden : List String :=
  ["id", "ID", "tenant_id", "TenantID", "created_at", "CreatedAt", "deleted_at", "DeletedAt",
   "user_id", "UserID", "password", "Password", "password_hash", "PasswordHash", "role", "Role"]

/-- `func sanitizeUpdates(m map[string]interface{}) map[string]interface{}`:
`for _, key := range forbidden { delete(m, key) }`. -/
def sanitizeUpdates {α : Type} (m : GoMap α) : GoMap α :=
  forbidden.foldl (fun acc key => acc.delete key) m

/-- The JSON document a handler answers with (`gin.H`). -/
inductive Payload where
  | error (msg : String)
  | message (msg : String)
  | workflow (w : Workflow) (actions : List WorkflowAction)
  | execution (e : WorkflowExecution)
  | action (a : WorkflowAction)
  | workflows (rows : List (Workflow × List WorkflowAction)) (total : Nat) (page : Int)
      (pages : Nat)
  | executions (rows : List (WorkflowExecution × Option Workflow)) (total : Nat) (page : Int)
      (pages : Nat)
  | executionDetail (e : WorkflowExecution) (w : Option (Workflow × List WorkflowAction))
  | enrollment (e : CourseEnrollment) (message : Option String)
deriving DecidableEq, Repr

/-- What `c.JSON(status, body)` sends. -/
structure Response where
  status : Nat
  body : Payload
deriving DecidableEq, Repr

/-- `c.ShouldBindJSON(&body)` for `struct { ContactID uint; binding:"required" }`: the input is
the decoded `contact_id` (0 when the field is absent), or `none` when the body does not decode;
`required` rejects the zero value. -/
def bindTrigger (body : Option Nat) : Except String Nat :=
  match body with
  | none => .error "invalid request body"
  | some 0 => .error "Key: 'ContactID' Error:Field validation for 'ContactID' failed on the 'required' tag"
  | some c => .ok c

/-- `func (h *WorkflowHandler) TriggerWorkflow(c *gin.Context)`. `id` is the result of
`strconv.Atoi(c.Param("id"))` (0 when the parameter is not a number) and `body` the request
body. The errors of `DB.Create` and of `UpdateColumn` are not read. -/
def TriggerWorkflow (env : Env) (id : Int) (body : Option Nat) (db : DB) : DB × Response :=
  match bindTrigger body with
  | .error msg => (db, ⟨400, .error msg⟩)
  | .ok contactID =>
    match db.firstWorkflow id with
    | none => (db, ⟨404, .error "Workflow not found"⟩)
    | some workflow =>
      let exec : WorkflowExecution :=
        { ID := 0, TenantID := 1, WorkflowID := goUint id, ContactID := contactID,
          TriggerEvent := "manual", Status := ExecutionRunning, CurrentStep := 0, Log := "",
          StartedAt := env.now, CompletedAt := none, CreatedAt := 0 }
      let created := db.createExecution env exec
      let db2 := created.1.incrementExecutionCount env workflow
      (db2, ⟨201, .execution created.2.1⟩)

/-- `func (h *WorkflowHandler) UpdateWorkflow(c *gin.Context)`. `body` is the decoded JSON
object, `none` when the body does not decode. The error of `Updates` is not read, and the answer
carries the row as it is read back. -/
def UpdateWorkflow (env : Env) (id : Int) (body : Option (GoMap JVal)) (db : DB) :
    DB × Response :=
  match db.firstWorkflow id with
  | none => (db, ⟨404, .error "Workflow not found"⟩)
  | some workflow =>
    match body with
    | none => (db, ⟨400, .error "invalid request body"⟩)
    | some m =>
      let db1 := db.updatesWorkflow env workflow (sanitizeUpdates m)
      let shown := (db1.firstWorkflow id).getD workflow
      (db1, ⟨200, .workflow shown (db1.preloadActions shown.ID)⟩)

/-- `func (h *WorkflowHandler) ListWorkflows(c *gin.Context)`. `page` is the result of
`strconv.Atoi(c.DefaultQuery("page", "1"))`, `search` and `status` are the query parameters
(empty when absent), and `ilike name pattern` is the store's verdict on `name ILIKE pattern`. -/
def ListWorkflows (ilike : String → String → Bool) (page : Int) (search status : String)
    (db : DB) : DB × Response :=
  let page := if page < 1 then 1 else page
  let rows := db.workflows.filter (fun w =>
    w.DeletedAt.isNone && (search = "" || ilike w.Name ("%" ++ search ++ "%")) &&
      (status = "" || w.Status = status))
  let total := rows.length
  let shown := ((rows.mergeSort (fun a b => decide (b.CreatedAt ≤ a.CreatedAt))).drop
    ((page - 1) * 20).toNat).take 20
  (db, ⟨200, .workflows (shown.map (fun w => (w, db.preloadActions w.ID))) total page
    ((total + 19) / 20)⟩)

/-- `func (h *WorkflowHandler) GetWorkflow(c *gin.Context)`. -/
def GetWorkflow (id : Int) (db : DB) : DB × Response :=
  match db.firstWorkflow id with
  | none => (db, ⟨404, .error "Workflow not found"⟩)
  | some workflow => (db, ⟨200, .workflow workflow (db.preloadActions workflow.ID)⟩)

/-- `func (h *WorkflowHandler) CreateWorkflow(c *gin.Context)`. `body` is the decoded
`models.Workflow` with the `actions` it carries, `none` when the body does not decode. -/
def CreateWorkflow (env : Env) (body : Option (Workflow × List WorkflowAction)) (db : DB) :
    DB × Response :=
  match body with
  | none => (db, ⟨400, .error "invalid request body"⟩)
  | some (body, actions) =>
    let body := { body with TenantID := 1 }
    let body := if body.Status = "" then { body with Status := WorkflowStatusDraft } else body
    let created := db.createWorkflow env body actions
    if created.2.2 then (created.1, ⟨500, .error "Failed to create workflow"⟩)
    else (created.1, ⟨201, .workflow created.2.1 (created.1.preloadActions created.2.1.ID)⟩)

/-- `func (h *WorkflowHandler) DeleteWorkflow(c *gin.Context)`. -/
def DeleteWorkflow (env : Env) (id : Int) (db : DB) : DB × Response :=
  let deleted := db.deleteWorkflow env id
  if deleted.2 then (deleted.1, ⟨500, .error "Failed to delete workflow"⟩)
  else (deleted.1, ⟨200, .message "Workflow deleted"⟩)

/-- `func (h *WorkflowHandler) CreateAction(c *gin.Context)`. `id` is the result of
`strconv.Atoi(c.Param("id"))` and `body` the decoded `models.WorkflowAction` (fields the request
leaves out are zero), `none` when the body does not decode. -/
def CreateAction (env : Env) (id : Int) (body : Option WorkflowAction) (db : DB) :
    DB × Response :=
  match body with
  | none => (db, ⟨400, .error "invalid request body"⟩)
  | some body =>
    let body := { body with TenantID := 1, WorkflowID := goUint id }
    let maxOrder := db.maxSortOrder id
    let body := { body with SortOrder := wrapInt64 (maxOrder + 1) }
    let created := db.createAction env body
    if created.2.2 then (created.1, ⟨500, .error "Failed to create action"⟩)
    else (created.1, ⟨201, .action created.2.1⟩)

/-- `func (h *WorkflowHandler) UpdateAction(c *gin.Context)`. The error of `Updates` is not
read, and the answer carries the row as it is read back. -/
def UpdateAction (env : Env) (actionId : Int) (body : Option (GoMap JVal)) (db : DB) :
    DB × Response :=
  match db.firstAction actionId with
  | none => (db, ⟨404, .error "Action not found"⟩)
  | some action =>
    match body with
    | none => (db, ⟨400, .error "invalid request body"⟩)
    | some m =>
      let db1 := db.updatesAction env action (sanitizeUpdates m)
      (db1, ⟨200, .action ((db1.firstAction actionId).getD action)⟩)

/-- `func (h *WorkflowHandler) DeleteAction(c *gin.Context)`. -/
def DeleteAction (env : Env) (actionId : Int) (db : DB) : DB × Response :=
  let deleted := db.deleteAction env actionId
  if deleted.2 then (deleted.1, ⟨500, .error "Failed to delete action"⟩)
  else (deleted.1, ⟨200, .message "Action deleted"⟩)

/-- The loop `for i, id := range body.Order { ... Update("sort_order", i) }` of
`ReorderActions`, from index `i` on: one `UPDATE` per element, each accepted or rejected by the
store on its own, and the error of each `Update` is not read. -/
def reorderLoop (env : Env) (i : Nat) : List Nat → DB → DB
  | [], db => db
  | id :: rest, db =>
    reorderLoop env (i + 1) rest
      (db.updateSortOrder { env with updateFails := env.loopFails i } id i)

/-- `func (h *WorkflowHandler) ReorderActions(c *gin.Context)`. `body` is the decoded `order`
(`[]uint`), `none` when the body does not decode. -/
def ReorderActions (env : Env) (body : Option (List Nat)) (db : DB) : DB × Response :=
  match body with
  | none => (db, ⟨400, .error "invalid request body"⟩)
  | some order => (reorderLoop env 0 order db, ⟨200, .message "Actions reordered"⟩)

/-- `func (h *WorkflowHandler) ListExecutions(c *gin.Context)`. `wid` and `status` are the
query parameters `workflow_id` and `status` (empty when absent). A `workflow_id` that is not a
number makes the store reject both queries, which leaves `total` at 0 and the page empty. The
`Contact` of a row lives in a table outside this model. -/
def ListExecutions (page : Int) (wid status : String) (db : DB) : DB × Response :=
  let page := if page < 1 then 1 else page
  if wid ≠ "" ∧ wid.toInt?.isNone then (db, ⟨200, .executions [] 0 page 0⟩)
  else
    let rows := db.workflowExecutions.filter (fun x =>
      (wid = "" || some (x.WorkflowID : Int) = wid.toInt?) && (status = "" || x.Status = status))
    let total := rows.length
    let shown := ((rows.mergeSort (fun a b => decide (b.CreatedAt ≤ a.CreatedAt))).drop
      ((page - 1) * 20).toNat).take 20
    (db, ⟨200, .executions (shown.map (fun x => (x, db.preloadWorkflow x.WorkflowID))) total
      page ((total + 19) / 20)⟩)

/-- `func (h *WorkflowHandler) GetExecution(c *gin.Context)`. The `Contact` of the row lives in
a table outside this model. -/
def GetExecution (execId : Int) (db : DB) : DB × Response :=
  match db.firstExecution execId with
  | none => (db, ⟨404, .error "Execution not found"⟩)
  | some exec =>
    (db, ⟨200, .executionDetail exec
      ((db.preloadWorkflow exec.WorkflowID).map (fun w => (w, db.preloadActions w.ID)))⟩)

/-- One request to the workflow routes, with what the handler reads from it. -/
inductive Op where
  | listWorkflows (ilike : String → String → Bool) (page : Int) (search status : String)
  | getWorkflow (id : Int)
  | createWorkflow (body : Option (Workflow × List WorkflowAction))
  | updateWorkflow (id : Int) (body : Option (GoMap JVal))
  | deleteWorkflow (id : Int)
  | createAction (id : Int) (body : Option WorkflowAction)
  | updateAction (actionId : Int) (body : Option (GoMap JVal))
  | deleteAction (actionId : Int)
  | reorderActions (body : Option (List Nat))
  | listExecutions (page : Int) (wid status : String)
  | getExecution (execId : Int)
  | triggerWorkflow (id : Int) (body : Option Nat)

/-- The handler a request is routed to, applied to the store. -/
def step (env : Env) (op : Op) (db : DB) : DB × Response :=
  match op with
  | .listWorkflows ilike page search status => ListWorkflows ilike page search status db
  | .getWorkflow id => GetWorkflow id db
  | .createWorkflow body => CreateWorkflow env body db
  | .updateWorkflow id body => UpdateWorkflow env id body db
  | .deleteWorkflow id => DeleteWorkflow env id db
  | .createAction id body => CreateAction env id body db
  | .updateAction actionId body => UpdateAction env actionId body db
  | .deleteAction actionId => DeleteAction env actionId db
  | .reorderActions body => ReorderActions env body db
  | .listExecutions page wid status => ListExecutions page wid status db
  | .getExecution execId => GetExecution execId db
  | .triggerWorkflow id body => TriggerWorkflow env id body db

/-- A sequence of requests served one after the other, each in its own environment. -/
def run : List (Env × Op) → DB → DB
  | [], db => db
  | (env, op) :: rest, db => run rest (step env op db).1

/-- `c.ShouldBindJSON(&body)` for
`struct { ContactID uint; binding:"required"; Source string }`: the input is the decoded pair
(zero values for absent fields), or `none` when the body does not decode; `required` rejects
the zero `contact_id`. -/
def bindEnroll (body : Option (Nat × String)) : Except String (Nat × String) :=
  match body with
  | none => .error "invalid request body"
  | some (0, _) =>
    .error "Key: 'ContactID' Error:Field validation for 'ContactID' failed on the 'required' tag"
  | some (c, source) => .ok (c, source)

/-- `func (h *CourseHandler) EnrollContact(c *gin.Context)` (`handlers/course.go`). `id` is the
result of `strconv.Atoi(c.Param("id"))`; the state is the table of enrollments and the default
event bus, on which `events.Emit(events.CourseEnrolled, enrollment)` publishes. -/
def EnrollContact {σ : Type} (env : Env) (id : Int) (body : Option (Nat × String))
    (db : CourseDB) (x : Events.Exec σ CourseEnrollment) :
    CourseDB × Events.Exec σ CourseEnrollment × Response :=
  match bindEnroll body with
  | .error msg => (db, x, ⟨400, .error msg⟩)
  | .ok (contactID, source) =>
    match db.firstEnrollment contactID id with
    | some existing => (db, x, ⟨200, .enrollment existing (some "Already enrolled")⟩)
    | none =>
      let enrollment : CourseEnrollment :=
        { ID := 0, TenantID := 1, ContactID := contactID, CourseID := goUint id,
          Status := EnrollStatusActive, EnrolledAt := env.now, CompletedAt := none,
          ProgressPercentage := 0, Source := if source = "" then "manual" else source,
          CreatedAt := 0, UpdatedAt := 0 }
      let created := db.createEnrollment env enrollment
      if created.2.2 then (created.1, x, ⟨500, .error "Failed to enroll contact"⟩)
      else (created.1, Events.Bus.Emit Events.CourseEnrolled created.2.1 x,
        ⟨201, .enrollment created.2.1 none⟩)

/-- A table in which contact 7 is enrolled in course 3. -/
def demoCourseDB : CourseDB :=
  { courseEnrollments := [⟨1, 1, 7, 3, EnrollStatusActive, 5, none, 0, "purchase", 5, 5⟩],
    enrollmentSeq := 1 }

/-- A bus with one subscriber, handler 4, to `course.enrolled`. -/
def demoCourseExec : Events.Exec Nat CourseEnrollment :=
  ⟨⟨⟨[(Events.CourseEnrolled, [4])]⟩, [], 0⟩, [], []⟩

/-- No two rows of `workflow_actions` that belong to the same workflow share a `sort_order`. -/
def SortOrderUnique (db : DB) : Prop :=
  db.workflowActions.Pairwise
    (fun a b => ¬ (a.WorkflowID = b.WorkflowID ∧ a.SortOrder = b.SortOrder))

/-- Whether a request is one of `CreateAction`, `UpdateAction`, `DeleteAction` and
`ReorderActions`. -/
def Op.isActionOp : Op → Bool
  | .createAction _ _ => true
  | .updateAction _ _ => true
  | .deleteAction _ => true
  | .reorderActions _ => true
  | _ => false

/-- The action requests under which `sort_order` stays unique, judged in the environment and
the store they are served in: a `CreateAction` for a workflow whose stored values are below the
largest Go `int`; an `UpdateAction` whose body has no key that names `sort_order` or
`workflow_id`, whichever way the key is resolved; any `DeleteAction`; a `ReorderActions` whose
list names all the actions of a workflow or none of them and whose updates the store accepts
all or rejects all. -/
def admissible (env : Env) (op : Op) (db : DB) : Prop :=
  match op with
  | .createAction id _ =>
    (-(2 ^ 63) ≤ id ∧ id < 2 ^ 63) ∧
      ∀ a ∈ db.actionsOf id, -(2 ^ 63) ≤ a.SortOrder ∧ a.SortOrder < 2 ^ 63 - 1
  | .updateAction _ (some m) =>
    ∀ kv ∈ m, actionColumn env.namer kv.1 ≠ some .sortOrder ∧
      actionColumn env.namer kv.1 ≠ some .workflowId
  | .updateAction _ none => True
  | .deleteAction _ => True
  | .reorderActions (some order) =>
    (∀ a ∈ db.workflowActions, ∀ b ∈ db.workflowActions,
      a.WorkflowID = b.WorkflowID → (a.ID ∈ order ↔ b.ID ∈ order)) ∧
    ((∀ i, i < order.length → env.loopFails i = false) ∨
      (∀ i, i < order.length → env.loopFails i = true))
  | .reorderActions none => True
  | _ => False

/-- Every request of the sequence is admissible in the store it meets. -/
def Admissible : List (Env × Op) → DB → Prop
  | [], _ => True
  | (env, op) :: rest, db => admissible env op db ∧ Admissible rest (step env op db).1

/-- What the loop of `ReorderActions`, from index `i` on, does to one row when the store
accepts the updates. -/
def reorderRow (now : Time) (i : Nat) : List Nat → WorkflowAction → WorkflowAction
  | [], a => a
  | id :: rest, a =>
    reorderRow now (i + 1) rest
      (if a.ID = id then { a with SortOrder := (i : Int), UpdatedAt := now } else a)

/-- The store `db` with the status of every workflow replaced by `f` of the row. -/
def withStatuses (f : Workflow → String) (db : DB) : DB :=
  { db with workflows := db.workflows.map (fun w => { w with Status := f w }) }

/-- A store with an active workflow 1, a paused workflow 2, a draft workflow 3, one action of
workflow 1 and one running execution of workflow 1. -/
def demoDB : DB :=
  { workflows :=
      [⟨1, 1, "welcome", "", "event", "", WorkflowStatusActive, 4, 10, 10, none⟩,
       ⟨2, 1, "upsell", "", "manual", "", WorkflowStatusPaused, 1, 11, 12, none⟩,
       ⟨3, 1, "idea", "", "manual", "", WorkflowStatusDraft, 0, 13, 13, none⟩],
    workflowActions := [⟨1, 1, 1, "add_tag", "", 0, 0, "", 10, 10⟩],
    workflowExecutions := [⟨1, 1, 1, 7, "manual", ExecutionRunning, 0, "", 12, none, 12⟩],
    workflowSeq := 3, actionSeq := 1, executionSeq := 1 }

/-- A request body for `CreateAction`: a `wait` action that asks for `sort_order` 55 and a
`delay_seconds` of -5. -/
def demoAction : WorkflowAction := ⟨0, 9, 77, "wait", "", 55, -5, "", 0, 0⟩

/-- The demo store with a second execution, of workflow 1, that has failed at step 1. -/
def demoDB2 : DB :=
  { demoDB with
    workflowExecutions := demoDB.workflowExecutions ++
      [⟨2, 1, 1, 8, "manual", ExecutionFailed, 1, "[]", 14, some 15, 14⟩],
    executionSeq := 2 }

/-- A naming strategy: an upper-case letter becomes lower-case, after an underscore when it
follows a lower-case letter or a digit. It makes `sort_order` of `sortOrder` and
`delay_seconds` of `delaySeconds`, as the default strategy of GORM does. -/
def snakeCase (key : String) : String :=
  let rec go (follows : Bool) : List Char → List Char
    | [] => []
    | c :: cs =>
      if c.isUpper then
        if follows then '_' :: c.toLower :: go false cs else c.toLower :: go false cs
      else c :: go (c.isLower || c.isDigit) cs
  ⟨go false key.data⟩

/-- A request environment in which the store accepts every statement, with `snakeCase` as the
naming strategy. -/
def demoEnv : Env := ⟨20, false, false, false, snakeCase, fun _ => false⟩

/-- The demo store with a second action of workflow 1, of `sort_order` 1. -/
def demoTwoDB : DB :=
  { demoDB with
    workflowActions := demoDB.workflowActions ++ [⟨2, 1, 1, "wait", "", 1, 0, "", 11, 11⟩],
    actionSeq := 2 }

/-- A sequence of requests that goes through every kind of write: an update and a soft delete
of workflow 1, a new action, a reorder, a delete of action 1, and a trigger of workflow 2. -/
def demoOps : List (Env × Op) :=
  [(demoEnv, .updateWorkflow 1 (some [("status", .str WorkflowStatusPaused)])),
   (demoEnv, .createAction 1 (some demoAction)),
   (demoEnv, .reorderActions (some [2, 1])),
   (demoEnv, .deleteAction 1),
   (demoEnv, .deleteWorkflow 1),
   (demoEnv, .triggerWorkflow 2 (some 9)),
   (demoEnv, .listExecutions 1 "" ""),
   (demoEnv, .getExecution 2)]

end Handlers

/-! ## The automation engine of the specification

The scheduler, the action executor, the condition evaluator and the trigger matcher are not
among the source files; what follows is written from sections 3 and 4 of the specification. -/

namespace Engine

open Models Store

/-- Modelled from the spec: the `Outcome` of `ActionExecutor.Execute` (section 4.3),
`Success`, `TransientFailure(reason)` or `PermanentFailure(reason)`. The executor is missing
from the source. -/
inductive Outcome where
  | success
  | transientFailure (reason : String)
  | permanentFailure (reason : String)
deriving DecidableEq, Repr

/-- Modelled from the spec: what the log records for a step (section 4.4, steps 2 and 5), that
it was skipped or that it was attempted with an outcome. The log format is missing from the
source. -/
inductive StepOutcome where
  | skipped
  | attempted (o : Outcome)
deriving DecidableEq, Repr

/-- Modelled from the spec: a log entry `{step index, action type, outcome, timestamp}`
(section 4.4, step 5). The log format is missing from the source. -/
structure LogEntry where
  step : Nat
  actionType : String
  outcome : StepOutcome
  timestamp : Time
deriving DecidableEq, Repr

/-- Modelled from the spec: the `WorkflowExecution` of section 3 as the scheduler keeps it,
with the log as an ordered list, the marker `resume no earlier than T` of section 4.4 step 3,
and the verdict of a `condition` action on the action after it. The scheduler state is missing
from the source. -/
structure Execution where
  ID : Nat
  WorkflowID : Nat
  SubjectID : Nat
  TriggerEvent : String
  Status : String
  CurrentStep : Nat
  Log : List LogEntry
  StartedAt : Time
  CompletedAt : Option Time
  ResumeAt : Option Time
  SkipNext : Bool
deriving DecidableEq, Repr

/-- Modelled from the spec: the execution the scheduler starts from for a stored row just
created by a trigger (`status = running`, `current_step = 0`, empty log). The hand-over to the
scheduler is missing from the source. -/
def Execution.ofRow (row : WorkflowExecution) : Execution :=
  { ID := row.ID, WorkflowID := row.WorkflowID, SubjectID := row.ContactID,
    TriggerEvent := row.TriggerEvent, Status := row.Status, CurrentStep := row.CurrentStep.toNat,
    Log := [], StartedAt := row.StartedAt, CompletedAt := row.CompletedAt, ResumeAt := none,
    SkipNext := false }

/-- Modelled from the spec: the collaborators of the scheduler, `ActionExecutor.Execute(action,
context)` (section 4.3) and `ConditionEvaluator.Evaluate(condition, context)` (section 4.2),
with the execution as the context. Both are missing from the source. -/
structure Collaborators where
  execute : WorkflowAction → Execution → Outcome
  evaluate : JSON → Execution → Bool

/-- Modelled from the spec: an execution together with the calls into the `ActionExecutor` made
for it so far, in order. The executor is missing from the source. -/
structure Run where
  exec : Execution
  executed : List WorkflowAction

/-- Modelled from the spec: section 4.4 step 5, record a log entry for the current step. The
scheduler is missing from the source. -/
def logged (x : Execution) (a : WorkflowAction) (o : StepOutcome) (now : Time) : Execution :=
  { x with Log := x.Log ++ [⟨x.CurrentStep, a.ActionType, o, now⟩] }

/-- Modelled from the spec: section 4.4 step 6, advance `current_step`; if past the last of the
`n` actions, set `status = completed`, `completed_at = now`. The scheduler is missing from the
source. -/
def advanceStep (n : Nat) (now : Time) (x : Execution) : Execution :=
  if n ≤ x.CurrentStep + 1 then
    { x with CurrentStep := x.CurrentStep + 1, ResumeAt := none,
             Status := ExecutionCompleted, CompletedAt := some now }
  else { x with CurrentStep := x.CurrentStep + 1, ResumeAt := none }

/-- Modelled from the spec: section 4.4 steps 7 and 8, set `status = failed`,
`completed_at = now`. The scheduler is missing from the source. -/
def failed (now : Time) (x : Execution) : Execution :=
  { x with Status := ExecutionFailed, CompletedAt := some now }

/-- Modelled from the spec: when the previous step completed, or when the run started for the
first action (section 4.4 step 3). The scheduler is missing from the source. -/
def lastStepAt (x : Execution) : Time :=
  match x.Log.getLast? with
  | some e => e.timestamp
  | none => x.StartedAt

/-- Modelled from the spec: the per-step procedure of section 4.4, steps 1 to 8, for the action
at `current_step`; the flag tells whether the run goes on to the next step. An action after a
`condition` action that evaluated to false, or one whose own condition evaluates to false, is
skipped and logged as such; an action whose delay has not elapsed suspends the run with the
marker set; `wait` and `condition` actions make no executor call; any failure of the executor
ends the run as failed. The scheduler is missing from the source. -/
def stepOnce (K : Collaborators) (actions : List WorkflowAction) (now : Time) (r : Run) :
    Run × Bool :=
  match actions[r.exec.CurrentStep]? with
  | none => (r, false)
  | some a =>
    if r.exec.SkipNext then
      ({ r with exec := (advanceStep actions.length now
          { (logged r.exec a .skipped now) with SkipNext := false }) }, true)
    else if a.ActionType ≠ "condition" ∧ a.Condition ≠ "" ∧
        K.evaluate a.Condition r.exec = false then
      ({ r with exec := advanceStep actions.length now (logged r.exec a .skipped now) }, true)
    else if 0 < a.DelaySeconds ∧ (now : Int) < (lastStepAt r.exec : Int) + a.DelaySeconds then
      ({ r with exec := { r.exec with
          ResumeAt := some ((lastStepAt r.exec : Int) + a.DelaySeconds).toNat } }, false)
    else if a.ActionType = "wait" then
      ({ r with exec := (advanceStep actions.length now
          (logged r.exec a (.attempted .success) now)) }, true)
    else if a.ActionType = "condition" then
      ({ r with exec := (advanceStep actions.length now
          { (logged r.exec a (.attempted .success) now) with
            SkipNext := !K.evaluate a.Condition r.exec }) }, true)
    else
      match K.execute a r.exec with
      | .success =>
        ({ exec := advanceStep actions.length now (logged r.exec a (.attempted .success) now),
           executed := r.executed ++ [a] }, true)
      | o =>
        ({ exec := failed now (logged r.exec a (.attempted o) now),
           executed := r.executed ++ [a] }, false)

/-- Modelled from the spec: the loop of section 4.4, the per-step procedure repeated while
`status == running` and `current_step < len(actions)`, for at most `fuel` steps. The scheduler
is missing from the source. -/
def advance (K : Collaborators) (actions : List WorkflowAction) (now : Time) :
    Nat → Run → Run
  | 0, r => r
  | fuel + 1, r =>
    if r.exec.Status = ExecutionRunning ∧ r.exec.CurrentStep < actions.length then
      match stepOnce K actions now r with
      | (r1, true) => advance K actions now fuel r1
      | (r1, false) => r1
    else r

/-- Modelled from the spec: `ExecutionScheduler.Tick()` at time `now` for one execution
(section 6): the run is continued until it suspends or ends; every step that goes on raises
`current_step`, so `len(actions)` steps are enough. The scheduler is missing from the source. -/
def tick (K : Collaborators) (actions : List WorkflowAction) (now : Time) (r : Run) : Run :=
  advance K actions now actions.length r

/-- Modelled from the spec: the resumption passes of an external periodic driver, one `Tick()`
per clock reading of the list. The driver is missing from the source. -/
def ticks (K : Collaborators) (actions : List WorkflowAction) : List Time → Run → Run
  | [], r => r
  | now :: rest, r => ticks K actions rest (tick K actions now r)

/-- The steps a run of `actions` goes through, as the log names them: index and action type. -/
def planned (actions : List WorkflowAction) : List (Nat × String) :=
  actions.enum.map (fun p => (p.1, p.2.ActionType))

/-- The steps a log records, in order: index and action type. -/
def steps (x : Execution) : List (Nat × String) :=
  x.Log.map (fun e => (e.step, e.actionType))

/-- Modelled from the spec: the trigger configuration of an event-triggered definition names
the event, with an optional payload filter (section 3); `matches config event subject` is
whether a configuration matches, `none` for a malformed one, which is skipped (section 7).
The configuration format is missing from the source. -/
structure Matcher where
  matchesEvent : JSON → String → Nat → Option Bool

/-- Modelled from the spec: a definition carries the trigger of an event when it is stored (not
deleted), event-triggered, and its configuration matches (section 4.5). The trigger matcher is
missing from the source. -/
def hasTrigger (M : Matcher) (event : String) (subject : Nat) (w : Workflow) : Bool :=
  w.DeletedAt.isNone && decide (w.TriggerType = "event") &&
    decide (M.matchesEvent w.TriggerConfig event subject = some true)

/-- Modelled from the spec: for one matching definition, create a new `WorkflowExecution` with
`status = running`, `current_step = 0`, `trigger_event = event name`, and increment the
definition's `execution_count` (section 4.5). The trigger matcher is missing from the source. -/
def startExecution (env : Env) (event : String) (subject : Nat) (db : DB) (w : Workflow) : DB :=
  let exec : WorkflowExecution :=
    { ID := 0, TenantID := w.TenantID, WorkflowID := w.ID, ContactID := subject,
      TriggerEvent := event, Status := ExecutionRunning, CurrentStep := 0, Log := "",
      StartedAt := env.now, CompletedAt := none, CreatedAt := 0 }
  let created := db.createExecution env exec
  if created.2.2 then created.1 else created.1.incrementExecutionCount env w

/-- Modelled from the spec: `TriggerMatcher` on an event (section 4.5): find the definitions
with `status = active`, `trigger_type = event` and a matching `trigger_config`, and start an
execution for each match. The trigger matcher is missing from the source. -/
def onEvent (M : Matcher) (env : Env) (event : String) (subject : Nat) (db : DB) : DB :=
  (db.workflows.filter (fun w =>
      hasTrigger M event subject w && decide (w.Status = WorkflowStatusActive))).foldl
    (startExecution env event subject) db

/-- The log lists the steps taken so far, in the order of the action list, one entry per step:
the invariant of the scheduler behind the ordering of the log. -/
def LogInOrder (actions : List WorkflowAction) (x : Execution) : Prop :=
  steps x = (planned actions).take x.Log.length ∧ x.Log.length ≤ actions.length ∧
  (x.Status = ExecutionRunning → x.Log.length = x.CurrentStep) ∧
  (x.Status = ExecutionCompleted → x.Log.length = actions.length)

/-- The workflow of the end-to-end scenarios of the specification, `add_tag("vip")` at delay 0,
`wait` at delay 86400 and `send_email("welcome")` at delay 0, with its actions stored out of
order, and a paused and a second active definition with the same event trigger. -/
def demoEngineDB : DB :=
  { workflows :=
      [⟨1, 1, "vip", "", "event", "purchase.completed", WorkflowStatusActive, 0, 1, 1, none⟩,
       ⟨2, 1, "old", "", "event", "purchase.completed", WorkflowStatusPaused, 0, 2, 2, none⟩,
       ⟨3, 1, "thanks", "", "event", "purchase.completed", WorkflowStatusActive, 0, 3, 3, none⟩,
       ⟨4, 1, "other", "", "event", "contact.created", WorkflowStatusActive, 0, 4, 4, none⟩],
    workflowActions :=
      [⟨1, 1, 1, "send_email", "welcome", 2, 0, "", 1, 1⟩,
       ⟨2, 1, 1, "add_tag", "vip", 0, 0, "", 1, 1⟩,
       ⟨3, 1, 1, "wait", "", 1, 86400, "", 1, 1⟩],
    workflowExecutions := [],
    workflowSeq := 4, actionSeq := 3, executionSeq := 0 }

/-- The actions of workflow 1 of the demo store by ascending `sort_order`. -/
def demoActions : List WorkflowAction :=
  [⟨2, 1, 1, "add_tag", "vip", 0, 0, "", 1, 1⟩, ⟨3, 1, 1, "wait", "", 1, 86400, "", 1, 1⟩,
   ⟨1, 1, 1, "send_email", "welcome", 2, 0, "", 1, 1⟩]

/-- Collaborators for which every action succeeds and every condition holds. -/
def demoSuccess : Collaborators := ⟨fun _ _ => .success, fun _ _ => true⟩

/-- Collaborators for which `add_tag` fails permanently and everything else succeeds. -/
def demoTagFails : Collaborators :=
  ⟨fun a _ => if a.ActionType = "add_tag" then .permanentFailure "no such subject" else .success,
   fun _ _ => true⟩

/-- A stored execution of workflow 1 for subject 7 as a trigger creates it at time 100. -/
def demoRow : WorkflowExecution :=
  ⟨1, 1, 1, 7, "purchase.completed", ExecutionRunning, 0, "", 100, none, 100⟩

/-- A matcher for configurations that hold just the event name. -/
def demoMatcher : Matcher := ⟨fun config event _ => some (config == event)⟩

end Engine

/-! ## Go strings

A Go string is a sequence of bytes. For the functions of package `strings` used here, which
return pieces of their argument, it is taken to hold valid UTF-8 and is a `String`. For code that
rebuilds a string from the runes `range` yields, where a byte outside an encoding is not kept,
it is a `GoString`: a list of characters and of such bytes. -/

namespace GoStrings

/-- `unicode.IsSpace`: the white space characters of Unicode. -/
def isSpace (c : Char) : Bool :=
  c.toNat = 0x09 || c.toNat = 0x0A || c.toNat = 0x0B || c.toNat = 0x0C || c.toNat = 0x0D ||
  c.toNat = 0x20 || c.toNat = 0x85 || c.toNat = 0xA0 || c.toNat = 0x1680 ||
  (0x2000 ≤ c.toNat && c.toNat ≤ 0x200A) || c.toNat = 0x2028 || c.toNat = 0x2029 ||
  c.toNat = 0x202F || c.toNat = 0x205F || c.toNat = 0x3000

/-- `strings.TrimSpace(s)`: `s` without its leading and trailing white space. -/
def TrimSpace (s : String) : String :=
  ⟨((s.data.dropWhile isSpace).reverse.dropWhile isSpace).reverse⟩

/-- `strings.ReplaceAll(s, old, new)` for `old` and `new` of one character each. -/
def ReplaceAll (s : String) (old new : Char) : String :=
  ⟨s.data.map (fun c => if c = old then new else c)⟩

/-- The pieces of a list of characters between the characters that satisfy `p`; a list without
such a character is one piece. -/
def splitWhere (p : Char → Bool) : List Char → List (List Char)
  | [] => [[]]
  | c :: cs =>
    if p c then [] :: splitWhere p cs
    else
      match splitWhere p cs with
      | [] => [[c]]
      | piece :: rest => (c :: piece) :: rest

/-- `strings.Split(s, sep)` for `sep` of one character. -/
def Split (s : String) (sep : Char) : List String :=
  (splitWhere (fun c => c == sep) s.data).map String.mk

/-- What `range` meets at one position of a Go string, which may hold any bytes: a character in
its UTF-8 encoding, or a byte that starts no valid encoding. -/
inductive Segment where
  | char (c : Char)
  | bad (byte : Nat)
deriving DecidableEq, Repr

/-- A Go string as the sequence of segments `range` goes through; the functions that rebuild a
string from its runes are modelled on it. -/
abbrev GoString := List Segment

/-- The rune `range` yields for a segment: the character, or U+FFFD with a width of one byte for
a byte that starts no valid encoding. -/
def Segment.rune : Segment → Char
  | .char c => c
  | .bad _ => Char.ofNat 0xFFFD

/-- The Go string that holds the UTF-8 encoding of `s`. -/
def ofString (s : String) : GoString := s.data.map .char

/-- Whether the segment is a character. -/
def Segment.isChar : Segment → Bool
  | .char _ => true
  | .bad _ => false

/-- `utf8.ValidString(s)`: no byte is outside an encoding. -/
def validUTF8 (s : GoString) : Bool := s.all Segment.isChar

end GoStrings

/-! ## Import and export helpers (`handlers/import_helpers.go`, `handlers/analytics.go`) -/

namespace Handlers

open GoStrings

/-- The index expression `row[i]` of Go: it panics when `i` is outside `0 <= i < len(row)`. -/
def index (row : List String) (i : Int) : Except String String :=
  if 0 ≤ i ∧ i < row.length then .ok (row.getD i.toNat "")
  else .error "runtime error: index out of range"

/-- `func safeIndex(row []string, i int) string`; the result is an error when the call
panics. -/
def safeIndex (row : List String) (i : Int) : Except String String :=
  if i ≥ row.length then .ok ""
  else (index row i).map TrimSpace

/-- `func parsePastedEmails(text string) [][]string`. -/
def parsePastedEmails (text : String) : List (List String) :=
  let text := ReplaceAll text ';' '\n'
  let text := ReplaceAll text ',' '\n'
  let lines := Split text '\n'
  lines.foldl (fun rows line =>
    let email := TrimSpace line
    if email ≠ "" then rows ++ [[email]] else rows) []

/-- A separator of pasted text: comma, semicolon or newline. -/
def isSeparator (c : Char) : Bool := c == ',' || c == ';' || c == '\n'

/-- The reading of pasted text as the claim words it: split the text at every comma, semicolon
and newline, trim each piece, keep the non-empty ones in order, and wrap each as a single-cell
row. -/
def pastedEmailsSpec (text : String) : List (List String) :=
  (((splitWhere isSeparator text.data).map (fun piece => TrimSpace ⟨piece⟩)).filter
    (fun email => decide (email ≠ ""))).map (fun email => [email])

/-- `func containsAny(s, chars string) bool`: the two nested loops over the runes of `chars`
and of `s`, with their early return. -/
def containsAny (s chars : GoString) : Bool :=
  chars.any (fun c => s.any (fun sc => c.rune == sc.rune))

/-- `func escapeQuotes(s string) string`: the loop over the runes of `s` that appends to
`result` either two double quotes or `string(c)`, the encoding of the rune. -/
def escapeQuotes (s : GoString) : GoString :=
  s.foldl (fun result seg =>
    if seg.rune = '"' then result ++ ofString "\"\"" else result ++ [.char seg.rune]) []

/-- `func csvEscape(s string) string`. `s[0] == '"'` tests the first byte, which is a double
quote exactly when the first segment is that character. -/
def csvEscape (s : GoString) : GoString :=
  if s = [] then []
  else if s.length > 0 ∧
      (s.head? = some (.char '"') ∨ containsAny s (ofString ",\"\n\r") = true) then
    ofString "\"" ++ escapeQuotes s ++ ofString "\""
  else s

/-- Turn each doubled quote into one quote. -/
def undouble : GoString → GoString
  | [] => []
  | [c] => [c]
  | c :: d :: rest =>
    if c = .char '"' ∧ d = .char '"' then .char '"' :: undouble rest
    else c :: undouble (d :: rest)

/-- Reading a text as a single RFC 4180 CSV field, as the claim words it: strip the enclosing
quotes if present and turn each doubled quote into one quote. -/
def readCsvField (t : GoString) : GoString :=
  match t with
  | [] => t
  | c :: rest =>
    if c = .char '"' ∧ rest.getLast? = some (.char '"') then undouble rest.dropLast else t

/-- The text `s` with every double quote doubled. -/
def doubledQuotes (s : GoString) : GoString :=
  s.flatMap (fun seg => if seg = .char '"' then [seg, seg] else [seg])

/-- Whether `s` holds a comma, a double quote, a line feed or a carriage return. -/
def hasSpecial (s : GoString) : Bool :=
  s.any (fun seg =>
    seg == .char ',' || seg == .char '"' || seg == .char '\n' || seg == .char '\r')

end Handlers

/-! ## Quiz scoring (`handlers/course.go`, `models/course.go`) -/

namespace Models

/-- `type QuizQuestion struct` with its columns. -/
structure QuizQuestion where
  ID : Nat
  TenantID : Nat
  QuizID : Nat
  Question : String
  QuestionType : String
  Options : JSON
  CorrectAnswer : String
  Explanation : String
  SortOrder : Int
  Points : Int
  CreatedAt : Time
  UpdatedAt : Time
deriving DecidableEq, Repr

end Models

namespace Handlers

open Models Store GoStrings

/-- One element of `body.Answers` of `SubmitQuizAttempt`:
`struct { QuestionID uint; Answer string }`. -/
structure QuizAnswer where
  QuestionID : Nat
  Answer : String
deriving DecidableEq, Repr

/-- The inner loop `for _, a := range body.Answers { if ... { earnedPoints += q.Points } }` of
`SubmitQuizAttempt` for one question `q`. `equalFold` is `strings.EqualFold`. -/
def answersLoop (equalFold : String → String → Bool) (q : QuizQuestion) :
    List QuizAnswer → Int → Int
  | [], earnedPoints => earnedPoints
  | a :: rest, earnedPoints =>
    if a.QuestionID = q.ID ∧
        equalFold (TrimSpace a.Answer) (TrimSpace q.CorrectAnswer) = true then
      answersLoop equalFold q rest (wrapInt64 (earnedPoints + q.Points))
    else answersLoop equalFold q rest earnedPoints

/-- The scoring loop `for _, q := range quiz.Questions { totalPoints += q.Points; ... }` of
`SubmitQuizAttempt`, on the pair `(totalPoints, earnedPoints)`. -/
def questionsLoop (equalFold : String → String → Bool) (answers : List QuizAnswer) :
    List QuizQuestion → Int × Int → Int × Int
  | [], acc => acc
  | q :: rest, (totalPoints, earnedPoints) =>
    questionsLoop equalFold answers rest
      (wrapInt64 (totalPoints + q.Points), answersLoop equalFold q answers earnedPoints)

/-- The scoring of `SubmitQuizAttempt`: `totalPoints` and `earnedPoints` after the loop, both
starting from 0. -/
def scoreQuiz (equalFold : String → String → Bool) (questions : List QuizQuestion)
    (answers : List QuizAnswer) : Int × Int :=
  questionsLoop equalFold answers questions (0, 0)

/-- The score computed after the loop:
`score := float64(0); if totalPoints > 0 { score = float64(earnedPoints) / float64(totalPoints) * 100 }`,
as the exact quotient (the floating-point result is its rounding). -/
def scorePercent (points : Int × Int) : ℚ :=
  if points.1 > 0 then (points.2 : ℚ) / (points.1 : ℚ) * 100 else 0

/-- Equality of two texts; `strings.EqualFold` holds at least for equal texts. -/
def sameText (a b : String) : Bool := a == b

/-- A question worth one point whose correct answer is `a`. -/
def demoQuestion : QuizQuestion :=
  ⟨1, 1, 1, "first letter?", "multiple_choice", "[]", "a", "", 0, 1, 0, 0⟩

/-- Two answers to the same question, both correct. -/
def demoAnswers : List QuizAnswer := [⟨1, "a"⟩, ⟨1, "a"⟩]

end Handlers

/-! ## Affiliate payouts (`handlers/affiliate.go`, `models/affiliate.go`) -/

namespace Models

/-- `CommissionPending`. -/
def CommissionPending : String := "pending"
/-- `CommissionApproved`. -/
def CommissionApproved : String := "approved"
/-- `CommissionPaid`. -/
def CommissionPaid : String := "paid"
/-- `PayoutPending`. -/
def PayoutPending : String := "pending"
/-- `PayoutCompleted`. -/
def PayoutCompleted : String := "completed"

/-- `type AffiliateAccount struct` with its columns; amounts are in cents. -/
structure AffiliateAccount where
  ID : Nat
  TenantID : Nat
  ContactID : Nat
  ProgramID : Nat
  Status : String
  ReferralCode : String
  CustomSlug : String
  Balance : Int
  TotalEarned : Int
  TotalPaid : Int
  CreatedAt : Time
  UpdatedAt : Time
  DeletedAt : Option Time
deriving DecidableEq, Repr

/-- `type Commission struct` with its columns. -/
structure Commission where
  ID : Nat
  TenantID : Nat
  AccountID : Nat
  OrderID : Option Nat
  ProductID : Option Nat
  Amount : Int
  Status : String
  ApprovedAt : Option Time
  PaidAt : Option Time
  CreatedAt : Time
deriving DecidableEq, Repr

/-- `type Payout struct` with its columns. -/
structure Payout where
  ID : Nat
  TenantID : Nat
  AccountID : Nat
  Amount : Int
  Method : String
  Status : String
  ProcessedAt : Option Time
  TransactionID : String
  CreatedAt : Time
deriving DecidableEq, Repr

end Models

namespace Store

open Models

/-- The tables the payout handlers touch, rows in insertion order, and the id sequence of
`payouts`. -/
structure AffiliateDB where
  accounts : List AffiliateAccount
  commissions : List Commission
  payouts : List Payout
  payoutSeq : Nat
deriving DecidableEq, Repr

/-- `DB.First(&account, id)`: the row of `affiliate_accounts` with that primary key that is not
soft-deleted. -/
def AffiliateDB.firstAccount (db : AffiliateDB) (id : Nat) : Option AffiliateAccount :=
  db.accounts.find? (fun a => decide (a.ID = id) && a.DeletedAt.isNone)

/-- `DB.First(&comm, id)`: the row of `commissions` with that primary key. -/
def AffiliateDB.firstCommission (db : AffiliateDB) (id : Int) : Option Commission :=
  db.commissions.find? (fun c => decide ((c.ID : Int) = id))

/-- `DB.First(&payout, id)`: the row of `payouts` with that primary key. -/
def AffiliateDB.firstPayout (db : AffiliateDB) (id : Int) : Option Payout :=
  db.payouts.find? (fun p => decide ((p.ID : Int) = id))

/-- `DB.Create(&payout)`: the row is stored under the next id of the sequence with `CreatedAt`
filled in; the last component tells whether the call returned an error. -/
def AffiliateDB.createPayout (env : Env) (payout : Payout) (db : AffiliateDB) :
    AffiliateDB × Payout × Bool :=
  if env.insertFails then (db, payout, true)
  else
    let row := { payout with ID := db.payoutSeq + 1, CreatedAt := env.now }
    ({ db with payouts := db.payouts ++ [row], payoutSeq := db.payoutSeq + 1 }, row, false)

/-- `DB.Model(&comm).Updates(map[string]interface{}{"status": status, "approved_at": now})`:
`UPDATE commissions SET status = ?, approved_at = ? WHERE id = ?`. -/
def AffiliateDB.approveCommission (env : Env) (comm : Commission) (db : AffiliateDB) :
    AffiliateDB :=
  if env.updateFails then db
  else
    { db with commissions := db.commissions.map (fun c =>
        if c.ID = comm.ID then
          { c with Status := CommissionApproved, ApprovedAt := some env.now }
        else c) }

/-- `DB.Model(&models.AffiliateAccount{}).Where("id = ?", id).UpdateColumn("balance",
gorm.Expr("balance + ?", amount))`:
`UPDATE affiliate_accounts SET balance = balance + ? WHERE id = ? AND deleted_at IS NULL`.
The statement fails when a sum does not fit the `bigint` column. -/
def AffiliateDB.addBalance (env : Env) (id : Nat) (amount : Int) (db : AffiliateDB) :
    AffiliateDB :=
  let hit := fun (a : AffiliateAccount) => decide (a.ID = id) && a.DeletedAt.isNone
  if env.updateFails ∨ ∃ a ∈ db.accounts, hit a = true ∧ fitsBigint (a.Balance + amount) = false
  then db
  else
    { db with accounts := db.accounts.map (fun a =>
        if hit a then { a with Balance := a.Balance + amount } else a) }

/-- `DB.Model(&payout).Updates(map[string]interface{}{"status": status, "processed_at": now})`:
`UPDATE payouts SET status = ?, processed_at = ? WHERE id = ?`. -/
def AffiliateDB.completePayout (env : Env) (payout : Payout) (db : AffiliateDB) : AffiliateDB :=
  if env.updateFails then db
  else
    { db with payouts := db.payouts.map (fun p =>
        if p.ID = payout.ID then
          { p with Status := PayoutCompleted, ProcessedAt := some env.now }
        else p) }

/-- `DB.Model(&models.AffiliateAccount{}).Where("id = ?", id).UpdateColumns(map[string]interface{}{
"balance": gorm.Expr("balance - ?", amount), "total_paid": gorm.Expr("total_paid + ?", amount)})`:
`UPDATE affiliate_accounts SET balance = balance - ?, total_paid = total_paid + ?
WHERE id = ? AND deleted_at IS NULL`. The statement fails when a result does not fit its
`bigint` column. -/
def AffiliateDB.deductBalance (env : Env) (id : Nat) (amount : Int) (db : AffiliateDB) :
    AffiliateDB :=
  let hit := fun (a : AffiliateAccount) => decide (a.ID = id) && a.DeletedAt.isNone
  if env.updateFails ∨ ∃ a ∈ db.accounts, hit a = true ∧
      (fitsBigint (a.Balance - amount) = false ∨ fitsBigint (a.TotalPaid + amount) = false)
  then db
  else
    { db with accounts := db.accounts.map (fun a =>
        if hit a then
          { a with Balance := a.Balance - amount, TotalPaid := a.TotalPaid + amount }
        else a) }

/-- `DB.Model(&models.Commission{}).Where("account_id = ? AND status = ?", id,
models.CommissionApproved).Updates(map[string]interface{}{"status": models.CommissionPaid,
"paid_at": now})`. -/
def AffiliateDB.payCommissions (env : Env) (id : Nat) (db : AffiliateDB) : AffiliateDB :=
  if env.updateFails then db
  else
    { db with commissions := db.commissions.map (fun c =>
        if c.AccountID = id ∧ c.Status = CommissionApproved then
          { c with Status := CommissionPaid, PaidAt := some env.now }
        else c) }

end Store

namespace Handlers

open Models Store

/-- The JSON bodies the payout handlers of `affiliate.go` answer with. -/
inductive AffiliatePayload where
  | error (msg : String)
  | commission (c : Commission)
  | payout (p : Payout)
deriving DecidableEq, Repr

/-- What `c.JSON(status, body)` sends from a payout handler. -/
structure AffiliateResponse where
  status : Nat
  body : AffiliatePayload
deriving DecidableEq, Repr

/-- The request body of `CreatePayout`:
`struct { AccountID uint; Amount int64; Method string }`. -/
structure PayoutBody where
  AccountID : Nat
  Amount : Int
  Method : String
deriving DecidableEq, Repr

/-- `c.ShouldBindJSON(&body)` for the body of `CreatePayout`: `none` is a body that does not
decode, and `binding:"required"` rejects the zero value of `AccountID` and of `Amount`. -/
def bindPayout (body : Option PayoutBody) : Except String PayoutBody :=
  match body with
  | none => .error "invalid request body"
  | some b =>
    if b.AccountID = 0 then
      .error "Key: 'AccountID' Error:Field validation for 'AccountID' failed on the 'required' tag"
    else if b.Amount = 0 then
      .error "Key: 'Amount' Error:Field validation for 'Amount' failed on the 'required' tag"
    else .ok b

/-- `func (h *AffiliateHandler) ApproveCommission(c *gin.Context)`. `id` is the result of
`strconv.Atoi(c.Param("commissionId"))`. The errors of the two updates are not read; `Updates`
also assigns the new values to the struct that is sent back. -/
def ApproveCommission (env : Env) (id : Int) (db : AffiliateDB) :
    AffiliateDB × AffiliateResponse :=
  match db.firstCommission id with
  | none => (db, ⟨404, .error "Commission not found"⟩)
  | some comm =>
    let db1 := db.approveCommission env comm
    let db2 := db1.addBalance env comm.AccountID comm.Amount
    (db2, ⟨200, .commission
      { comm with Status := CommissionApproved, ApprovedAt := some env.now }⟩)

/-- `func (h *AffiliateHandler) CreatePayout(c *gin.Context)`. -/
def CreatePayout (env : Env) (body : Option PayoutBody) (db : AffiliateDB) :
    AffiliateDB × AffiliateResponse :=
  match bindPayout body with
  | .error msg => (db, ⟨400, .error msg⟩)
  | .ok b =>
    match db.firstAccount b.AccountID with
    | none => (db, ⟨404, .error "Account not found"⟩)
    | some account =>
      if account.Balance < b.Amount then (db, ⟨400, .error "Insufficient balance"⟩)
      else
        let payout : Payout :=
          { ID := 0, TenantID := 1, AccountID := b.AccountID, Amount := b.Amount,
            Method := b.Method, Status := PayoutPending, ProcessedAt := none,
            TransactionID := "", CreatedAt := 0 }
        let created := db.createPayout env payout
        if created.2.2 then (created.1, ⟨500, .error "Failed to create payout"⟩)
        else (created.1, ⟨201, .payout created.2.1⟩)

/-- `func (h *AffiliateHandler) ProcessPayout(c *gin.Context)`. `id` is the result of
`strconv.Atoi(c.Param("payoutId"))`. The errors of the three updates are not read; `Updates`
also assigns the new values to the struct that is sent back. -/
def ProcessPayout (env : Env) (id : Int) (db : AffiliateDB) :
    AffiliateDB × AffiliateResponse :=
  match db.firstPayout id with
  | none => (db, ⟨404, .error "Payout not found"⟩)
  | some payout =>
    let db1 := db.completePayout env payout
    let db2 := db1.deductBalance env payout.AccountID payout.Amount
    let db3 := db2.payCommissions env payout.AccountID
    (db3, ⟨200, .payout
      { payout with Status := PayoutCompleted, ProcessedAt := some env.now }⟩)

/-- A request to one of the three handlers that move an affiliate balance. -/
inductive AffiliateOp where
  | approveCommission (id : Int)
  | createPayout (body : Option PayoutBody)
  | processPayout (id : Int)
deriving DecidableEq, Repr

/-- Serve one request. -/
def affiliateStep (env : Env) (op : AffiliateOp) (db : AffiliateDB) : AffiliateDB :=
  match op with
  | .approveCommission id => (ApproveCommission env id db).1
  | .createPayout body => (CreatePayout env body db).1
  | .processPayout id => (ProcessPayout env id db).1

/-- Serve the requests one after the other. -/
def affiliateRun (ops : List (Env × AffiliateOp)) (db : AffiliateDB) : AffiliateDB :=
  ops.foldl (fun d eo => affiliateStep eo.1 eo.2 d) db

/-- The balance of account `id`, when the row exists. -/
def balanceOf (db : AffiliateDB) (id : Nat) : Option Int :=
  (db.firstAccount id).map (fun a => a.Balance)

/-- One affiliate account with a balance of 100 cents, no commission and no payout. -/
def demoAffiliateDB : AffiliateDB :=
  { accounts := [⟨1, 1, 7, 1, "active", "REF1", "", 100, 100, 0, 0, 0, none⟩],
    commissions := [], payouts := [], payoutSeq := 0 }

/-- A payout of the whole balance is requested and then processed twice. -/
def demoPayoutOps : List (Env × AffiliateOp) :=
  [({ demoEnv with now := 20 }, .createPayout (some ⟨1, 100, "paypal"⟩)),
   ({ demoEnv with now := 21 }, .processPayout 1),
   ({ demoEnv with now := 22 }, .processPayout 1)]

end Handlers

/-! ## The event bus with its mutex (`events.go`)

The same methods with `b.mu` made explicit, for code that re-enters the bus from inside a
handler. One goroutine runs; a lock operation that would have to wait for a lock this trace
never releases does not return. -/

namespace Events

/-- `sync.RWMutex`: how many read locks are held and whether the write lock is held. -/
structure RWMutex where
  readers : Nat
  writer : Bool
deriving DecidableEq, Repr

/-- `mu.Lock()`: taken when no lock is held; `none` when the caller has to wait. -/
def RWMutex.Lock (mu : RWMutex) : Option RWMutex :=
  if mu.readers = 0 ∧ mu.writer = false then some { mu with writer := true } else none

/-- `mu.Unlock()`. -/
def RWMutex.Unlock (mu : RWMutex) : RWMutex := { mu with writer := false }

/-- `mu.RLock()`: taken when the write lock is not held; `none` when the caller has to wait. -/
def RWMutex.RLock (mu : RWMutex) : Option RWMutex :=
  if mu.writer = false then some { mu with readers := mu.readers + 1 } else none

/-- `mu.RUnlock()`. -/
def RWMutex.RUnlock (mu : RWMutex) : RWMutex := { mu with readers := mu.readers - 1 }

/-- No lock is held. -/
def RWMutex.free (mu : RWMutex) : Prop := mu.readers = 0 ∧ mu.writer = false

instance (mu : RWMutex) : Decidable mu.free := by unfold RWMutex.free; infer_instance

namespace WithMutex

/-- What a handler can read and write: the mutex of the bus and the program state. -/
abbrev Shared (σ : Type) := RWMutex × World σ

/-- The code behind the function values: what a call `fn(data)` does; `none` when the call never
ends because it waits for a lock. -/
abbrev Program (σ δ : Type) := Handler → δ → Shared σ → Option (Outcome (Shared σ))

/-- The mutex, the program state and what the bus has done so far. -/
structure State (σ δ : Type) where
  mu : RWMutex
  exec : Exec σ δ

/-- `func (b *Bus) On(event string, handler Handler)`:
`b.mu.Lock(); defer b.mu.Unlock(); b.handlers[event] = append(b.handlers[event], handler);
log.Printf(...)`. -/
def On {σ : Type} (event : String) (handler : Handler) (s : Shared σ) : Option (Shared σ) :=
  match s.1.Lock with
  | none => none
  | some mu =>
    let b : Bus := ⟨s.2.bus.handlers.set event (s.2.bus.lookup event ++ [handler])⟩
    some (mu.Unlock, { s.2 with bus := b, log := s.2.log ++ [.registered event] })

/-- `func (b *Bus) HandlerCount(event string) int`:
`b.mu.RLock(); defer b.mu.RUnlock(); return len(b.handlers[event])`. -/
def HandlerCount {σ : Type} (event : String) (s : Shared σ) : Option (RWMutex × Nat) :=
  match s.1.RLock with
  | none => none
  | some mu => some (mu.RUnlock, (s.2.bus.lookup event).length)

/-- The call `fn(data)`. -/
def call {σ δ : Type} (prog : Program σ δ) (fn : Handler) (data : δ) (s : State σ δ) :
    Option (Outcome (State σ δ)) :=
  match prog fn data (s.mu, s.exec.world) with
  | none => none
  | some (.returned t) =>
    some (.returned ⟨t.1, { s.exec with world := t.2, calls := s.exec.calls ++ [(fn, data)] }⟩)
  | some (.panicked t r) =>
    some (.panicked ⟨t.1, { s.exec with world := t.2, calls := s.exec.calls ++ [(fn, data)] }⟩ r)

/-- The function literal of `EmitSync` with its deferred `recover`. -/
def guarded {σ δ : Type} (prog : Program σ δ) (event : String) (fn : Handler) (data : δ)
    (s : State σ δ) : Option (Outcome (State σ δ)) :=
  match call prog fn data s with
  | none => none
  | some (.returned s1) => some (.returned s1)
  | some (.panicked s1 r) => some (.returned ⟨s1.mu, s1.exec.printf (.handlerPanic event r)⟩)

/-- The loop `for _, h := range handlers { func(fn Handler) { ... }(h) }` of `EmitSync`. -/
def syncLoop {σ δ : Type} (prog : Program σ δ) (event : String) (data : δ) :
    List Handler → State σ δ → Option (Outcome (State σ δ))
  | [], s => some (.returned s)
  | h :: hs, s =>
    match guarded prog event h data s with
    | none => none
    | some (.returned s1) => syncLoop prog event data hs s1
    | some (.panicked s1 r) => some (.panicked s1 r)

/-- `func (b *Bus) EmitSync(event string, data interface{})`:
`b.mu.RLock(); handlers := b.handlers[event]; b.mu.RUnlock()`, then the length test, the log
line and the loop over the slice read under the lock. -/
def EmitSync {σ δ : Type} (prog : Program σ δ) (event : String) (data : δ) (s : State σ δ) :
    Option (Outcome (State σ δ)) :=
  match s.mu.RLock with
  | none => none
  | some mu =>
    let handlers := s.exec.world.bus.lookup event
    let mu1 := mu.RUnlock
    if handlers.length = 0 then some (.returned ⟨mu1, s.exec⟩)
    else syncLoop prog event data handlers ⟨mu1, s.exec.printf (.emittingSync event handlers.length)⟩

/-- The state a returning call leaves behind. -/
def finalState {σ δ : Type} : Option (Outcome (State σ δ)) → Option (State σ δ)
  | some (.returned s) => some s
  | _ => none

/-- A program over a counter: handler 1 registers handler 9 for event `a`, every other handler
adds the payload to the counter. -/
def demoProg : Program Nat Nat := fun fn data s =>
  if fn = 1 then (On "a" 9 s).map .returned
  else some (.returned (s.1, { s.2 with mem := s.2.mem + data }))

/-- The bus of `demoExec` with its mutex not held. -/
def demoState : State Nat Nat := ⟨⟨0, false⟩, demoExec⟩

end WithMutex

end Events

/-! ## Properties of Go maps -/

namespace GoMap

theorem get_set_same {α : Type} (m : GoMap α) (k : String) (v : α) :
    (m.set k v).get k = some v := by
  induction m with
  | nil => simp [set, get]
  | cons kv rest ih =>
    obtain ⟨k1, v1⟩ := kv
    by_cases h : k1 = k
    · simp [set, get, h]
    · simp [set, get, h, ih]

theorem get_set_other {α : Type} (m : GoMap α) (k k2 : String) (v : α) (h : k ≠ k2) :
    (m.set k v).get k2 = m.get k2 := by
  induction m with
  | nil => simp [set, get, h]
  | cons kv rest ih =>
    obtain ⟨k1, v1⟩ := kv
    by_cases h1 : k1 = k
    · subst h1
      simp [set, get, h]
    · by_cases h2 : k1 = k2
      · subst h2
        simp [set, get, h1]
      · simp [set, get, h1, h2, ih]

end GoMap

/-! ## Properties of the event bus -/

namespace Events

theorem lookup_On_same {σ δ : Type} (event : String) (handler : Handler) (x : Exec σ δ) :
    (Bus.On event handler x).world.bus.lookup event = x.world.bus.lookup event ++ [handler] := by
  simp [Bus.On, Bus.lookup, Exec.printf, GoMap.get_set_same]

theorem lookup_On_other {σ δ : Type} (event other : String) (handler : Handler) (x : Exec σ δ)
    (h : event ≠ other) :
    (Bus.On event handler x).world.bus.lookup other = x.world.bus.lookup other := by
  simp [Bus.On, Bus.lookup, Exec.printf, GoMap.get_set_other _ _ _ _ h]

theorem guarded_eq {σ δ : Type} (prog : Program σ δ) (event : String) (fn : Handler) (data : δ)
    (x : Exec σ δ) :
    guarded prog event fn data x =
      .returned ⟨afterHandler prog event data x.world fn, x.calls ++ [(fn, data)], x.spawned⟩ := by
  unfold guarded call afterHandler
  cases prog fn data x.world <;> simp [Exec.printf]

theorem syncLoop_eq {σ δ : Type} (prog : Program σ δ) (event : String) (data : δ)
    (hs : List Handler) (x : Exec σ δ) :
    syncLoop prog event data hs x =
      .returned ⟨hs.foldl (afterHandler prog event data) x.world,
        x.calls ++ hs.map (fun h => (h, data)), x.spawned⟩ := by
  induction hs generalizing x with
  | nil => simp [syncLoop]
  | cons h hs ih => simp [syncLoop, guarded_eq, ih]

theorem runGoroutines_eq {σ δ : Type} (prog : Program σ δ) (gs : List (Goroutine δ))
    (x : Exec σ δ) :
    runGoroutines prog gs x =
      .returned ⟨gs.foldl (fun w g => afterHandler prog g.event g.data w g.fn) x.world,
        x.calls ++ gs.map (fun g => (g.fn, g.data)), x.spawned⟩ := by
  induction gs generalizing x with
  | nil => simp [runGoroutines]
  | cons g gs ih => simp [runGoroutines, Goroutine.run, guarded_eq, ih]

theorem spawnLoop_eq {σ δ : Type} (event : String) (data : δ) (hs : List Handler)
    (x : Exec σ δ) :
    spawnLoop event data hs x = { x with spawned := x.spawned ++ goroutinesFor event data hs } := by
  induction hs generalizing x with
  | nil => simp [spawnLoop, goroutinesFor]
  | cons h hs ih => simp [spawnLoop, goroutinesFor, ih]

theorem Emit_eq {σ δ : Type} (event : String) (data : δ) (x : Exec σ δ) :
    Bus.Emit event data x =
      if x.world.bus.lookup event = [] then x
      else { x.printf (.emitting event (x.world.bus.lookup event).length) with
             spawned := x.spawned ++ goroutinesFor event data (x.world.bus.lookup event) } := by
  unfold Bus.Emit
  by_cases h : x.world.bus.lookup event = []
  · simp [h]
  · simp [h, spawnLoop_eq, Exec.printf]

theorem Emit_spawned {σ δ : Type} (event : String) (data : δ) (x : Exec σ δ) :
    (Bus.Emit event data x).spawned = x.spawned ++ goroutinesFor event data (x.world.bus.lookup event) := by
  rw [Emit_eq]
  by_cases h : x.world.bus.lookup event = []
  · simp [h, goroutinesFor]
  · simp [h]

theorem Emit_calls {σ δ : Type} (event : String) (data : δ) (x : Exec σ δ) :
    (Bus.Emit event data x).calls = x.calls := by
  rw [Emit_eq]
  by_cases h : x.world.bus.lookup event = []
  · simp [h]
  · simp [h, Exec.printf]

theorem EmitSync_eq {σ δ : Type} (prog : Program σ δ) (event : String) (data : δ)
    (x : Exec σ δ) :
    Bus.EmitSync prog event data x =
      .returned ⟨(x.world.bus.lookup event).foldl (afterHandler prog event data)
          (if x.world.bus.lookup event = [] then x.world
           else (x.printf (.emittingSync event (x.world.bus.lookup event).length)).world),
        x.calls ++ (x.world.bus.lookup event).map (fun h => (h, data)), x.spawned⟩ := by
  unfold Bus.EmitSync
  by_cases h : x.world.bus.lookup event = []
  · simp [h]
  · simp [h, syncLoop_eq, Exec.printf]

/-- C1: `On(e, h)` raises `HandlerCount(e)` by exactly one whatever is already registered, so
there is no deduplication: registering the same handler `h` twice raises the count by two. -/
theorem On_HandlerCount {σ δ : Type} (e : String) (h : Handler) (x : Exec σ δ) :
    Bus.HandlerCount e (Bus.On e h x) = Bus.HandlerCount e x + 1 ∧
    Bus.HandlerCount e (Bus.On e h (Bus.On e h x)) = Bus.HandlerCount e x + 2 := by
  constructor <;> simp [Bus.HandlerCount, lookup_On_same]

/-- C2: `EmitSync(e, p)` returns, and at that point the program state is the one obtained by
running every handler of the slice registered for `e` at the time of the call, one after the
other, each with payload `p` and each to its end (its return or its recovered panic), starting
from the caller's state (`w0` differs from it by the line `EmitSync` logs); each registered
handler is among the calls made. -/
theorem EmitSync_effects_visible {σ δ : Type} (prog : Program σ δ) (e : String) (p : δ)
    (x : Exec σ δ) :
    ∃ x1, Bus.EmitSync prog e p x = .returned x1 ∧
      (∃ w0 : World σ, w0.bus = x.world.bus ∧ w0.mem = x.world.mem ∧
        x1.world = (x.world.bus.lookup e).foldl (afterHandler prog e p) w0) ∧
      (∀ h, h ∈ x.world.bus.lookup e → (h, p) ∈ x1.calls.drop x.calls.length) := by
  refine ⟨_, EmitSync_eq prog e p x, ⟨_, ?_, ?_, rfl⟩, ?_⟩
  · by_cases h : x.world.bus.lookup e = [] <;> simp [h, Exec.printf]
  · by_cases h : x.world.bus.lookup e = [] <;> simp [h, Exec.printf]
  · intro h hm
    simp only [List.drop_left]
    exact List.mem_map.mpr ⟨h, hm, rfl⟩

/-- Witness of C2 on the demo bus: after `EmitSync("a", 5)` the counter holds the bump of the
panicking handler 1 and the payload added by handler 2. -/
theorem EmitSync_effects_visible_witness :
    (∃ x1, Bus.EmitSync demoProg "a" 5 demoExec = .returned x1 ∧
      (∃ w0 : World Nat, w0.bus = demoExec.world.bus ∧ w0.mem = demoExec.world.mem ∧
        x1.world = (demoExec.world.bus.lookup "a").foldl (afterHandler demoProg "a" 5) w0) ∧
      (∀ h, h ∈ demoExec.world.bus.lookup "a" →
        (h, 5) ∈ x1.calls.drop demoExec.calls.length)) ∧
    ((demoExec.world.bus.lookup "a").foldl (afterHandler demoProg "a" 5)
        (demoExec.printf (.emittingSync "a" 2)).world).mem = 6 :=
  ⟨EmitSync_effects_visible demoProg "a" 5 demoExec, by decide⟩

/-- C3: during an asynchronous publish, a handler `h1` that panics does not escape its goroutine:
the goroutine logs the panic and returns, so nothing reaches the caller of `Emit` or ends the
program. Nor does it keep another handler `h2` of the same event from being called: whatever
order the scheduler runs the started goroutines in, the run ends normally and both `h1` and `h2`
have been called with the payload. -/
theorem Emit_isolates_panic {σ δ : Type} (prog : Program σ δ) (e : String) (p : δ)
    (x : Exec σ δ) (h1 h2 : Handler) (sched : List (Goroutine δ))
    (m1 : h1 ∈ x.world.bus.lookup e) (m2 : h2 ∈ x.world.bus.lookup e)
    (hp : ∀ w, ∃ w1 r, prog h1 p w = .panicked w1 r)
    (hs : sched.Perm (Bus.Emit e p x).spawned) :
    (∀ y : Exec σ δ, ∃ y1 r, Goroutine.run prog ⟨e, h1, p⟩ y = .returned y1 ∧
      y1.world.log.getLast? = some (.handlerPanic e r)) ∧
    ∃ x1, runGoroutines prog sched (Bus.Emit e p x) = .returned x1 ∧
      (h1, p) ∈ x1.calls.drop x.calls.length ∧ (h2, p) ∈ x1.calls.drop x.calls.length := by
  have key : ∀ h, h ∈ x.world.bus.lookup e →
      (h, p) ∈ sched.map (fun g => (g.fn, g.data)) := by
    intro h hm
    have hg : (⟨e, h, p⟩ : Goroutine δ) ∈ sched := by
      refine hs.symm.subset ?_
      rw [Emit_spawned]
      exact List.mem_append_right _ (List.mem_map.mpr ⟨h, hm, rfl⟩)
    exact List.mem_map.mpr ⟨_, hg, rfl⟩
  refine ⟨?_, _, runGoroutines_eq prog sched _, ?_, ?_⟩
  · intro y
    obtain ⟨w1, r, hw⟩ := hp y.world
    refine ⟨_, r, guarded_eq prog e h1 p y, ?_⟩
    simp [afterHandler, hw]
  · simp only [Emit_calls, List.drop_left]
    exact key h1 m1
  · simp only [Emit_calls, List.drop_left]
    exact key h2 m2

/-- Witness of C3 on the demo bus: handler 1 panics on every call, the scheduler runs the
goroutine of handler 1 first, and handler 2 is called all the same. -/
theorem Emit_isolates_panic_witness :
    (∀ y : Exec Nat Nat, ∃ y1 r, Goroutine.run demoProg ⟨"a", 1, 5⟩ y = .returned y1 ∧
      y1.world.log.getLast? = some (.handlerPanic "a" r)) ∧
    ∃ x1, runGoroutines demoProg [⟨"a", 1, 5⟩, ⟨"a", 2, 5⟩] (Bus.Emit "a" 5 demoExec)
        = .returned x1 ∧
      (1, 5) ∈ x1.calls.drop demoExec.calls.length ∧
      (2, 5) ∈ x1.calls.drop demoExec.calls.length :=
  Emit_isolates_panic demoProg "a" 5 demoExec 1 2 [⟨"a", 1, 5⟩, ⟨"a", 2, 5⟩]
    (by decide) (by decide) (fun w => ⟨_, _, rfl⟩) (List.Perm.refl _)

/-- C5: `Emit(e, p)` is a function of the bus state alone (it takes no `Program`): on return it
has started exactly one goroutine per handler registered for `e`, each capturing `e` and `p`,
it has called no handler, and it has changed neither the bus nor the rest of the memory. -/
theorem Emit_returns_without_running {σ δ : Type} (e : String) (p : δ) (x : Exec σ δ) :
    (Bus.Emit e p x).calls = x.calls ∧
    (Bus.Emit e p x).spawned = x.spawned ++ goroutinesFor e p (x.world.bus.lookup e) ∧
    (Bus.Emit e p x).world.bus = x.world.bus ∧
    (Bus.Emit e p x).world.mem = x.world.mem := by
  refine ⟨Emit_calls e p x, Emit_spawned e p x, ?_, ?_⟩ <;>
  · rw [Emit_eq]
    by_cases h : x.world.bus.lookup e = [] <;> simp [h, Exec.printf]

/-- C6: delivery is by name. A handler `h` registered under another name `e2` and not under `e`
is not called by `EmitSync(e, p)`, is not the function of any goroutine started by `Emit(e, p)`,
and is not called when those goroutines run, in any order; and publishing a name that has no
handler leaves the state as it was. -/
theorem delivery_by_name {σ δ : Type} (prog : Program σ δ) (e : String) (p : δ)
    (x : Exec σ δ) :
    (∀ (e2 : String) (h : Handler), e ≠ e2 → h ∈ x.world.bus.lookup e2 →
      h ∉ x.world.bus.lookup e →
      (∃ x1, Bus.EmitSync prog e p x = .returned x1 ∧
        ∀ d, (h, d) ∉ x1.calls.drop x.calls.length) ∧
      (∀ g, g ∈ (Bus.Emit e p x).spawned.drop x.spawned.length → g.fn ≠ h) ∧
      (∀ sched : List (Goroutine δ),
        sched.Perm ((Bus.Emit e p x).spawned.drop x.spawned.length) →
        ∃ x2, runGoroutines prog sched (Bus.Emit e p x) = .returned x2 ∧
          ∀ d, (h, d) ∉ x2.calls.drop x.calls.length)) ∧
    (x.world.bus.lookup e = [] →
      Bus.EmitSync prog e p x = .returned x ∧ Bus.Emit e p x = x) := by
  constructor
  · intro e2 h _ _ hn
    refine ⟨⟨_, EmitSync_eq prog e p x, ?_⟩, ?_, ?_⟩
    · intro d hd
      simp only [List.drop_left] at hd
      obtain ⟨h3, hm, heq⟩ := List.mem_map.mp hd
      simp only [Prod.mk.injEq] at heq
      exact hn (heq.1 ▸ hm)
    · intro g hg heq
      rw [Emit_spawned, List.drop_left] at hg
      obtain ⟨h3, hm, hg3⟩ := List.mem_map.mp hg
      subst hg3
      exact hn (heq ▸ hm)
    · intro sched hs
      refine ⟨_, runGoroutines_eq prog sched _, ?_⟩
      intro d hd
      simp only [Emit_calls, List.drop_left] at hd
      obtain ⟨g, hg, heq⟩ := List.mem_map.mp hd
      have hg2 := hs.subset hg
      rw [Emit_spawned, List.drop_left] at hg2
      obtain ⟨h3, hm, hg3⟩ := List.mem_map.mp hg2
      subst hg3
      simp only [Prod.mk.injEq] at heq
      exact hn (heq.1 ▸ hm)
  · intro h
    simp [Bus.EmitSync, Bus.Emit, h]

/-- Witness of C6 on the demo bus: handler 3 is registered under `b` only and publishing `a`
does not reach it; publishing `c`, which has no handler, changes nothing. -/
theorem delivery_by_name_witness :
    ((∃ x1, Bus.EmitSync demoProg "a" 5 demoExec = .returned x1 ∧
        ∀ d, (3, d) ∉ x1.calls.drop demoExec.calls.length) ∧
      (∀ g, g ∈ (Bus.Emit "a" 5 demoExec).spawned.drop demoExec.spawned.length → g.fn ≠ 3) ∧
      (∀ sched : List (Goroutine Nat),
        sched.Perm ((Bus.Emit "a" 5 demoExec).spawned.drop demoExec.spawned.length) →
        ∃ x2, runGoroutines demoProg sched (Bus.Emit "a" 5 demoExec) = .returned x2 ∧
          ∀ d, (3, d) ∉ x2.calls.drop demoExec.calls.length)) ∧
    (Bus.EmitSync demoProg "c" 5 demoExec = .returned demoExec ∧
      Bus.Emit "c" 5 demoExec = demoExec) :=
  ⟨(delivery_by_name demoProg "a" 5 demoExec).1 "b" 3 (by decide) (by decide) (by decide),
   (delivery_by_name demoProg "c" 5 demoExec).2 (by decide)⟩

end Events

/-! ## Properties of the workflow handlers -/

namespace Handlers

open Models Store

theorem firstWorkflow_some {db : DB} {id : Int} {wf : Workflow}
    (h : db.firstWorkflow id = some wf) :
    wf ∈ db.workflows ∧ (wf.ID : Int) = id ∧ wf.DeletedAt = none := by
  unfold DB.firstWorkflow at h
  have h1 := List.find?_some h
  have h2 := List.mem_of_find?_eq_some h
  simp only [Bool.and_eq_true, decide_eq_true_eq, Option.isNone_iff_eq_none] at h1
  exact ⟨h2, h1.1, h1.2⟩

theorem goUint_cast (n : Nat) (h : (n : Int) < 2 ^ 63) : goUint (n : Int) = n := by
  unfold goUint
  omega

theorem bindTrigger_ok (c : Nat) (hc : c ≠ 0) : bindTrigger (some c) = .ok c := by
  cases c with
  | zero => exact absurd rfl hc
  | succ n => rfl

theorem TriggerWorkflow_eq (env : Env) (id : Int) (c : Nat) (db : DB) (wf : Workflow)
    (hw : db.firstWorkflow id = some wf) (hc : c ≠ 0) :
    TriggerWorkflow env id (some c) db =
      (((db.createExecution env
          { ID := 0, TenantID := 1, WorkflowID := goUint id, ContactID := c,
            TriggerEvent := "manual", Status := ExecutionRunning, CurrentStep := 0, Log := "",
            StartedAt := env.now, CompletedAt := none, CreatedAt := 0 }).1).incrementExecutionCount
          env wf,
       ⟨201, .execution (db.createExecution env
          { ID := 0, TenantID := 1, WorkflowID := goUint id, ContactID := c,
            TriggerEvent := "manual", Status := ExecutionRunning, CurrentStep := 0, Log := "",
            StartedAt := env.now, CompletedAt := none, CreatedAt := 0 }).2.1⟩) := by
  simp [TriggerWorkflow, bindTrigger_ok c hc, hw]

theorem incrementExecutionCount_executions (env : Env) (wf : Workflow) (db : DB) :
    (db.incrementExecutionCount env wf).workflowExecutions = db.workflowExecutions := by
  unfold DB.incrementExecutionCount
  split <;> rfl

/-- C7: for an existing workflow id and a contact id `c`, a trigger request that goes through
(the body passes validation and the store accepts the `INSERT`) is answered with 201 and adds
exactly one row to `workflow_executions`, under a fresh id: its `workflow_id` is the requested
workflow, its `contact_id` is `c`, its status is `running` and its `current_step` is 0. -/
theorem TriggerWorkflow_creates_execution (env : Env) (id : Int) (c : Nat) (db : DB)
    (wf : Workflow) (hw : db.firstWorkflow id = some wf) (hid : id < 2 ^ 63) (hc : c ≠ 0)
    (hi : env.insertFails = false) :
    ∃ e : WorkflowExecution,
      (TriggerWorkflow env id (some c) db).1.workflowExecutions = db.workflowExecutions ++ [e] ∧
      (TriggerWorkflow env id (some c) db).2 = ⟨201, .execution e⟩ ∧
      e.ID = db.executionSeq + 1 ∧
      (e.WorkflowID : Int) = id ∧ e.WorkflowID = wf.ID ∧ e.ContactID = c ∧
      e.Status = ExecutionRunning ∧ e.CurrentStep = 0 := by
  obtain ⟨_, hid2, _⟩ := firstWorkflow_some hw
  have hg : goUint id = wf.ID := by
    rw [← hid2]
    exact goUint_cast wf.ID (hid2 ▸ hid)
  rw [TriggerWorkflow_eq env id c db wf hw hc]
  simp only [incrementExecutionCount_executions]
  simp [DB.createExecution, hi, hg, hid2]

/-- Witness of C7: triggering workflow 1 of the demo store for contact 9. -/
theorem TriggerWorkflow_creates_execution_witness :
    ∃ e : WorkflowExecution,
      (TriggerWorkflow demoEnv 1 (some 9) demoDB).1.workflowExecutions
        = demoDB.workflowExecutions ++ [e] ∧
      (TriggerWorkflow demoEnv 1 (some 9) demoDB).2 = ⟨201, .execution e⟩ ∧
      e.ID = demoDB.executionSeq + 1 ∧
      (e.WorkflowID : Int) = 1 ∧ e.WorkflowID = 1 ∧ e.ContactID = 9 ∧
      e.Status = ExecutionRunning ∧ e.CurrentStep = 0 :=
  TriggerWorkflow_creates_execution demoEnv 1 9 demoDB
    ⟨1, 1, "welcome", "", "event", "", WorkflowStatusActive, 4, 10, 10, none⟩
    (by decide) (by decide) (by decide) (by decide)

/-- C8: a trigger request that goes through (valid body, existing workflow, the store accepts
the `UPDATE`) leaves `workflows` as it was except for the row of the triggered workflow, which
differs from before in `execution_count` alone, by exactly one; `workflow_actions` is untouched.
Primary keys are taken to be unique, as the table guarantees. -/
theorem TriggerWorkflow_increments_count (env : Env) (id : Int) (c : Nat) (db : DB)
    (wf : Workflow) (hw : db.firstWorkflow id = some wf) (hc : c ≠ 0)
    (hu : env.updateFails = false) (hpk : (db.workflows.map (fun w => w.ID)).Nodup) :
    (TriggerWorkflow env id (some c) db).1.workflows =
      db.workflows.map (fun w =>
        if w = wf then { wf with ExecutionCount := wf.ExecutionCount + 1 } else w) ∧
    (TriggerWorkflow env id (some c) db).1.workflowActions = db.workflowActions := by
  obtain ⟨hm, _, hd⟩ := firstWorkflow_some hw
  rw [TriggerWorkflow_eq env id c db wf hw hc]
  have hws : (db.createExecution env
      { ID := 0, TenantID := 1, WorkflowID := goUint id, ContactID := c,
        TriggerEvent := "manual", Status := ExecutionRunning, CurrentStep := 0, Log := "",
        StartedAt := env.now, CompletedAt := none, CreatedAt := 0 }).1.workflows = db.workflows ∧
      (db.createExecution env
      { ID := 0, TenantID := 1, WorkflowID := goUint id, ContactID := c,
        TriggerEvent := "manual", Status := ExecutionRunning, CurrentStep := 0, Log := "",
        StartedAt := env.now, CompletedAt := none, CreatedAt := 0 }).1.workflowActions
        = db.workflowActions := by
    unfold DB.createExecution
    split <;> exact ⟨rfl, rfl⟩
  constructor
  · simp only [DB.incrementExecutionCount, hu, Bool.false_eq_true, if_false, hws.1]
    apply List.map_congr_left
    intro w hwm
    by_cases hww : w = wf
    · subst hww
      simp [hd]
    · have hne : w.ID ≠ wf.ID := fun he => hww (List.inj_on_of_nodup_map hpk hwm hm he)
      simp [hww, hne]
  · simp only [DB.incrementExecutionCount, hu, Bool.false_eq_true, if_false, hws.2]

/-- Witness of C8: triggering workflow 1 of the demo store raises its count from 4 to 5. -/
theorem TriggerWorkflow_increments_count_witness :
    (TriggerWorkflow demoEnv 1 (some 9) demoDB).1.workflows =
      demoDB.workflows.map (fun w =>
        if w = ⟨1, 1, "welcome", "", "event", "", WorkflowStatusActive, 4, 10, 10, none⟩ then
          { (⟨1, 1, "welcome", "", "event", "", WorkflowStatusActive, 4, 10, 10, none⟩ : Workflow)
            with ExecutionCount := (4 : Int) + 1 }
        else w) ∧
    (TriggerWorkflow demoEnv 1 (some 9) demoDB).1.workflowActions = demoDB.workflowActions :=
  TriggerWorkflow_increments_count demoEnv 1 9 demoDB
    ⟨1, 1, "welcome", "", "event", "", WorkflowStatusActive, 4, 10, 10, none⟩
    (by decide) (by decide) (by decide) (by decide)

theorem firstWorkflow_withStatuses (f : Workflow → String) (db : DB) (id : Int) :
    (withStatuses f db).firstWorkflow id =
      (db.firstWorkflow id).map (fun w => { w with Status := f w }) := by
  unfold DB.firstWorkflow withStatuses
  rw [List.find?_map]
  rfl

/-- C9, as stated, fails: workflow 2 of the demo store is paused, and a trigger request for it
adds a row to `workflow_executions`. -/
theorem paused_workflow_is_triggered :
    ¬ (∀ (env : Env) (id : Int) (body : Option Nat) (db : DB) (wf : Workflow),
        db.firstWorkflow id = some wf →
        (wf.Status = WorkflowStatusDraft ∨ wf.Status = WorkflowStatusPaused) →
        (TriggerWorkflow env id body db).1.workflowExecutions = db.workflowExecutions) := by
  intro h
  have h2 := h demoEnv 2 (some 9) demoDB
    ⟨2, 1, "upsell", "", "manual", "", WorkflowStatusPaused, 1, 11, 12, none⟩
    (by decide) (by decide)
  revert h2
  decide

/-- C9, amended: `TriggerWorkflow` does not consult the status. For an existing workflow,
whatever statuses the workflows carry (`f` relabels them at will, so draft, paused and active
alike), a trigger request with a valid body that the store accepts is answered the same and
stores the same rows, and it adds exactly one row to `workflow_executions`. -/
theorem TriggerWorkflow_ignores_status (env : Env) (id : Int) (c : Nat) (db : DB)
    (wf : Workflow) (f : Workflow → String) (hw : db.firstWorkflow id = some wf) (hc : c ≠ 0)
    (hi : env.insertFails = false) :
    (TriggerWorkflow env id (some c) (withStatuses f db)).1.workflowExecutions =
      (TriggerWorkflow env id (some c) db).1.workflowExecutions ∧
    (TriggerWorkflow env id (some c) (withStatuses f db)).2 =
      (TriggerWorkflow env id (some c) db).2 ∧
    (TriggerWorkflow env id (some c) (withStatuses f db)).1.workflowExecutions.length =
      db.workflowExecutions.length + 1 := by
  have hw2 : (withStatuses f db).firstWorkflow id = some { wf with Status := f wf } := by
    rw [firstWorkflow_withStatuses, hw]
    rfl
  rw [TriggerWorkflow_eq env id c db wf hw hc, TriggerWorkflow_eq env id c _ _ hw2 hc]
  simp only [incrementExecutionCount_executions]
  simp [DB.createExecution, hi, withStatuses]

/-- Witness of C9 amended: with every workflow of the demo store set to paused, triggering
workflow 1 still adds one execution. -/
theorem TriggerWorkflow_ignores_status_witness :
    (TriggerWorkflow demoEnv 1 (some 9)
        (withStatuses (fun _ => WorkflowStatusPaused) demoDB)).1.workflowExecutions =
      (TriggerWorkflow demoEnv 1 (some 9) demoDB).1.workflowExecutions ∧
    (TriggerWorkflow demoEnv 1 (some 9) (withStatuses (fun _ => WorkflowStatusPaused) demoDB)).2 =
      (TriggerWorkflow demoEnv 1 (some 9) demoDB).2 ∧
    (TriggerWorkflow demoEnv 1 (some 9)
        (withStatuses (fun _ => WorkflowStatusPaused) demoDB)).1.workflowExecutions.length =
      demoDB.workflowExecutions.length + 1 :=
  TriggerWorkflow_ignores_status demoEnv 1 9 demoDB
    ⟨1, 1, "welcome", "", "event", "", WorkflowStatusActive, 4, 10, 10, none⟩
    (fun _ => WorkflowStatusPaused) (by decide) (by decide) (by decide)

theorem updatesWorkflow_executions (env : Env) (wf : Workflow) (m : GoMap JVal) (db : DB) :
    (db.updatesWorkflow env wf m).workflowExecutions = db.workflowExecutions ∧
    (db.updatesWorkflow env wf m).executionSeq = db.executionSeq := by
  unfold DB.updatesWorkflow
  dsimp only
  split_ifs <;> exact ⟨rfl, rfl⟩

/-- C10: `UpdateWorkflow`, whatever the workflow id and the request body (a body that sets the
status to paused included) and whether or not the store accepts the update, leaves the table
`workflow_executions` exactly as it was: every stored execution keeps every field. -/
theorem UpdateWorkflow_keeps_executions (env : Env) (id : Int) (body : Option (GoMap JVal))
    (db : DB) :
    (UpdateWorkflow env id body db).1.workflowExecutions = db.workflowExecutions := by
  unfold UpdateWorkflow
  cases db.firstWorkflow id with
  | none => rfl
  | some wf =>
    cases body with
    | none => rfl
    | some m => exact (updatesWorkflow_executions env wf (sanitizeUpdates m) db).1

/-- Witness of C10: pausing workflow 1 of the demo store sets its status to paused and leaves
its running execution as it was. -/
theorem UpdateWorkflow_keeps_executions_witness :
    (UpdateWorkflow demoEnv 1 (some [("status", .str WorkflowStatusPaused)])
        demoDB).1.workflowExecutions = demoDB.workflowExecutions ∧
    ((UpdateWorkflow demoEnv 1 (some [("status", .str WorkflowStatusPaused)])
        demoDB).1.firstWorkflow 1).map (fun w => w.Status) = some WorkflowStatusPaused ∧
    demoDB.workflowExecutions.map (fun x => (x.WorkflowID, x.Status)) = [(1, ExecutionRunning)] :=
  ⟨UpdateWorkflow_keeps_executions demoEnv 1 (some [("status", .str WorkflowStatusPaused)]) demoDB,
   by decide, by decide⟩

/-- C11: a trigger request for a workflow id that no row (or only a soft-deleted row) carries
leaves the store exactly as it was, whatever the body, so no execution is created and no
`execution_count` changes; with a body that passes validation the answer is
404 `Workflow not found`, and otherwise it is the 400 of the validation. -/
theorem TriggerWorkflow_not_found (env : Env) (id : Int) (db : DB)
    (hw : db.firstWorkflow id = none) :
    (∀ body, (TriggerWorkflow env id body db).1 = db ∧
      ((TriggerWorkflow env id body db).2.status = 404 ∨
        (TriggerWorkflow env id body db).2.status = 400)) ∧
    (∀ c, c ≠ 0 →
      (TriggerWorkflow env id (some c) db).2 = ⟨404, .error "Workflow not found"⟩) := by
  constructor
  · intro body
    unfold TriggerWorkflow
    cases bindTrigger body with
    | error msg => exact ⟨rfl, Or.inr rfl⟩
    | ok c => simp [hw]
  · intro c hc
    simp [TriggerWorkflow, bindTrigger_ok c hc, hw]

/-- Witness of C11: the demo store has no workflow 9. -/
theorem TriggerWorkflow_not_found_witness :
    (∀ body, (TriggerWorkflow demoEnv 9 body demoDB).1 = demoDB ∧
      ((TriggerWorkflow demoEnv 9 body demoDB).2.status = 404 ∨
        (TriggerWorkflow demoEnv 9 body demoDB).2.status = 400)) ∧
    (∀ c, c ≠ 0 →
      (TriggerWorkflow demoEnv 9 (some c) demoDB).2 = ⟨404, .error "Workflow not found"⟩) :=
  TriggerWorkflow_not_found demoEnv 9 demoDB (by decide)

theorem saveAssociatedAction_executions (env : Env) (wid : Nat) (db : DB)
    (a : WorkflowAction) :
    (db.saveAssociatedAction env wid a).workflowExecutions = db.workflowExecutions := by
  unfold DB.saveAssociatedAction
  split <;> rfl

theorem foldl_saveAssociatedAction_executions (env : Env) (wid : Nat)
    (actions : List WorkflowAction) (db : DB) :
    (actions.foldl (DB.saveAssociatedAction env wid) db).workflowExecutions
      = db.workflowExecutions := by
  induction actions generalizing db with
  | nil => rfl
  | cons a rest ih => simp [List.foldl_cons, ih, saveAssociatedAction_executions]

theorem createWorkflow_executions (env : Env) (body : Workflow)
    (actions : List WorkflowAction) (db : DB) :
    (db.createWorkflow env body actions).1.workflowExecutions = db.workflowExecutions := by
  unfold DB.createWorkflow
  dsimp only
  split_ifs <;> simp [foldl_saveAssociatedAction_executions]

theorem createAction_executions (env : Env) (body : WorkflowAction) (db : DB) :
    (db.createAction env body).1.workflowExecutions = db.workflowExecutions := by
  unfold DB.createAction
  dsimp only
  split_ifs <;> rfl

theorem updatesAction_executions (env : Env) (action : WorkflowAction) (m : GoMap JVal)
    (db : DB) :
    (db.updatesAction env action m).workflowExecutions = db.workflowExecutions := by
  unfold DB.updatesAction
  dsimp only
  split_ifs <;> rfl

theorem updateSortOrder_executions (env : Env) (id : Nat) (i : Int) (db : DB) :
    (db.updateSortOrder env id i).workflowExecutions = db.workflowExecutions := by
  unfold DB.updateSortOrder
  split <;> rfl

theorem reorderLoop_executions (env : Env) (i : Nat) (order : List Nat) (db : DB) :
    (reorderLoop env i order db).workflowExecutions = db.workflowExecutions := by
  induction order generalizing i db with
  | nil => rfl
  | cons id rest ih => simp [reorderLoop, ih, updateSortOrder_executions]

theorem deleteAction_executions (env : Env) (id : Int) (db : DB) :
    (db.deleteAction env id).1.workflowExecutions = db.workflowExecutions := by
  unfold DB.deleteAction
  split <;> rfl

theorem deleteWorkflow_executions (env : Env) (id : Int) (db : DB) :
    (db.deleteWorkflow env id).1.workflowExecutions = db.workflowExecutions := by
  unfold DB.deleteWorkflow
  split <;> rfl

theorem createExecution_executions (env : Env) (exec : WorkflowExecution) (db : DB) :
    db.workflowExecutions <+: (db.createExecution env exec).1.workflowExecutions := by
  unfold DB.createExecution
  split
  · exact List.prefix_refl _
  · exact List.prefix_append _ _

theorem CreateWorkflow_executions (env : Env) (body : Option (Workflow × List WorkflowAction))
    (db : DB) : (CreateWorkflow env body db).1.workflowExecutions = db.workflowExecutions := by
  cases body with
  | none => rfl
  | some ba =>
    obtain ⟨b, acts⟩ := ba
    simp only [CreateWorkflow]
    split_ifs <;> exact createWorkflow_executions _ _ _ _

theorem UpdateWorkflow_executions (env : Env) (id : Int) (body : Option (GoMap JVal))
    (db : DB) : (UpdateWorkflow env id body db).1.workflowExecutions = db.workflowExecutions := by
  unfold UpdateWorkflow
  cases db.firstWorkflow id with
  | none => rfl
  | some wf =>
    cases body with
    | none => rfl
    | some m => exact (updatesWorkflow_executions env wf (sanitizeUpdates m) db).1

theorem DeleteWorkflow_executions (env : Env) (id : Int) (db : DB) :
    (DeleteWorkflow env id db).1.workflowExecutions = db.workflowExecutions := by
  simp only [DeleteWorkflow]
  split_ifs <;> exact deleteWorkflow_executions _ _ _

theorem CreateAction_executions (env : Env) (id : Int) (body : Option WorkflowAction)
    (db : DB) : (CreateAction env id body db).1.workflowExecutions = db.workflowExecutions := by
  cases body with
  | none => rfl
  | some b =>
    simp only [CreateAction]
    split_ifs <;> exact createAction_executions _ _ _

theorem UpdateAction_executions (env : Env) (actionId : Int) (body : Option (GoMap JVal))
    (db : DB) :
    (UpdateAction env actionId body db).1.workflowExecutions = db.workflowExecutions := by
  unfold UpdateAction
  cases db.firstAction actionId with
  | none => rfl
  | some action =>
    cases body with
    | none => rfl
    | some m => exact updatesAction_executions env action (sanitizeUpdates m) db

theorem DeleteAction_executions (env : Env) (actionId : Int) (db : DB) :
    (DeleteAction env actionId db).1.workflowExecutions = db.workflowExecutions := by
  simp only [DeleteAction]
  split_ifs <;> exact deleteAction_executions _ _ _

theorem ReorderActions_executions (env : Env) (body : Option (List Nat)) (db : DB) :
    (ReorderActions env body db).1.workflowExecutions = db.workflowExecutions := by
  cases body with
  | none => rfl
  | some order => exact reorderLoop_executions env 0 order db

theorem TriggerWorkflow_executions (env : Env) (id : Int) (body : Option Nat) (db : DB) :
    db.workflowExecutions <+: (TriggerWorkflow env id body db).1.workflowExecutions := by
  unfold TriggerWorkflow
  cases bindTrigger body with
  | error msg => exact List.prefix_refl _
  | ok c =>
    cases db.firstWorkflow id with
    | none => exact List.prefix_refl _
    | some wf =>
      simp only [incrementExecutionCount_executions]
      exact createExecution_executions _ _ _

theorem reads_keep_store (db : DB) :
    (∀ ilike page search status, (ListWorkflows ilike page search status db).1 = db) ∧
    (∀ id, (GetWorkflow id db).1 = db) ∧
    (∀ page wid status, (ListExecutions page wid status db).1 = db) ∧
    (∀ execId, (GetExecution execId db).1 = db) := by
  refine ⟨fun _ _ _ _ => rfl, fun id => ?_, fun page wid status => ?_, fun execId => ?_⟩
  · unfold GetWorkflow
    cases db.firstWorkflow id <;> rfl
  · simp only [ListExecutions]
    split_ifs <;> rfl
  · unfold GetExecution
    cases db.firstExecution execId <;> rfl

/-- Every handler leaves the rows of `workflow_executions` in place: the table after a request
starts with the table before it. -/
theorem step_keeps_executions (env : Env) (op : Op) (db : DB) :
    db.workflowExecutions <+: (step env op db).1.workflowExecutions := by
  cases op with
  | listWorkflows ilike page search status => exact List.prefix_refl _
  | getWorkflow id =>
    simp only [step, (reads_keep_store db).2.1 id]
    exact List.prefix_refl _
  | createWorkflow body =>
    simp only [step, CreateWorkflow_executions]
    exact List.prefix_refl _
  | updateWorkflow id body =>
    simp only [step, UpdateWorkflow_executions]
    exact List.prefix_refl _
  | deleteWorkflow id =>
    simp only [step, DeleteWorkflow_executions]
    exact List.prefix_refl _
  | createAction id body =>
    simp only [step, CreateAction_executions]
    exact List.prefix_refl _
  | updateAction actionId body =>
    simp only [step, UpdateAction_executions]
    exact List.prefix_refl _
  | deleteAction actionId =>
    simp only [step, DeleteAction_executions]
    exact List.prefix_refl _
  | reorderActions body =>
    simp only [step, ReorderActions_executions]
    exact List.prefix_refl _
  | listExecutions page wid status =>
    simp only [step, (reads_keep_store db).2.2.1 page wid status]
    exact List.prefix_refl _
  | getExecution execId =>
    simp only [step, (reads_keep_store db).2.2.2 execId]
    exact List.prefix_refl _
  | triggerWorkflow id body => exact TriggerWorkflow_executions env id body db

theorem run_keeps_executions (ops : List (Env × Op)) (db : DB) :
    db.workflowExecutions <+: (run ops db).workflowExecutions := by
  induction ops generalizing db with
  | nil => exact List.prefix_refl _
  | cons eo rest ih =>
    obtain ⟨env, op⟩ := eo
    exact (step_keeps_executions env op db).trans (ih _)

/-- C14: an execution whose status is completed or failed, stored at position `i` of
`workflow_executions`, is at the same position and the same in every field (status,
`current_step` and log in particular) after any sequence of requests to the workflow handlers:
workflow and action writes, reordering, the reads, and manual triggers. No handler moves an
execution out of a terminal status. -/
theorem terminal_execution_untouched (ops : List (Env × Op)) (db : DB) (i : Nat)
    (x : WorkflowExecution) (hx : db.workflowExecutions[i]? = some x)
    (_ht : x.Status = ExecutionCompleted ∨ x.Status = ExecutionFailed) :
    ∃ y, (run ops db).workflowExecutions[i]? = some y ∧
      y.Status = x.Status ∧ y.CurrentStep = x.CurrentStep ∧ y.Log = x.Log ∧ y = x := by
  obtain ⟨t, ht⟩ := run_keeps_executions ops db
  have hi : i < db.workflowExecutions.length := by
    by_contra hc
    rw [List.getElem?_eq_none (Nat.le_of_not_lt hc)] at hx
    exact absurd hx (by simp)
  refine ⟨x, ?_, rfl, rfl, rfl, rfl⟩
  rw [← ht, List.getElem?_append_left hi]
  exact hx

/-- Witness of C14: the failed execution of the demo store, at position 1, is unchanged after
the demo requests. -/
theorem terminal_execution_untouched_witness :
    ∃ y, (run demoOps demoDB2).workflowExecutions[1]? = some y ∧
      y.Status = ExecutionFailed ∧ y.CurrentStep = 1 ∧ y.Log = "[]" ∧
      y = ⟨2, 1, 1, 8, "manual", ExecutionFailed, 1, "[]", 14, some 15, 14⟩ :=
  terminal_execution_untouched demoOps demoDB2 1
    ⟨2, 1, 1, 8, "manual", ExecutionFailed, 1, "[]", 14, some 15, 14⟩ (by decide)
    (Or.inr rfl)

/-- C15: a row of `workflow_executions` is still in the table after any sequence of requests
to the workflow handlers, and the table never gets shorter. In particular `DeleteWorkflow` on the
workflow of the execution (a soft delete of the workflow row) and `DeleteAction` on any action
leave the table of executions exactly as it was. -/
theorem execution_never_deleted (ops : List (Env × Op)) (db : DB) (x : WorkflowExecution)
    (hx : x ∈ db.workflowExecutions) :
    x ∈ (run ops db).workflowExecutions ∧
    db.workflowExecutions.length ≤ (run ops db).workflowExecutions.length ∧
    (∀ env, (DeleteWorkflow env x.WorkflowID db).1.workflowExecutions
      = db.workflowExecutions) ∧
    (∀ env actionId, (DeleteAction env actionId db).1.workflowExecutions
      = db.workflowExecutions) :=
  ⟨(run_keeps_executions ops db).subset hx, (run_keeps_executions ops db).length_le,
   fun env => DeleteWorkflow_executions env _ db,
   fun env actionId => DeleteAction_executions env actionId db⟩

/-- Witness of C15: the running execution of workflow 1 in the demo store survives the demo
requests, which delete workflow 1 and its action. -/
theorem execution_never_deleted_witness :
    (⟨1, 1, 1, 7, "manual", ExecutionRunning, 0, "", 12, none, 12⟩ : WorkflowExecution)
      ∈ (run demoOps demoDB).workflowExecutions ∧
    demoDB.workflowExecutions.length ≤ (run demoOps demoDB).workflowExecutions.length ∧
    (∀ env, (DeleteWorkflow env ((1 : Nat) : Int) demoDB).1.workflowExecutions
      = demoDB.workflowExecutions) ∧
    (∀ env actionId, (DeleteAction env actionId demoDB).1.workflowExecutions
      = demoDB.workflowExecutions) :=
  execution_never_deleted demoOps demoDB
    ⟨1, 1, 1, 7, "manual", ExecutionRunning, 0, "", 12, none, 12⟩ (by decide)

theorem max?_getD_spec (l : List Int) (d : Int) :
    (l = [] → l.max?.getD d = d) ∧ (∀ x ∈ l, x ≤ l.max?.getD d) ∧
    (l ≠ [] → l.max?.getD d ∈ l) := by
  cases h : l.max? with
  | none =>
    have hl : l = [] := List.max?_eq_none_iff.mp h
    subst hl
    simp
  | some m =>
    haveI : Std.Antisymm (fun (x1 x2 : Int) => x1 ≤ x2) :=
      ⟨fun h1 h2 => le_antisymm h1 h2⟩
    have hm := (List.max?_eq_some_iff (fun a => le_refl a) (fun a b => max_choice a b)
      (fun a b c => max_le_iff)).mp h
    refine ⟨fun hl => ?_, fun x hx => hm.2 x hx, fun _ => hm.1⟩
    subst hl
    simp at h

theorem maxSortOrder_spec (db : DB) (id : Int) :
    (db.actionsOf id = [] → db.maxSortOrder id = -1) ∧
    (∀ a ∈ db.actionsOf id, a.SortOrder ≤ db.maxSortOrder id) ∧
    (db.actionsOf id ≠ [] → ∃ a ∈ db.actionsOf id, a.SortOrder = db.maxSortOrder id) := by
  obtain ⟨h1, h2, h3⟩ := max?_getD_spec ((db.actionsOf id).map (fun a => a.SortOrder)) (-1)
  refine ⟨fun h => ?_, fun a ha => ?_, fun h => ?_⟩
  · exact h1 (by simp [h])
  · exact h2 _ (List.mem_map.mpr ⟨a, ha, rfl⟩)
  · obtain ⟨a, ha, he⟩ := List.mem_map.mp (h3 (by simpa using h))
    exact ⟨a, ha, he⟩

theorem wrapInt64_id (n : Int) (h1 : -(2 ^ 63) ≤ n) (h2 : n < 2 ^ 63) : wrapInt64 n = n := by
  unfold wrapInt64
  omega

/-- What `DB.Create` does to `workflow_actions`: nothing with an error, or one row appended
that is the struct handed in under a primary key no row had. -/
theorem createAction_spec (env : Env) (body : WorkflowAction) (db : DB) :
    ((db.createAction env body).2.2 = true ∧
      (db.createAction env body).1.workflowActions = db.workflowActions) ∨
    ((db.createAction env body).2.2 = false ∧ body.WorkflowID < 2 ^ 63 ∧
      (db.createAction env body).1.workflowActions
        = db.workflowActions ++ [(db.createAction env body).2.1] ∧
      (db.createAction env body).2.1.WorkflowID = body.WorkflowID ∧
      (db.createAction env body).2.1.SortOrder = body.SortOrder ∧
      (db.createAction env body).2.1.DelaySeconds = body.DelaySeconds ∧
      ∀ a ∈ db.workflowActions, a.ID ≠ (db.createAction env body).2.1.ID) := by
  unfold DB.createAction
  dsimp only
  by_cases h1 : env.insertFails = true ∨ 2 ^ 63 ≤ body.WorkflowID
  · left
    rw [if_pos h1]
    exact ⟨rfl, rfl⟩
  · by_cases h2 : (db.workflowActions.any (fun a =>
        decide (a.ID = if body.ID = 0 then db.actionSeq + 1 else body.ID))) = true
    · left
      rw [if_neg h1, if_pos h2]
      exact ⟨rfl, rfl⟩
    · right
      rw [if_neg h1, if_neg h2]
      refine ⟨rfl, by omega, rfl, rfl, rfl, rfl, ?_⟩
      intro a ha he
      exact h2 (List.any_eq_true.mpr ⟨a, ha, by simpa using he⟩)

/-- What `CreateAction` does with a body that decodes: a 500 and no new row, or a 201 with the
row it appended. -/
theorem CreateAction_spec (env : Env) (id : Int) (body : WorkflowAction) (db : DB) :
    ((CreateAction env id (some body) db).2.status = 500 ∧
      (CreateAction env id (some body) db).1.workflowActions = db.workflowActions) ∨
    (∃ r, (CreateAction env id (some body) db).2 = ⟨201, .action r⟩ ∧
      (CreateAction env id (some body) db).1.workflowActions = db.workflowActions ++ [r] ∧
      goUint id < 2 ^ 63 ∧ r.WorkflowID = goUint id ∧
      r.SortOrder = wrapInt64 (db.maxSortOrder id + 1) ∧
      r.DelaySeconds = body.DelaySeconds ∧
      ∀ a ∈ db.workflowActions, a.ID ≠ r.ID) := by
  simp only [CreateAction]
  rcases createAction_spec env
    { body with TenantID := 1, WorkflowID := goUint id,
                SortOrder := wrapInt64 (db.maxSortOrder id + 1) } db with h | h
  · left
    rw [if_pos h.1]
    exact ⟨rfl, h.2⟩
  · right
    obtain ⟨h0, h1, h2, h3, h4, h5, h6⟩ := h
    rw [if_neg (by simp [h0])]
    exact ⟨_, rfl, h2, h1, h3, h4, h5, h6⟩

theorem assignAction_fields {a a1 : WorkflowAction} {c : ActionColumn} {v : JVal}
    (h : assignAction a c v = some a1) :
    (c ≠ .sortOrder → a1.SortOrder = a.SortOrder) ∧
    (c ≠ .workflowId → a1.WorkflowID = a.WorkflowID) ∧
    (c ≠ .id → a1.ID = a.ID) ∧
    (a1.DelaySeconds = a.DelaySeconds ∨
      (c = .delaySeconds ∧ v = .num a1.DelaySeconds)) := by
  cases c <;> cases v <;> simp [assignAction] at h <;>
    (try (obtain ⟨_, rfl⟩ := h)) <;> (try (obtain ⟨_, _, rfl⟩ := h)) <;> simp

theorem mem_foldl_delete {α : Type} (keys : List String) (m : GoMap α) (kv : String × α) :
    kv ∈ keys.foldl (fun acc key => GoMap.delete acc key) m ↔ kv ∈ m ∧ kv.1 ∉ keys := by
  induction keys generalizing m with
  | nil => simp
  | cons k rest ih =>
    rw [List.foldl_cons, ih]
    simp only [GoMap.delete, List.mem_filter, List.mem_cons, not_or]
    constructor
    · rintro ⟨⟨h1, h2⟩, h3⟩
      refine ⟨h1, ?_, h3⟩
      simpa using h2
    · rintro ⟨h1, h2, h3⟩
      refine ⟨⟨h1, ?_⟩, h3⟩
      simpa using h2

theorem mem_sanitizeUpdates {α : Type} (m : GoMap α) (kv : String × α) :
    kv ∈ sanitizeUpdates m ↔ kv ∈ m ∧ kv.1 ∉ forbidden :=
  mem_foldl_delete forbidden m kv

theorem foldl_delete_eq_filter {α : Type} (keys : List String) (m : GoMap α) :
    keys.foldl (fun acc key => GoMap.delete acc key) m
      = m.filter (fun kv => decide (kv.1 ∉ keys)) := by
  induction keys generalizing m with
  | nil => simp
  | cons k rest ih =>
    rw [List.foldl_cons, ih, GoMap.delete, List.filter_filter]
    apply List.filter_congr
    intro kv _
    by_cases h1 : kv.1 = k <;> by_cases h2 : kv.1 ∈ rest <;> simp [h1, h2]

theorem foldlM_invariant {α β : Type} (P : β → Prop) (f : β → α → Option β) (l : List α)
    (hf : ∀ r x r1, x ∈ l → P r → f r x = some r1 → P r1) (init r : β) (h0 : P init)
    (h : l.foldlM f init = some r) : P r := by
  induction l generalizing init with
  | nil =>
    simp only [List.foldlM_nil] at h
    cases h
    exact h0
  | cons x rest ih =>
    simp only [List.foldlM_cons] at h
    cases hx : f init x with
    | none => simp [hx] at h
    | some r1 =>
      simp only [hx] at h
      exact ih (fun r y r2 hy => hf r y r2 (List.mem_cons_of_mem _ hy)) r1
        (hf init x r1 (List.mem_cons_self _ _) h0 hx) h

/-- A property of a row that the time stamp does not touch and that every assignment of the
map keeps is kept by the whole `SET` clause. -/
theorem applyActionUpdates_invariant (P : WorkflowAction → Prop) (namer : String → String)
    (now : Time) (m : GoMap JVal) (a a1 : WorkflowAction)
    (hstamp : ∀ r : WorkflowAction, P r → P { r with UpdatedAt := now })
    (hf : ∀ (r r1 : WorkflowAction) (kv : String × JVal) (c : ActionColumn), kv ∈ m →
      actionColumn namer kv.1 = some c → P r → assignAction r c kv.2 = some r1 → P r1)
    (h0 : P a) (h : applyActionUpdates namer now m a = some a1) : P a1 := by
  unfold applyActionUpdates at h
  dsimp only at h
  split_ifs at h with hc hu
  · refine foldlM_invariant P _ m ?_ a a1 h0 h
    intro r kv r1 hkv hr hstep
    cases hcol : actionColumn namer kv.1 with
    | none => simp [hcol] at hstep
    | some c =>
      simp only [hcol] at hstep
      exact hf r r1 kv c hkv hcol hr hstep
  · refine foldlM_invariant P _ m ?_ _ a1 (hstamp a h0) h
    intro r kv r1 hkv hr hstep
    cases hcol : actionColumn namer kv.1 with
    | none => simp [hcol] at hstep
    | some c =>
      simp only [hcol] at hstep
      exact hf r r1 kv c hkv hcol hr hstep

theorem reorderLoop_accepted (env : Env) (i : Nat) (order : List Nat) (db : DB)
    (h : ∀ j, j < order.length → env.loopFails (i + j) = false) :
    reorderLoop env i order db =
      { db with workflowActions := db.workflowActions.map (reorderRow env.now i order) } := by
  induction order generalizing i db with
  | nil => simp [reorderLoop, reorderRow]
  | cons id rest ih =>
    have h0 : env.loopFails i = false := by simpa using h 0 (by simp)
    have hrest : ∀ j, j < rest.length → env.loopFails (i + 1 + j) = false := by
      intro j hj
      have := h (j + 1) (by simp [hj])
      rwa [show i + (j + 1) = i + 1 + j by omega] at this
    rw [reorderLoop, ih (i + 1) _ hrest]
    simp only [DB.updateSortOrder, h0, Bool.false_eq_true, if_false, List.map_map]
    rfl

theorem reorderLoop_rejected (env : Env) (i : Nat) (order : List Nat) (db : DB)
    (h : ∀ j, j < order.length → env.loopFails (i + j) = true) :
    reorderLoop env i order db = db := by
  induction order generalizing i db with
  | nil => rfl
  | cons id rest ih =>
    have h0 : env.loopFails i = true := by simpa using h 0 (by simp)
    have hrest : ∀ j, j < rest.length → env.loopFails (i + 1 + j) = true := by
      intro j hj
      have := h (j + 1) (by simp [hj])
      rwa [show i + (j + 1) = i + 1 + j by omega] at this
    rw [reorderLoop, ih (i + 1) _ hrest]
    simp [DB.updateSortOrder, h0]

theorem reorderRow_fields (now : Time) (i : Nat) (order : List Nat) (a : WorkflowAction) :
    (reorderRow now i order a).ID = a.ID ∧
    (reorderRow now i order a).WorkflowID = a.WorkflowID := by
  induction order generalizing i a with
  | nil => exact ⟨rfl, rfl⟩
  | cons id rest ih =>
    rw [reorderRow]
    obtain ⟨h1, h2⟩ := ih (i + 1) (if a.ID = id then
      { a with SortOrder := (i : Int), UpdatedAt := now } else a)
    rw [h1, h2]
    split <;> exact ⟨rfl, rfl⟩

theorem reorderRow_not_mem (now : Time) (i : Nat) (order : List Nat) (a : WorkflowAction)
    (h : a.ID ∉ order) : reorderRow now i order a = a := by
  induction order generalizing i with
  | nil => rfl
  | cons id rest ih =>
    have hne : ¬ a.ID = id := fun he => h (by rw [he]; exact List.mem_cons_self _ _)
    rw [reorderRow, if_neg hne]
    exact ih (i + 1) (fun hm => h (List.mem_cons_of_mem _ hm))

theorem reorderRow_mem (now : Time) (i : Nat) (order : List Nat) (a : WorkflowAction)
    (h : a.ID ∈ order) :
    ∃ j, order[j]? = some a.ID ∧ (reorderRow now i order a).SortOrder = ((i + j : Nat) : Int) := by
  induction order generalizing i a with
  | nil => exact absurd h (List.not_mem_nil _)
  | cons id rest ih =>
    rw [reorderRow]
    by_cases hr : a.ID ∈ rest
    · have hid : (if a.ID = id then
          { a with SortOrder := (i : Int), UpdatedAt := now } else a).ID = a.ID := by
        split <;> rfl
      obtain ⟨j, hj, hs⟩ := ih (i + 1) _ (hid.symm ▸ hr)
      refine ⟨j + 1, ?_, ?_⟩
      · rw [List.getElem?_cons_succ, hj, hid]
      · rw [hs]
        congr 1
        omega
    · have he : a.ID = id := by
        rcases List.mem_cons.mp h with he | he
        · exact he
        · exact absurd he hr
      rw [if_pos he, reorderRow_not_mem now (i + 1) rest _ (by exact hr)]
      exact ⟨0, by simp [he], by simp⟩

theorem nodup_ids_iff (l : List WorkflowAction) :
    (l.map (fun a => a.ID)).Nodup ↔ l.Pairwise (fun a b => a.ID ≠ b.ID) := by
  simp [List.Nodup, List.pairwise_map]

/-- A rewrite of the rows that keeps `ID`, `WorkflowID` and `SortOrder` of each keeps distinct
primary keys and unique `sort_order`. -/
theorem map_keeps_invariant (l : List WorkflowAction) (f : WorkflowAction → WorkflowAction)
    (hf : ∀ a ∈ l, (f a).ID = a.ID ∧ (f a).WorkflowID = a.WorkflowID ∧
      (f a).SortOrder = a.SortOrder)
    (hpk : (l.map (fun a => a.ID)).Nodup)
    (hu : l.Pairwise (fun a b => ¬ (a.WorkflowID = b.WorkflowID ∧ a.SortOrder = b.SortOrder))) :
    ((l.map f).map (fun a => a.ID)).Nodup ∧
    (l.map f).Pairwise
      (fun a b => ¬ (a.WorkflowID = b.WorkflowID ∧ a.SortOrder = b.SortOrder)) := by
  constructor
  · have he : (l.map f).map (fun a => a.ID) = l.map (fun a => a.ID) := by
      rw [List.map_map]
      exact List.map_congr_left (fun a ha => (hf a ha).1)
    rw [he]
    exact hpk
  · rw [List.pairwise_map]
    refine hu.imp_of_mem ?_
    intro a b ha hb hab
    rw [(hf a ha).2.1, (hf a ha).2.2, (hf b hb).2.1, (hf b hb).2.2]
    exact hab

theorem applyActionUpdates_keeps (namer : String → String) (now : Time) (m : GoMap JVal)
    (a a1 : WorkflowAction)
    (hm : ∀ kv ∈ m, actionColumn namer kv.1 ≠ some .sortOrder ∧
      actionColumn namer kv.1 ≠ some .workflowId)
    (h : applyActionUpdates namer now (sanitizeUpdates m) a = some a1) :
    a1.WorkflowID = a.WorkflowID ∧ a1.SortOrder = a.SortOrder := by
  refine applyActionUpdates_invariant
    (fun r => r.WorkflowID = a.WorkflowID ∧ r.SortOrder = a.SortOrder) namer now _ a a1
    (fun r hr => hr) ?_ ⟨rfl, rfl⟩ h
  intro r r1 kv c hkv hcol hr hstep
  have hk := hm kv ((mem_sanitizeUpdates m kv).mp hkv).1
  rw [hcol] at hk
  show r1.WorkflowID = a.WorkflowID ∧ r1.SortOrder = a.SortOrder
  rw [(assignAction_fields hstep).1 (fun hc => hk.1 (by rw [hc])),
    (assignAction_fields hstep).2.1 (fun hc => hk.2 (by rw [hc]))]
  exact ⟨hr.1, hr.2⟩

theorem UpdateAction_keeps_invariant (env : Env) (actionId : Int) (m : GoMap JVal) (db : DB)
    (hm : ∀ kv ∈ m, actionColumn env.namer kv.1 ≠ some .sortOrder ∧
      actionColumn env.namer kv.1 ≠ some .workflowId)
    (hpk : (db.workflowActions.map (fun a => a.ID)).Nodup) (hu : SortOrderUnique db) :
    ((UpdateAction env actionId (some m) db).1.workflowActions.map (fun a => a.ID)).Nodup ∧
    SortOrderUnique (UpdateAction env actionId (some m) db).1 := by
  unfold UpdateAction
  cases db.firstAction actionId with
  | none => exact ⟨hpk, hu⟩
  | some action =>
    show ((db.updatesAction env action (sanitizeUpdates m)).workflowActions.map
        (fun a => a.ID)).Nodup ∧
      SortOrderUnique (db.updatesAction env action (sanitizeUpdates m))
    unfold DB.updatesAction
    dsimp only
    split_ifs with h1 h2 h3
    · exact ⟨hpk, hu⟩
    · refine ⟨h3.resolve_right (fun hn => hn hpk), ?_⟩
      unfold SortOrderUnique
      dsimp only
      rw [List.pairwise_map]
      refine (show db.workflowActions.Pairwise _ from hu).imp_of_mem ?_
      intro a b _ _ hab
      have key : ∀ x : WorkflowAction,
          (if (decide (x.ID = action.ID)) = true
            then (applyActionUpdates env.namer env.now (sanitizeUpdates m) x).getD x
            else x).WorkflowID = x.WorkflowID ∧
          (if (decide (x.ID = action.ID)) = true
            then (applyActionUpdates env.namer env.now (sanitizeUpdates m) x).getD x
            else x).SortOrder = x.SortOrder := by
        intro x
        split_ifs
        · cases hx : applyActionUpdates env.namer env.now (sanitizeUpdates m) x with
          | none => exact ⟨rfl, rfl⟩
          | some x1 => exact applyActionUpdates_keeps env.namer env.now m x x1 hm hx
        · exact ⟨rfl, rfl⟩
      rw [(key a).1, (key a).2, (key b).1, (key b).2]
      exact hab
    · exact ⟨hpk, hu⟩
    · exact ⟨hpk, hu⟩

theorem CreateAction_keeps_invariant (env : Env) (id : Int) (body : WorkflowAction) (db : DB)
    (hid : -(2 ^ 63) ≤ id ∧ id < 2 ^ 63)
    (hr : ∀ a ∈ db.actionsOf id, -(2 ^ 63) ≤ a.SortOrder ∧ a.SortOrder < 2 ^ 63 - 1)
    (hpk : (db.workflowActions.map (fun a => a.ID)).Nodup) (hu : SortOrderUnique db) :
    ((CreateAction env id (some body) db).1.workflowActions.map (fun a => a.ID)).Nodup ∧
    SortOrderUnique (CreateAction env id (some body) db).1 := by
  rcases CreateAction_spec env id body db with h | ⟨r, _, h2, h3, h4, h5, _, h7⟩
  · unfold SortOrderUnique
    rw [h.2]
    exact ⟨hpk, hu⟩
  · have hw : (r.WorkflowID : Int) = id := by
      rw [h4]
      unfold goUint at h3 ⊢
      omega
    obtain ⟨m1, m2, m3⟩ := maxSortOrder_spec db id
    have hmax : -(2 ^ 63) ≤ db.maxSortOrder id ∧ db.maxSortOrder id < 2 ^ 63 - 1 := by
      by_cases he : db.actionsOf id = []
      · rw [m1 he]
        omega
      · obtain ⟨a, ha, hae⟩ := m3 he
        have := hr a ha
        omega
    have hso : r.SortOrder = db.maxSortOrder id + 1 := by
      rw [h5]
      exact wrapInt64_id _ (by omega) (by omega)
    unfold SortOrderUnique
    rw [h2]
    constructor
    · rw [List.map_append, List.nodup_append]
      refine ⟨hpk, by simp, ?_⟩
      intro i hi hj
      obtain ⟨a, ha, rfl⟩ := List.mem_map.mp hi
      simp only [List.map_cons, List.map_nil, List.mem_singleton] at hj
      exact h7 a ha hj
    · rw [List.pairwise_append]
      refine ⟨hu, by simp, ?_⟩
      intro a ha b hb
      rw [List.mem_singleton.mp hb]
      rintro ⟨hwf, hs⟩
      have hmem : a ∈ db.actionsOf id := by
        simp only [DB.actionsOf, List.mem_filter, decide_eq_true_eq]
        exact ⟨ha, by rw [hwf]; exact hw⟩
      have := m2 a hmem
      omega

theorem DeleteAction_keeps_invariant (env : Env) (actionId : Int) (db : DB)
    (hpk : (db.workflowActions.map (fun a => a.ID)).Nodup) (hu : SortOrderUnique db) :
    ((DeleteAction env actionId db).1.workflowActions.map (fun a => a.ID)).Nodup ∧
    SortOrderUnique (DeleteAction env actionId db).1 := by
  have key : ∀ p : WorkflowAction → Bool,
      ((db.workflowActions.filter p).map (fun a => a.ID)).Nodup ∧
      (db.workflowActions.filter p).Pairwise
        (fun a b => ¬ (a.WorkflowID = b.WorkflowID ∧ a.SortOrder = b.SortOrder)) :=
    fun p => ⟨hpk.sublist ((List.filter_sublist _).map _), hu.sublist (List.filter_sublist _)⟩
  simp only [DeleteAction, DB.deleteAction]
  split_ifs
  · exact ⟨hpk, hu⟩
  · exact ⟨hpk, hu⟩
  · exact key _
  · exact key _

theorem ReorderActions_keeps_invariant (env : Env) (order : List Nat) (db : DB)
    (hc : ∀ a ∈ db.workflowActions, ∀ b ∈ db.workflowActions,
      a.WorkflowID = b.WorkflowID → (a.ID ∈ order ↔ b.ID ∈ order))
    (hl : (∀ i, i < order.length → env.loopFails i = false) ∨
      (∀ i, i < order.length → env.loopFails i = true))
    (hpk : (db.workflowActions.map (fun a => a.ID)).Nodup) (hu : SortOrderUnique db) :
    ((ReorderActions env (some order) db).1.workflowActions.map (fun a => a.ID)).Nodup ∧
    SortOrderUnique (ReorderActions env (some order) db).1 := by
  show ((reorderLoop env 0 order db).workflowActions.map (fun a => a.ID)).Nodup ∧
    SortOrderUnique (reorderLoop env 0 order db)
  rcases hl with hl | hl
  · rw [reorderLoop_accepted env 0 order db (fun j hj => by simpa using hl j hj)]
    unfold SortOrderUnique
    dsimp only
    constructor
    · have he : (db.workflowActions.map (reorderRow env.now 0 order)).map (fun a => a.ID)
          = db.workflowActions.map (fun a => a.ID) := by
        rw [List.map_map]
        exact List.map_congr_left (fun a _ => (reorderRow_fields env.now 0 order a).1)
      rw [he]
      exact hpk
    · rw [List.pairwise_map]
      refine (((nodup_ids_iff _).mp hpk).and hu).imp_of_mem ?_
      intro a b ha hb2 hab
      rintro ⟨hw, hs⟩
      rw [(reorderRow_fields env.now 0 order a).2, (reorderRow_fields env.now 0 order b).2] at hw
      by_cases hma : a.ID ∈ order
      · have hmb : b.ID ∈ order := (hc a ha b hb2 hw).mp hma
        obtain ⟨ja, hja, hsa⟩ := reorderRow_mem env.now 0 order a hma
        obtain ⟨jb, hjb, hsb⟩ := reorderRow_mem env.now 0 order b hmb
        rw [hsa, hsb] at hs
        have hj : ja = jb := by omega
        rw [hj, hjb] at hja
        exact hab.1 (Option.some.inj hja).symm
      · have hmb : b.ID ∉ order := fun h => hma ((hc a ha b hb2 hw).mpr h)
        rw [reorderRow_not_mem env.now 0 order a hma,
          reorderRow_not_mem env.now 0 order b hmb] at hs
        exact hab.2 ⟨hw, hs⟩
  · rw [reorderLoop_rejected env 0 order db (fun j hj => by simpa using hl j hj)]
    exact ⟨hpk, hu⟩

theorem step_keeps_invariant (env : Env) (op : Op) (db : DB) (ha : admissible env op db)
    (hpk : (db.workflowActions.map (fun a => a.ID)).Nodup) (hu : SortOrderUnique db) :
    ((step env op db).1.workflowActions.map (fun a => a.ID)).Nodup ∧
    SortOrderUnique (step env op db).1 := by
  cases op with
  | createAction id body =>
    cases body with
    | none => exact ⟨hpk, hu⟩
    | some b => exact CreateAction_keeps_invariant env id b db ha.1 ha.2 hpk hu
  | updateAction actionId body =>
    cases body with
    | none =>
      show ((UpdateAction env actionId none db).1.workflowActions.map (fun a => a.ID)).Nodup ∧
        SortOrderUnique (UpdateAction env actionId none db).1
      unfold UpdateAction
      cases db.firstAction actionId <;> exact ⟨hpk, hu⟩
    | some m => exact UpdateAction_keeps_invariant env actionId m db ha hpk hu
  | deleteAction actionId => exact DeleteAction_keeps_invariant env actionId db hpk hu
  | reorderActions body =>
    cases body with
    | none => exact ⟨hpk, hu⟩
    | some order => exact ReorderActions_keeps_invariant env order db ha.1 ha.2 hpk hu
  | listWorkflows ilike page search status => exact ha.elim
  | getWorkflow id => exact ha.elim
  | createWorkflow body => exact ha.elim
  | updateWorkflow id body => exact ha.elim
  | deleteWorkflow id => exact ha.elim
  | listExecutions page wid status => exact ha.elim
  | getExecution execId => exact ha.elim
  | triggerWorkflow id body => exact ha.elim

/-- A key in camel case reaches the column through the naming strategy: in the store with
actions 1 and 2 of workflow 1 at `sort_order` 0 and 1, an `UpdateAction` of action 2 with the
body `sortOrder: 0` leaves both at 0. Where the library does not resolve the key this way, the
statement names a column that does not exist and changes nothing. -/
theorem camel_key_writes_sort_order :
    (UpdateAction demoEnv 2 (some [("sortOrder", .num 0)]) demoTwoDB).1.workflowActions.map
      (fun a => (a.ID, a.SortOrder)) = [(1, 0), (2, 0)] ∧
    (UpdateAction { demoEnv with namer := id } 2 (some [("sortOrder", .num 0)])
      demoTwoDB).1 = demoTwoDB := by
  decide

/-- The updates of `ReorderActions` are applied one by one: in the store with actions 1 and 2 of
workflow 1 at `sort_order` 0 and 1, the list `[2, 1]` with the second `UPDATE` rejected leaves
both actions at 0. -/
theorem partial_reorder_breaks_sort_order :
    (ReorderActions { demoEnv with loopFails := fun i => decide (i = 1) } (some [2, 1])
      demoTwoDB).1.workflowActions.map (fun a => (a.ID, a.SortOrder)) = [(1, 0), (2, 0)] := by
  decide

/-- C12, as stated, fails: from the demo store, whose only action has `sort_order` 0, a
`CreateAction` for workflow 1 followed by a `ReorderActions` that names the new action alone
leaves two actions of workflow 1 with `sort_order` 0. -/
theorem reorder_breaks_sort_order :
    ¬ (∀ (ops : List (Env × Op)) (db : DB), (∀ eo ∈ ops, eo.2.isActionOp = true) →
        SortOrderUnique db → SortOrderUnique (run ops db)) := by
  intro h
  have h2 := h [(demoEnv, .createAction 1 (some demoAction)),
      (demoEnv, .reorderActions (some [2]))] demoDB
    (by simp [Op.isActionOp]) (by unfold SortOrderUnique; decide)
  revert h2
  unfold SortOrderUnique
  decide

/-- C12, amended: starting from a store in which primary keys are distinct and no two actions
of the same workflow share a `sort_order`, uniqueness of `sort_order` per workflow holds after
every sequence of `CreateAction`, `DeleteAction`, `UpdateAction` and `ReorderActions` requests
in which each `UpdateAction` body has no key that names `sort_order` or `workflow_id` (as a
column name, as a Go field name, or through the naming strategy of the library), each
`ReorderActions` list names all the actions of a workflow or none of them and has its updates
all accepted or all rejected by the store, and the values `CreateAction` reads are below the
largest Go `int`. -/
theorem sort_order_unique_preserved (ops : List (Env × Op)) (db : DB)
    (hpk : (db.workflowActions.map (fun a => a.ID)).Nodup) (hu : SortOrderUnique db)
    (ha : Admissible ops db) :
    SortOrderUnique (run ops db) ∧ ((run ops db).workflowActions.map (fun a => a.ID)).Nodup := by
  induction ops generalizing db with
  | nil => exact ⟨hu, hpk⟩
  | cons eo rest ih =>
    obtain ⟨env, op⟩ := eo
    obtain ⟨h1, h2⟩ := step_keeps_invariant env op db ha.1 hpk hu
    exact ih (step env op db).1 h1 h2 ha.2

/-- Witness of C12 amended: from the demo store, a `CreateAction` for workflow 1, a
`ReorderActions` that names both actions of workflow 1 in reverse, an `UpdateAction` of the
`delay_seconds` of action 1 under the key `delaySeconds` and a `DeleteAction` of action 2 keep
`sort_order` unique. -/
theorem sort_order_unique_preserved_witness :
    SortOrderUnique (run [(demoEnv, .createAction 1 (some demoAction)),
        (demoEnv, .reorderActions (some [2, 1])),
        (demoEnv, .updateAction 1 (some [("delaySeconds", .num 30)])),
        (demoEnv, .deleteAction 2)] demoDB) ∧
    ((run [(demoEnv, .createAction 1 (some demoAction)),
        (demoEnv, .reorderActions (some [2, 1])),
        (demoEnv, .updateAction 1 (some [("delaySeconds", .num 30)])),
        (demoEnv, .deleteAction 2)] demoDB).workflowActions.map (fun a => a.ID)).Nodup :=
  sort_order_unique_preserved _ demoDB (by decide) (by unfold SortOrderUnique; decide)
    ⟨by simp only [admissible]; decide,
     by simp only [admissible]; decide,
     by simp only [admissible]; decide,
     trivial, trivial⟩

theorem bindEnroll_ok (c : Nat) (source : String) (hc : c ≠ 0) :
    bindEnroll (some (c, source)) = .ok (c, source) := by
  cases c with
  | zero => exact absurd rfl hc
  | succ n => rfl

theorem firstEnrollment_of_mem (db : CourseDB) (c : Nat) (k : Int) (e : CourseEnrollment)
    (he : e ∈ db.courseEnrollments) (hc : e.ContactID = c) (hk : (e.CourseID : Int) = k) :
    ∃ e1, db.firstEnrollment c k = some e1 ∧ e1 ∈ db.courseEnrollments ∧ e1.ContactID = c ∧
      (e1.CourseID : Int) = k := by
  unfold CourseDB.firstEnrollment
  generalize hF : db.courseEnrollments.filter (fun e =>
      decide (e.ContactID = c) && decide ((e.CourseID : Int) = k)) = F
  have heF : e ∈ F := by
    rw [← hF]
    exact List.mem_filter.mpr ⟨he, by simp [hc, hk]⟩
  cases hS : F.mergeSort (fun a b => decide (a.ID ≤ b.ID)) with
  | nil =>
    have : e ∈ F.mergeSort (fun a b => decide (a.ID ≤ b.ID)) := List.mem_mergeSort.mpr heF
    rw [hS] at this
    exact absurd this (List.not_mem_nil _)
  | cons e1 rest =>
    have h1 : e1 ∈ F := by
      apply List.mem_mergeSort.mp
      rw [hS]
      exact List.mem_cons_self _ _
    rw [← hF] at h1
    obtain ⟨m1, m2⟩ := List.mem_filter.mp h1
    simp only [Bool.and_eq_true, decide_eq_true_eq] at m2
    exact ⟨e1, rfl, m1, m2.1, m2.2⟩

/-- C16: when the table holds an enrollment of contact `c` in course `k`, `EnrollContact(k, c)`
is answered 200 with an enrollment of `c` in `k` taken from the table (the one there is, given
the unique index on the pair) and the message `Already enrolled`; the table is left as it was,
so no second record exists, and the bus is left as it was: nothing is published, no handler is
started or called. -/
theorem EnrollContact_idempotent {σ : Type} (env : Env) (k : Int) (c : Nat) (source : String)
    (db : CourseDB) (x : Events.Exec σ CourseEnrollment) (e : CourseEnrollment)
    (he : e ∈ db.courseEnrollments) (hc : e.ContactID = c) (hk : (e.CourseID : Int) = k)
    (hc0 : c ≠ 0) :
    ∃ e1, EnrollContact env k (some (c, source)) db x =
        (db, x, ⟨200, .enrollment e1 (some "Already enrolled")⟩) ∧
      e1 ∈ db.courseEnrollments ∧ e1.ContactID = c ∧ (e1.CourseID : Int) = k ∧
      (db.courseEnrollments.Pairwise
          (fun a b => ¬ (a.ContactID = b.ContactID ∧ a.CourseID = b.CourseID)) → e1 = e) := by
  obtain ⟨e1, h1, h2, h3, h4⟩ := firstEnrollment_of_mem db c k e he hc hk
  refine ⟨e1, ?_, h2, h3, h4, ?_⟩
  · simp [EnrollContact, bindEnroll_ok c source hc0, h1]
  · intro hu
    by_contra hne
    have hsym : Symmetric (fun a b : CourseEnrollment =>
        ¬ (a.ContactID = b.ContactID ∧ a.CourseID = b.CourseID)) :=
      fun a b hab hba => hab ⟨hba.1.symm, hba.2.symm⟩
    refine hu.forall hsym h2 he hne ⟨h3.trans hc.symm, ?_⟩
    exact_mod_cast h4.trans hk.symm

/-- Witness of C16: contact 7 is enrolled in course 3 of the demo table, and enrolling it again
answers with that row and changes neither the table nor the bus, which has a subscriber. -/
theorem EnrollContact_idempotent_witness :
    ∃ e1, EnrollContact demoEnv 3 (some (7, "manual")) demoCourseDB demoCourseExec =
        (demoCourseDB, demoCourseExec, ⟨200, .enrollment e1 (some "Already enrolled")⟩) ∧
      e1 ∈ demoCourseDB.courseEnrollments ∧ e1.ContactID = 7 ∧ (e1.CourseID : Int) = 3 ∧
      (demoCourseDB.courseEnrollments.Pairwise
          (fun a b => ¬ (a.ContactID = b.ContactID ∧ a.CourseID = b.CourseID)) →
        e1 = ⟨1, 1, 7, 3, EnrollStatusActive, 5, none, 0, "purchase", 5, 5⟩) :=
  EnrollContact_idempotent demoEnv 3 7 "manual" demoCourseDB demoCourseExec
    ⟨1, 1, 7, 3, EnrollStatusActive, 5, none, 0, "purchase", 5, 5⟩
    (by decide) (by decide) (by decide) (by decide)

end Handlers

/-! ## Properties of the modelled engine -/

namespace Engine

open Models Store

theorem preloadActions_sorted (db : DB) (w : Nat)
    (hso : ((db.workflowActions.filter (fun a => a.WorkflowID = w)).map
      (fun a => a.SortOrder)).Perm [0, 1, 2]) :
    (db.preloadActions w).map (fun a => a.SortOrder) = [0, 1, 2] := by
  unfold DB.preloadActions
  apply List.eq_of_perm_of_sorted (r := fun (a b : Int) => a ≤ b)
  · exact ((List.mergeSort_perm _ _).map _).trans hso
  · show List.Pairwise _ _
    rw [List.pairwise_map]
    refine (List.sorted_mergeSort ?_ ?_ _).imp ?_
    · intro a b c h1 h2
      simp only [decide_eq_true_eq] at *
      exact le_trans h1 h2
    · intro a b
      simp only [Bool.or_eq_true, decide_eq_true_eq]
      exact le_total _ _
    · intro a b h
      simpa using h
  · show List.Pairwise _ _
    decide

theorem planned_of_sorted (actions : List WorkflowAction)
    (h : actions.map (fun a => a.SortOrder) = [0, 1, 2]) :
    planned actions = actions.map (fun a => (a.SortOrder.toNat, a.ActionType)) := by
  rcases actions with _ | ⟨a0, _ | ⟨a1, _ | ⟨a2, _ | ⟨a3, rest⟩⟩⟩⟩ <;>
    simp only [List.map_cons, List.map_nil, List.cons.injEq, and_true, reduceCtorEq,
      and_false] at h
  obtain ⟨h0, h1, h2⟩ := h
  simp [planned, List.enum, List.enumFrom, h0, h1, h2]

theorem planned_take_succ (actions : List WorkflowAction) (i : Nat) (a : WorkflowAction)
    (h : actions[i]? = some a) :
    (planned actions).take (i + 1) = (planned actions).take i ++ [(i, a.ActionType)] := by
  rw [List.take_succ]
  simp [planned, List.getElem?_enum, h]

theorem length_planned (actions : List WorkflowAction) :
    (planned actions).length = actions.length := by
  simp [planned]

theorem logged_advance_inOrder (actions : List WorkflowAction) (now : Time) (x : Execution)
    (a : WorkflowAction) (o : StepOutcome) (b : Bool) (ha : actions[x.CurrentStep]? = some a)
    (hx : LogInOrder actions x) (hr : x.Status = ExecutionRunning) :
    LogInOrder actions (advanceStep actions.length now { (logged x a o now) with SkipNext := b }) := by
  obtain ⟨h1, h2, h3, h4⟩ := hx
  have hlen := h3 hr
  have hlt : x.CurrentStep < actions.length := by
    by_contra hc
    rw [List.getElem?_eq_none (Nat.le_of_not_lt hc)] at ha
    exact absurd ha (by simp)
  have hsteps : steps { (logged x a o now) with SkipNext := b }
      = (planned actions).take (x.Log.length + 1) := by
    rw [hlen, planned_take_succ actions _ a ha, ← hlen, ← h1]
    simp [steps, logged, hlen]
  unfold advanceStep
  split_ifs with hn
  · refine ⟨?_, ?_, ?_, ?_⟩
    · simpa [steps, logged] using hsteps
    · simp [logged]; omega
    · intro hs
      exact absurd (show ExecutionCompleted = ExecutionRunning from hs) (by decide)
    · intro _
      simp [logged]
      simp [logged] at hn
      omega
  · refine ⟨?_, ?_, ?_, ?_⟩
    · simpa [steps, logged] using hsteps
    · simp [logged]; omega
    · intro _
      simp [logged]
      omega
    · intro hs
      simp [logged] at hs
      rw [hr] at hs
      exact absurd hs (by decide)

theorem logged_failed_inOrder (actions : List WorkflowAction) (now : Time) (x : Execution)
    (a : WorkflowAction) (o : StepOutcome) (ha : actions[x.CurrentStep]? = some a)
    (hx : LogInOrder actions x) (hr : x.Status = ExecutionRunning) :
    LogInOrder actions (failed now (logged x a o now)) := by
  obtain ⟨h1, h2, h3, h4⟩ := hx
  have hlen := h3 hr
  have hlt : x.CurrentStep < actions.length := by
    by_contra hc
    rw [List.getElem?_eq_none (Nat.le_of_not_lt hc)] at ha
    exact absurd ha (by simp)
  have hsteps : steps (logged x a o now) = (planned actions).take (x.Log.length + 1) := by
    rw [hlen, planned_take_succ actions _ a ha, ← hlen, ← h1]
    simp [steps, logged, hlen]
  refine ⟨?_, ?_, ?_, ?_⟩
  · simpa [steps, logged, failed] using hsteps
  · simp [logged, failed]; omega
  · intro hs
    exact absurd (show ExecutionFailed = ExecutionRunning from hs) (by decide)
  · intro hs
    exact absurd (show ExecutionFailed = ExecutionCompleted from hs) (by decide)

theorem stepOnce_inOrder (K : Collaborators) (actions : List WorkflowAction) (now : Time)
    (r : Run) (hx : LogInOrder actions r.exec) (hr : r.exec.Status = ExecutionRunning) :
    LogInOrder actions (stepOnce K actions now r).1.exec := by
  unfold stepOnce
  cases ha : actions[r.exec.CurrentStep]? with
  | none => exact hx
  | some a =>
    dsimp only
    split_ifs
    · exact logged_advance_inOrder actions now r.exec a _ false ha hx hr
    · exact logged_advance_inOrder actions now r.exec a _ r.exec.SkipNext ha hx hr
    · exact hx
    · exact logged_advance_inOrder actions now r.exec a _ r.exec.SkipNext ha hx hr
    · exact logged_advance_inOrder actions now r.exec a _ _ ha hx hr
    · cases K.execute a r.exec with
      | success => exact logged_advance_inOrder actions now r.exec a _ r.exec.SkipNext ha hx hr
      | transientFailure reason => exact logged_failed_inOrder actions now r.exec a _ ha hx hr
      | permanentFailure reason => exact logged_failed_inOrder actions now r.exec a _ ha hx hr

theorem advance_inOrder (K : Collaborators) (actions : List WorkflowAction) (now : Time)
    (fuel : Nat) (r : Run) (hx : LogInOrder actions r.exec) :
    LogInOrder actions (advance K actions now fuel r).exec := by
  induction fuel generalizing r with
  | zero => exact hx
  | succ n ih =>
    unfold advance
    split_ifs with hc
    · have h1 := stepOnce_inOrder K actions now r hx hc.1
      cases hs : stepOnce K actions now r with
      | mk r1 b =>
        rw [hs] at h1
        cases b with
        | true => exact ih r1 h1
        | false => exact h1
    · exact hx

theorem ticks_inOrder (K : Collaborators) (actions : List WorkflowAction) (times : List Time)
    (r : Run) (hx : LogInOrder actions r.exec) :
    LogInOrder actions (ticks K actions times r).exec := by
  induction times generalizing r with
  | nil => exact hx
  | cons now rest ih => exact ih _ (advance_inOrder K actions now _ r hx)

/-- C17 (the scheduler is modelled from the specification): for a workflow whose stored actions
carry the `sort_order` values 0, 1 and 2, in whatever order the table holds them and whatever
their types, the scheduler works through them by ascending `sort_order`, and at every moment,
after any number of `Tick()` calls and whatever the executor and the evaluator answer, the log of
an execution started for it lists steps 0, 1, 2 with the types of the actions of `sort_order`
0, 1, 2, in that order, as far as the run has got: the whole list once the run has completed. -/
theorem log_follows_sort_order (K : Collaborators) (db : DB) (w : Nat)
    (row : WorkflowExecution) (times : List Time)
    (hso : ((db.workflowActions.filter (fun a => a.WorkflowID = w)).map
      (fun a => a.SortOrder)).Perm [0, 1, 2])
    (hrow : row.Status = ExecutionRunning ∧ row.CurrentStep = 0) :
    (db.preloadActions w).map (fun a => a.SortOrder) = [0, 1, 2] ∧
    planned (db.preloadActions w)
      = (db.preloadActions w).map (fun a => (a.SortOrder.toNat, a.ActionType)) ∧
    steps (ticks K (db.preloadActions w) times ⟨Execution.ofRow row, []⟩).exec
      <+: planned (db.preloadActions w) ∧
    ((ticks K (db.preloadActions w) times ⟨Execution.ofRow row, []⟩).exec.Status
        = ExecutionCompleted →
      steps (ticks K (db.preloadActions w) times ⟨Execution.ofRow row, []⟩).exec
        = planned (db.preloadActions w)) := by
  have hs := preloadActions_sorted db w hso
  have h0 : LogInOrder (db.preloadActions w) (Execution.ofRow row) := by
    refine ⟨by simp [steps, Execution.ofRow], by simp [Execution.ofRow], ?_, ?_⟩
    · intro _
      simp [Execution.ofRow, hrow.2]
    · intro hc
      have : row.Status = ExecutionCompleted := hc
      rw [hrow.1] at this
      exact absurd this (by decide)
  obtain ⟨h1, _, _, h4⟩ := ticks_inOrder K (db.preloadActions w) times
    ⟨Execution.ofRow row, []⟩ h0
  refine ⟨hs, planned_of_sorted _ hs, ?_, ?_⟩
  · rw [h1]
    exact List.take_prefix _ _
  · intro hc
    rw [h1, h4 hc, ← length_planned, List.take_length]

theorem demo_preloadActions : demoEngineDB.preloadActions 1 = demoActions := by
  simp [DB.preloadActions, demoEngineDB, demoActions, List.mergeSort, List.merge,
    List.splitInTwo]

/-- Witness of C17 on the demo store, whose table holds the actions of workflow 1 in the order
`send_email`, `add_tag`, `wait`: with every action succeeding and ticks at 100 and 86500 the run
completes and its log lists `add_tag`, `wait`, `send_email`. -/
theorem log_follows_sort_order_witness :
    ((demoEngineDB.preloadActions 1).map (fun a => a.SortOrder) = [0, 1, 2] ∧
      planned (demoEngineDB.preloadActions 1)
        = (demoEngineDB.preloadActions 1).map (fun a => (a.SortOrder.toNat, a.ActionType)) ∧
      steps (ticks demoSuccess (demoEngineDB.preloadActions 1) [100, 86500]
          ⟨Execution.ofRow demoRow, []⟩).exec
        <+: planned (demoEngineDB.preloadActions 1) ∧
      ((ticks demoSuccess (demoEngineDB.preloadActions 1) [100, 86500]
          ⟨Execution.ofRow demoRow, []⟩).exec.Status = ExecutionCompleted →
        steps (ticks demoSuccess (demoEngineDB.preloadActions 1) [100, 86500]
            ⟨Execution.ofRow demoRow, []⟩).exec
          = planned (demoEngineDB.preloadActions 1))) ∧
    steps (ticks demoSuccess demoActions [100, 86500] ⟨Execution.ofRow demoRow, []⟩).exec
      = [(0, "add_tag"), (1, "wait"), (2, "send_email")] :=
  ⟨log_follows_sort_order demoSuccess demoEngineDB 1 demoRow [100, 86500]
    (by decide) (by decide), by decide⟩

theorem advance_not_running (K : Collaborators) (actions : List WorkflowAction) (now : Time)
    (fuel : Nat) (r : Run) (h : r.exec.Status ≠ ExecutionRunning) :
    advance K actions now fuel r = r := by
  cases fuel with
  | zero => rfl
  | succ n =>
    unfold advance
    rw [if_neg (fun hc => h hc.1)]

theorem ticks_not_running (K : Collaborators) (actions : List WorkflowAction)
    (times : List Time) (r : Run) (h : r.exec.Status ≠ ExecutionRunning) :
    ticks K actions times r = r := by
  induction times with
  | nil => rfl
  | cons now rest ih =>
    unfold ticks tick
    rw [advance_not_running K actions now _ r h]
    exact ih

/-- C18 (the scheduler is modelled from the specification): for the workflow `add_tag`, `wait`,
`send_email` in which the executor answers `PermanentFailure` for `add_tag` (at delay 0, without
a condition), the first `Tick()` ends a fresh execution with `status = failed`,
`current_step = 0`, `completed_at` set and a log of exactly one entry, which records the failed
`add_tag`; and after any further `Tick()` calls the execution is the same and the only call ever
made into the executor is the one for `add_tag`, so `send_email` is never executed. -/
theorem permanent_failure_halts (K : Collaborators) (a1 a2 a3 : WorkflowAction)
    (row : WorkflowExecution) (now : Time) (later : List Time) (reason : String)
    (h1 : a1.ActionType = "add_tag" ∧ a1.DelaySeconds = 0 ∧ a1.Condition = "")
    (_h2 : a2.ActionType = "wait") (_h3 : a3.ActionType = "send_email")
    (hrow : row.Status = ExecutionRunning ∧ row.CurrentStep = 0)
    (hf : ∀ x, K.execute a1 x = .permanentFailure reason) :
    (ticks K [a1, a2, a3] (now :: later) ⟨Execution.ofRow row, []⟩).exec.Status
      = ExecutionFailed ∧
    (ticks K [a1, a2, a3] (now :: later) ⟨Execution.ofRow row, []⟩).exec.CurrentStep = 0 ∧
    (ticks K [a1, a2, a3] (now :: later) ⟨Execution.ofRow row, []⟩).exec.Log
      = [⟨0, "add_tag", .attempted (.permanentFailure reason), now⟩] ∧
    (ticks K [a1, a2, a3] (now :: later) ⟨Execution.ofRow row, []⟩).exec.CompletedAt
      = some now ∧
    (ticks K [a1, a2, a3] (now :: later) ⟨Execution.ofRow row, []⟩).executed = [a1] ∧
    (∀ a ∈ (ticks K [a1, a2, a3] (now :: later) ⟨Execution.ofRow row, []⟩).executed,
      a.ActionType ≠ "send_email") := by
  have hstep : tick K [a1, a2, a3] now ⟨Execution.ofRow row, []⟩ =
      ⟨failed now (logged (Execution.ofRow row) a1
        (.attempted (.permanentFailure reason)) now), [a1]⟩ := by
    simp [tick, advance, stepOnce, Execution.ofRow, hrow.1, hrow.2, h1.1, h1.2.1, h1.2.2, hf]
  have hall : ticks K [a1, a2, a3] (now :: later) ⟨Execution.ofRow row, []⟩ =
      ⟨failed now (logged (Execution.ofRow row) a1
        (.attempted (.permanentFailure reason)) now), [a1]⟩ := by
    show ticks K [a1, a2, a3] later (tick K [a1, a2, a3] now ⟨Execution.ofRow row, []⟩) = _
    rw [hstep]
    exact ticks_not_running K _ later _
      (fun h => absurd (show ExecutionFailed = ExecutionRunning from h) (by decide))
  rw [hall]
  refine ⟨rfl, ?_, ?_, rfl, rfl, ?_⟩
  · simp [failed, logged, Execution.ofRow, hrow.2]
  · simp [failed, logged, Execution.ofRow, hrow.2, h1.1]
  · intro a ha
    rw [List.mem_singleton.mp ha, h1.1]
    decide

/-- Witness of C18 on the workflow of the demo store, with `add_tag` failing permanently and
ticks at 100, 5000 and 86500. -/
theorem permanent_failure_halts_witness :
    (ticks demoTagFails demoActions [100, 5000, 86500]
        ⟨Execution.ofRow demoRow, []⟩).exec.Status = ExecutionFailed ∧
    (ticks demoTagFails demoActions [100, 5000, 86500]
        ⟨Execution.ofRow demoRow, []⟩).exec.CurrentStep = 0 ∧
    (ticks demoTagFails demoActions [100, 5000, 86500]
        ⟨Execution.ofRow demoRow, []⟩).exec.Log
      = [⟨0, "add_tag", .attempted (.permanentFailure "no such subject"), 100⟩] ∧
    (ticks demoTagFails demoActions [100, 5000, 86500]
        ⟨Execution.ofRow demoRow, []⟩).exec.CompletedAt = some 100 ∧
    (ticks demoTagFails demoActions [100, 5000, 86500]
        ⟨Execution.ofRow demoRow, []⟩).executed = [⟨2, 1, 1, "add_tag", "vip", 0, 0, "", 1, 1⟩] ∧
    (∀ a ∈ (ticks demoTagFails demoActions [100, 5000, 86500]
        ⟨Execution.ofRow demoRow, []⟩).executed, a.ActionType ≠ "send_email") :=
  permanent_failure_halts demoTagFails ⟨2, 1, 1, "add_tag", "vip", 0, 0, "", 1, 1⟩
    ⟨3, 1, 1, "wait", "", 1, 86400, "", 1, 1⟩ ⟨1, 1, 1, "send_email", "welcome", 2, 0, "", 1, 1⟩
    demoRow 100 [5000, 86500] "no such subject" (by decide) (by decide) (by decide) (by decide)
    (fun _ => rfl)

theorem startExecution_spec (env : Env) (event : String) (subject : Nat) (db : DB)
    (w : Workflow) (hi : env.insertFails = false) :
    ∃ e : WorkflowExecution,
      (startExecution env event subject db w).workflowExecutions = db.workflowExecutions ++ [e] ∧
      e.WorkflowID = w.ID ∧ e.ContactID = subject ∧ e.TriggerEvent = event ∧
      e.Status = ExecutionRunning ∧ e.CurrentStep = 0 := by
  refine ⟨⟨db.executionSeq + 1, w.TenantID, w.ID, subject, event, ExecutionRunning, 0, "",
    env.now, none, env.now⟩, ?_, rfl, rfl, rfl, rfl, rfl⟩
  simp only [startExecution, DB.createExecution, hi, Bool.false_eq_true, if_false,
    DB.incrementExecutionCount]
  split <;> rfl

theorem foldl_startExecution_spec (env : Env) (event : String) (subject : Nat)
    (ws : List Workflow) (db : DB) (hi : env.insertFails = false) :
    ∃ news : List WorkflowExecution,
      (ws.foldl (startExecution env event subject) db).workflowExecutions
        = db.workflowExecutions ++ news ∧
      news.map (fun e => e.WorkflowID) = ws.map (fun w => w.ID) ∧
      ∀ e ∈ news, e.ContactID = subject ∧ e.TriggerEvent = event ∧
        e.Status = ExecutionRunning ∧ e.CurrentStep = 0 := by
  induction ws generalizing db with
  | nil => exact ⟨[], by simp, rfl, by simp⟩
  | cons w rest ih =>
    obtain ⟨e, h1, h2, h3⟩ := startExecution_spec env event subject db w hi
    obtain ⟨news, k1, k2, k3⟩ := ih (startExecution env event subject db w)
    refine ⟨e :: news, ?_, ?_, ?_⟩
    · rw [List.foldl_cons, k1, h1]
      simp
    · simp [h2, k2]
    · intro x hx
      rcases List.mem_cons.mp hx with hx | hx
      · rw [hx]
        exact h3
      · exact k3 x hx

/-- C19 (the trigger matcher is modelled from the specification): when an event is received
while the stored definitions with that event trigger are `w1` and `w2`, both active, and `w3`,
paused, and the store accepts the inserts, exactly two executions are added: one for `w1` and
one for `w2`, each for the subject of the event, with `status = running`, `current_step = 0`
and the event name as `trigger_event`, and none for `w3`. -/
theorem trigger_matching (M : Matcher) (env : Env) (event : String) (subject : Nat) (db : DB)
    (w1 w2 w3 : Workflow)
    (hm : (db.workflows.filter (hasTrigger M event subject)).Perm [w1, w2, w3])
    (h1 : w1.Status = WorkflowStatusActive) (h2 : w2.Status = WorkflowStatusActive)
    (h3 : w3.Status = WorkflowStatusPaused) (hpk : w3.ID ≠ w1.ID ∧ w3.ID ≠ w2.ID)
    (hi : env.insertFails = false) :
    ∃ news : List WorkflowExecution,
      (onEvent M env event subject db).workflowExecutions = db.workflowExecutions ++ news ∧
      news.length = 2 ∧
      (news.map (fun e => e.WorkflowID)).Perm [w1.ID, w2.ID] ∧
      ∀ e ∈ news, e.WorkflowID ≠ w3.ID ∧ e.ContactID = subject ∧ e.TriggerEvent = event ∧
        e.Status = ExecutionRunning ∧ e.CurrentStep = 0 := by
  have hel : (db.workflows.filter (fun w =>
      hasTrigger M event subject w && decide (w.Status = WorkflowStatusActive))).Perm
      [w1, w2] := by
    have hf := hm.filter (fun w => decide (w.Status = WorkflowStatusActive))
    rw [List.filter_filter] at hf
    have he : (fun w => decide (w.Status = WorkflowStatusActive) && hasTrigger M event subject w)
        = (fun w => hasTrigger M event subject w && decide (w.Status = WorkflowStatusActive)) := by
      funext w
      exact Bool.and_comm _ _
    rw [he] at hf
    have h3n : ¬ w3.Status = WorkflowStatusActive := by
      rw [h3]
      decide
    simpa [List.filter_cons, h1, h2, h3n] using hf
  obtain ⟨news, k1, k2, k3⟩ := foldl_startExecution_spec env event subject _ db hi
  have hp : (news.map (fun e => e.WorkflowID)).Perm [w1.ID, w2.ID] := by
    rw [k2]
    exact hel.map _
  refine ⟨news, k1, ?_, hp, ?_⟩
  · have := hp.length_eq
    simpa using this
  · intro e he
    refine ⟨?_, k3 e he⟩
    have hmem : e.WorkflowID ∈ [w1.ID, w2.ID] :=
      hp.subset (List.mem_map.mpr ⟨e, he, rfl⟩)
    intro h
    rw [h] at hmem
    simp only [List.mem_cons, List.mem_singleton, List.not_mem_nil, or_false] at hmem
    rcases hmem with hmem | hmem
    · exact hpk.1 hmem
    · exact hpk.2 hmem

/-- Witness of C19 on the demo store: `purchase.completed` is the trigger of the active
definitions 1 and 3 and of the paused definition 2, and of no other. -/
theorem trigger_matching_witness :
    ∃ news : List WorkflowExecution,
      (onEvent demoMatcher Handlers.demoEnv Events.PurchaseCompleted 7 demoEngineDB).workflowExecutions
        = demoEngineDB.workflowExecutions ++ news ∧
      news.length = 2 ∧
      (news.map (fun e => e.WorkflowID)).Perm [1, 3] ∧
      ∀ e ∈ news, e.WorkflowID ≠ 2 ∧ e.ContactID = 7 ∧
        e.TriggerEvent = Events.PurchaseCompleted ∧
        e.Status = ExecutionRunning ∧ e.CurrentStep = 0 :=
  trigger_matching demoMatcher Handlers.demoEnv Events.PurchaseCompleted 7 demoEngineDB
    ⟨1, 1, "vip", "", "event", "purchase.completed", WorkflowStatusActive, 0, 1, 1, none⟩
    ⟨3, 1, "thanks", "", "event", "purchase.completed", WorkflowStatusActive, 0, 3, 3, none⟩
    ⟨2, 1, "old", "", "event", "purchase.completed", WorkflowStatusPaused, 0, 2, 2, none⟩
    (by decide) (by decide) (by decide) (by decide) (by decide) (by decide)

end Engine

/-! ## Properties of `sanitizeUpdates` -/

namespace Handlers

open Models Store GoStrings

theorem get_filter_key {α : Type} (p : String → Bool) (m : GoMap α) (k : String) :
    GoMap.get (m.filter (fun kv => p kv.1)) k = if p k = true then GoMap.get m k else none := by
  induction m with
  | nil => simp [GoMap.get]
  | cons kv rest ih =>
    obtain ⟨k1, v⟩ := kv
    by_cases hp : p k1 = true
    · rw [List.filter_cons_of_pos (by simpa using hp)]
      by_cases hk : k1 = k
      · subst hk
        simp [GoMap.get, hp]
      · simp only [GoMap.get, if_neg hk]
        exact ih
    · rw [List.filter_cons_of_neg (by simpa using hp)]
      by_cases hk : k1 = k
      · subst hk
        rw [ih]
        simp [hp]
      · simp only [GoMap.get, if_neg hk]
        exact ih

/-- C21: for every map `m`, `sanitizeUpdates m` is `m` with exactly the sixteen forbidden keys
removed: the forbidden keys are the sixteen names listed, the bindings left are those of `m`
under the other keys, in place, so reading a forbidden key finds nothing and reading any other
key finds what `m` holds. -/
theorem sanitizeUpdates_removes_exactly {α : Type} (m : GoMap α) :
    forbidden = ["id", "ID", "tenant_id", "TenantID", "created_at", "CreatedAt", "deleted_at",
      "DeletedAt", "user_id", "UserID", "password", "Password", "password_hash", "PasswordHash",
      "role", "Role"] ∧
    sanitizeUpdates m = m.filter (fun kv => decide (kv.1 ∉ forbidden)) ∧
    ∀ k, (sanitizeUpdates m).get k = if k ∈ forbidden then none else m.get k := by
  refine ⟨rfl, foldl_delete_eq_filter forbidden m, fun k => ?_⟩
  have h := get_filter_key (fun key => decide (key ∉ forbidden)) m k
  rw [sanitizeUpdates, foldl_delete_eq_filter, h]
  by_cases hk : k ∈ forbidden <;> simp [hk]

/-! ## Properties of `safeIndex` -/

theorem safeIndex_negative (row : List String) (i : Int) (h : i < 0) :
    safeIndex row i = .error "runtime error: index out of range" := by
  have h1 : ¬ (i ≥ (row.length : Int)) := by omega
  have h2 : ¬ (0 ≤ i ∧ i < (row.length : Int)) := by omega
  simp only [safeIndex, index, if_neg h1, if_neg h2]
  rfl

theorem safeIndex_in_bounds (row : List String) (i : Int) (h0 : 0 ≤ i)
    (h1 : i < row.length) : safeIndex row i = .ok (TrimSpace (row.getD i.toNat "")) := by
  have h2 : ¬ (i ≥ (row.length : Int)) := by omega
  simp only [safeIndex, index, if_neg h2, if_pos (And.intro h0 h1)]
  rfl

theorem safeIndex_beyond (row : List String) (i : Int) (h : (row.length : Int) ≤ i) :
    safeIndex row i = .ok "" := by
  simp only [safeIndex, if_pos (show i ≥ (row.length : Int) from h)]

/-- C22 at its failing input: `safeIndex([]string{"a"}, -1)` does not return the empty string,
the index expression `row[-1]` panics. -/
theorem safeIndex_panics_on_negative :
    safeIndex ["a"] (-1) = .error "runtime error: index out of range" ∧
    safeIndex ["a"] (-1) ≠ .ok "" := by
  have h := safeIndex_negative ["a"] (-1) (by decide)
  refine ⟨h, ?_⟩
  rw [h]
  intro h1
  cases h1

/-! ## `TriggerWorkflow` and the execution counter -/

/-- C27 at its failing input: a trigger of workflow 2 whose `INSERT` the store rejects is
answered with 201, stores no execution, and still raises `execution_count` from 1 to 2; and a
trigger whose `UPDATE` the store rejects stores the execution and leaves the counter at 1. -/
theorem TriggerWorkflow_counter_not_atomic :
    ((TriggerWorkflow { demoEnv with insertFails := true } 2 (some 9) demoDB).2.status = 201 ∧
     (TriggerWorkflow { demoEnv with insertFails := true } 2 (some 9) demoDB).1.workflowExecutions
       = demoDB.workflowExecutions ∧
     (demoDB.firstWorkflow 2).map (fun w => w.ExecutionCount) = some 1 ∧
     ((TriggerWorkflow { demoEnv with insertFails := true } 2 (some 9) demoDB).1.firstWorkflow 2).map
       (fun w => w.ExecutionCount) = some 2) ∧
    ((TriggerWorkflow { demoEnv with updateFails := true } 2 (some 9) demoDB).1.workflowExecutions.length
       = demoDB.workflowExecutions.length + 1 ∧
     ((TriggerWorkflow { demoEnv with updateFails := true } 2 (some 9) demoDB).1.firstWorkflow 2).map
       (fun w => w.ExecutionCount) = some 1) := by
  decide

end Handlers

/-! ## Properties of `parsePastedEmails` -/

namespace Handlers

open GoStrings

theorem splitWhere_ne_nil (p : Char → Bool) (l : List Char) : splitWhere p l ≠ [] := by
  cases l with
  | nil => simp [splitWhere]
  | cons c cs =>
    simp only [splitWhere]
    split_ifs
    · simp
    · split <;> simp

theorem splitWhere_map (p q : Char → Bool) (f : Char → Char) (hf : ∀ c, q (f c) = p c)
    (l : List Char) : splitWhere q (l.map f) = (splitWhere p l).map (List.map f) := by
  induction l with
  | nil => simp [splitWhere]
  | cons c cs ih =>
    simp only [List.map_cons, splitWhere, hf, ih]
    by_cases hp : p c = true
    · simp [hp]
    · simp only [hp, if_false]
      cases h : splitWhere p cs with
      | nil => simp
      | cons piece rest => simp

theorem splitWhere_pieces (p : Char → Bool) (l : List Char) :
    ∀ piece ∈ splitWhere p l, ∀ c ∈ piece, p c = false := by
  induction l with
  | nil => simp [splitWhere]
  | cons c cs ih =>
    simp only [splitWhere]
    by_cases hp : p c = true
    · simp only [hp, if_true, List.mem_cons]
      rintro piece (rfl | h) d hd
      · simp at hd
      · exact ih piece h d hd
    · simp only [hp, if_false]
      cases h : splitWhere p cs with
      | nil => simp [hp]
      | cons piece rest =>
        rw [h] at ih
        intro pc hpc d hd
        rcases List.mem_cons.mp hpc with hpc1 | hpc1
        · rw [hpc1] at hd
          simp only [List.mem_cons] at hd
          rcases hd with hd | hd
          · rw [hd]
            simpa using hp
          · exact ih piece (by simp) d hd
        · exact ih pc (by simp [hpc1]) d hd

theorem TrimSpace_subset (s : String) : (TrimSpace s).data ⊆ s.data := by
  intro c hc
  simp only [TrimSpace, List.mem_reverse] at hc
  exact (List.dropWhile_sublist _).subset ((List.dropWhile_sublist _).subset hc |> List.mem_reverse.mp)

theorem rows_foldl (g : String → String) (l : List String) (acc : List (List String)) :
    l.foldl (fun rows line => if g line ≠ "" then rows ++ [[g line]] else rows) acc
      = acc ++ ((l.map g).filter (fun email => decide (email ≠ ""))).map (fun email => [email]) := by
  induction l generalizing acc with
  | nil => simp
  | cons x rest ih =>
    rw [List.foldl_cons, ih]
    by_cases h : g x = ""
    · simp [h]
    · simp [h]


theorem map_id_of_pieces (p : Char → Bool) (f : Char → Char) (hf : ∀ c, p c = false → f c = c)
    (l : List Char) : (splitWhere p l).map (List.map f) = splitWhere p l := by
  have h : ∀ piece ∈ splitWhere p l, List.map f piece = piece := by
    intro piece hpiece
    have h1 := splitWhere_pieces p l piece hpiece
    calc List.map f piece = List.map id piece :=
          List.map_congr_left (fun c hc => hf c (h1 c hc))
      _ = piece := List.map_id piece
  calc (splitWhere p l).map (List.map f) = (splitWhere p l).map id := List.map_congr_left h
    _ = splitWhere p l := List.map_id _

theorem lines_eq (text : String) :
    Split (ReplaceAll (ReplaceAll text ';' '\n') ',' '\n') '\n'
      = (splitWhere isSeparator text.data).map String.mk := by
  have hq : ∀ c : Char,
      ((if (if c = ';' then '\n' else c) = ',' then '\n' else (if c = ';' then '\n' else c))
        == '\n') = isSeparator c := by
    intro c
    by_cases h1 : c = ';'
    · subst h1; decide
    · by_cases h2 : c = ','
      · subst h2; decide
      · simp [isSeparator, h1, h2]
  have hid : ∀ c : Char, isSeparator c = false →
      (if (if c = ';' then '\n' else c) = ',' then '\n' else (if c = ';' then '\n' else c))
        = c := by
    intro c hc
    simp only [isSeparator, Bool.or_eq_false_iff, beq_eq_false_iff_ne, ne_eq] at hc
    simp [hc.1.1, hc.1.2]
  simp only [Split, ReplaceAll, List.map_map]
  rw [splitWhere_map isSeparator (fun c => c == '\n') _ (fun c => by simpa using hq c)]
  rw [map_id_of_pieces isSeparator _ (fun c hc => by simpa using hid c hc)]


theorem parsePastedEmails_eq (text : String) :
    parsePastedEmails text = pastedEmailsSpec text := by
  simp only [parsePastedEmails, pastedEmailsSpec]
  rw [lines_eq, rows_foldl TrimSpace, List.nil_append, List.map_map]
  rfl

theorem splitWhere_swap (p : Char → Bool) (a b : List Char) (s1 s2 : Char)
    (h1 : p s1 = true) (h2 : p s2 = true) :
    splitWhere p (a ++ s1 :: b) = splitWhere p (a ++ s2 :: b) := by
  induction a with
  | nil => simp [splitWhere, h1, h2]
  | cons c cs ih =>
    have ih1 : splitWhere p (cs.append (s1 :: b)) = splitWhere p (cs.append (s2 :: b)) := ih
    simp only [List.cons_append, splitWhere, ih1]

/-- C23: `parsePastedEmails text` is the list, in input order, of the non-empty trimmed pieces
got by splitting `text` at every comma, semicolon and newline, each as a single-cell row; no
cell is empty or holds a separator, and replacing one separator by another does not change the
result. -/
theorem parsePastedEmails_spec (text : String) :
    parsePastedEmails text = pastedEmailsSpec text ∧
    (∀ row ∈ parsePastedEmails text, ∃ email : String,
      row = [email] ∧ email ≠ "" ∧ ∀ c ∈ email.data, isSeparator c = false) ∧
    (∀ (a b : List Char) (s1 s2 : Char), isSeparator s1 = true → isSeparator s2 = true →
      parsePastedEmails ⟨a ++ s1 :: b⟩ = parsePastedEmails ⟨a ++ s2 :: b⟩) := by
  refine ⟨parsePastedEmails_eq text, ?_, ?_⟩
  · intro row hrow
    rw [parsePastedEmails_eq, pastedEmailsSpec] at hrow
    simp only [List.mem_map, List.mem_filter, decide_eq_true_eq] at hrow
    obtain ⟨email, ⟨⟨piece, hpiece, rfl⟩, hne⟩, rfl⟩ := hrow
    refine ⟨_, rfl, hne, ?_⟩
    intro c hc
    exact splitWhere_pieces isSeparator text.data piece hpiece c (TrimSpace_subset ⟨piece⟩ hc)
  · intro a b s1 s2 h1 h2
    rw [parsePastedEmails_eq, parsePastedEmails_eq, pastedEmailsSpec, pastedEmailsSpec]
    simp only [splitWhere_swap isSeparator a b s1 s2 h1 h2]

/-- Witness of C23: a pasted text with all three separators, blanks and an empty piece. -/
theorem parsePastedEmails_spec_witness :
    parsePastedEmails "a@x.io, b@y.io;c@z.io\n\n d@w.io " =
      [["a@x.io"], ["b@y.io"], ["c@z.io"], ["d@w.io"]] :=
  (parsePastedEmails_spec "a@x.io, b@y.io;c@z.io\n\n d@w.io ").1.trans (by decide)

end Handlers

/-! ## Properties of `csvEscape` -/

namespace Handlers

open GoStrings

theorem escapeQuotes_foldl (l acc : GoString) :
    l.foldl (fun result seg =>
      if seg.rune = '"' then result ++ ofString "\"\"" else result ++ [.char seg.rune]) acc
      = acc ++ l.flatMap (fun seg =>
          if seg.rune = '"' then [.char '"', .char '"'] else [.char seg.rune]) := by
  induction l generalizing acc with
  | nil => simp
  | cons c cs ih =>
    rw [List.foldl_cons, ih]
    by_cases h : c.rune = '"'
    · simp [h, ofString]
    · simp [h]

theorem rune_eq_iff (seg : Segment) (c : Char) (hc : c ≠ Char.ofNat 0xFFFD) :
    seg.rune = c ↔ seg = .char c := by
  cases seg with
  | char d => simp [Segment.rune]
  | bad b =>
    simp only [Segment.rune, reduceCtorEq, iff_false]
    exact fun h => hc h.symm

theorem escapeQuotes_valid (s : GoString) (h : validUTF8 s = true) :
    escapeQuotes s = doubledQuotes s := by
  rw [escapeQuotes, escapeQuotes_foldl, List.nil_append, doubledQuotes]
  apply List.flatMap_congr
  intro seg hseg
  have hs : seg.isChar = true := List.all_eq_true.mp h seg hseg
  obtain ⟨c, rfl⟩ : ∃ c, seg = .char c := by
    cases seg with
    | char c => exact ⟨c, rfl⟩
    | bad b => simp [Segment.isChar] at hs
  by_cases hc : c = '"'
  · simp [Segment.rune, hc]
  · simp [Segment.rune, hc]

theorem containsAny_eq (s : GoString) :
    containsAny s (ofString ",\"\n\r") = hasSpecial s := by
  have e : ofString ",\"\n\r" = [.char ',', .char '"', .char '\n', .char '\r'] := rfl
  rw [Bool.eq_iff_iff, e]
  simp only [containsAny, hasSpecial, List.any_eq_true, beq_iff_eq, Bool.or_eq_true]
  constructor
  · rintro ⟨c, hc, sc, hsc, hr⟩
    refine ⟨sc, hsc, ?_⟩
    have hc1 : c = .char ',' ∨ c = .char '"' ∨ c = .char '\n' ∨ c = .char '\r' := by
      simpa using hc
    rcases hc1 with rfl | rfl | rfl | rfl
    · exact Or.inl (Or.inl (Or.inl ((rune_eq_iff sc ',' (by decide)).mp hr.symm)))
    · exact Or.inl (Or.inl (Or.inr ((rune_eq_iff sc '"' (by decide)).mp hr.symm)))
    · exact Or.inl (Or.inr ((rune_eq_iff sc '\n' (by decide)).mp hr.symm))
    · exact Or.inr ((rune_eq_iff sc '\r' (by decide)).mp hr.symm)
  · rintro ⟨sc, hsc, h⟩
    refine ⟨sc, ?_, sc, hsc, rfl⟩
    have h1 : sc = .char ',' ∨ sc = .char '"' ∨ sc = .char '\n' ∨ sc = .char '\r' := by tauto
    simpa using h1

theorem undouble_other (c : Segment) (l : GoString) (h : c ≠ .char '"') :
    undouble (c :: l) = c :: undouble l := by
  cases l with
  | nil => simp [undouble]
  | cons d r => simp [undouble, h]

theorem undouble_doubled (l : GoString) :
    undouble (l.flatMap (fun seg => if seg = .char '"' then [seg, seg] else [seg])) = l := by
  induction l with
  | nil => simp [undouble]
  | cons c cs ih =>
    by_cases h : c = .char '"'
    · subst h
      rw [List.flatMap_cons, if_pos rfl]
      show undouble (.char '"' :: .char '"' :: cs.flatMap _) = _
      rw [undouble, if_pos ⟨rfl, rfl⟩, ih]
    · simp only [List.flatMap_cons, if_neg h, List.singleton_append]
      rw [undouble_other c _ h, ih]

theorem csvEscape_plain (s : GoString) (h : hasSpecial s = false) : csvEscape s = s := by
  by_cases h0 : s = []
  · simp [csvEscape, h0]
  · have h1 : s.head? ≠ some (.char '"') := by
      intro hh
      cases s with
      | nil => simp at hh
      | cons c cs =>
        simp only [List.head?_cons, Option.some.injEq] at hh
        simp [hasSpecial, hh] at h
    simp only [csvEscape, if_neg h0, containsAny_eq, h]
    simp [h1]

theorem csvEscape_special (s : GoString) (h : hasSpecial s = true) :
    csvEscape s = ofString "\"" ++ escapeQuotes s ++ ofString "\"" := by
  have h0 : s ≠ [] := by
    intro hs
    subst hs
    simp [hasSpecial] at h
  have h1 : s.length > 0 := List.length_pos.mpr h0
  simp only [csvEscape, if_neg h0, containsAny_eq, h]
  simp [h1]

theorem readCsvField_plain (s : GoString) (h : hasSpecial s = false) : readCsvField s = s := by
  cases s with
  | nil => simp [readCsvField]
  | cons c cs =>
    have hc : c ≠ .char '"' := by
      intro hh
      simp [hasSpecial, hh] at h
    simp [readCsvField, hc]

theorem readCsvField_quoted (s : GoString) :
    readCsvField (ofString "\"" ++ doubledQuotes s ++ ofString "\"") = s := by
  have hd : ofString "\"" ++ doubledQuotes s ++ ofString "\""
      = .char '"' :: (s.flatMap (fun seg => if seg = .char '"' then [seg, seg] else [seg])
          ++ [.char '"']) := by
    simp [ofString, doubledQuotes]
  simp only [readCsvField, hd, List.getLast?_append, List.getLast?_singleton,
    List.dropLast_concat, undouble_doubled]
  simp [Option.or]

/-- Counterexample to C28 as stated: the two-byte string `"\xff,"` holds a byte that is no valid
UTF-8 and a comma. `csvEscape` quotes it and, going through its runes, writes U+FFFD in place of
the byte, so reading the result back gives another string. -/
theorem csvEscape_replaces_invalid_byte :
    csvEscape [.bad 255, .char ','] = ofString "\"\uFFFD,\"" ∧
    readCsvField (csvEscape [.bad 255, .char ',']) = ofString "\uFFFD," ∧
    readCsvField (csvEscape [.bad 255, .char ',']) ≠ [.bad 255, .char ','] := by
  decide

/-- C28, amended: a string without comma, double quote, line feed or carriage return is returned
as it is; and for every string `s` that is valid UTF-8, `csvEscape s` read back as a CSV field is
`s`, and when `s` holds one of those four characters `csvEscape s` is `s` with every double
quote doubled, wrapped in double quotes. -/
theorem csvEscape_round_trip (s : GoString) :
    (hasSpecial s = false → csvEscape s = s) ∧
    (validUTF8 s = true → readCsvField (csvEscape s) = s ∧
      (hasSpecial s = true →
        csvEscape s = ofString "\"" ++ doubledQuotes s ++ ofString "\"")) := by
  refine ⟨csvEscape_plain s, fun hv => ⟨?_, fun h => ?_⟩⟩
  · cases h : hasSpecial s with
    | false => rw [csvEscape_plain s h, readCsvField_plain s h]
    | true => rw [csvEscape_special s h, escapeQuotes_valid s hv, readCsvField_quoted]
  · rw [csvEscape_special s h, escapeQuotes_valid s hv]

/-- Witness of C28: a plain text, and a text with a comma and two double quotes. -/
theorem csvEscape_round_trip_witness :
    csvEscape (ofString "plain") = ofString "plain" ∧
    readCsvField (csvEscape (ofString "a,\"b\"")) = ofString "a,\"b\"" ∧
    csvEscape (ofString "a,\"b\"") = ofString "\"a,\"\"b\"\"\"" :=
  ⟨(csvEscape_round_trip (ofString "plain")).1 (by decide),
   ((csvEscape_round_trip (ofString "a,\"b\"")).2 (by decide)).1,
   (((csvEscape_round_trip (ofString "a,\"b\"")).2 (by decide)).2 (by decide)).trans
     (by decide)⟩

end Handlers

/-! ## Properties of the quiz scoring and of the affiliate balance -/

namespace Handlers

open Models Store GoStrings

/-- C24 at its failing input: for a quiz of one question worth one point, two answers that both
name that question and both match its correct answer give `totalPoints = 1` and
`earnedPoints = 2`, so the earned points exceed the total and the score is 200; this holds for
every comparison that, like `strings.EqualFold`, accepts equal texts. -/
theorem scoreQuiz_counts_repeated_answers (equalFold : String → String → Bool)
    (hrefl : ∀ t, equalFold t t = true) :
    scoreQuiz equalFold [demoQuestion] demoAnswers = (1, 2) ∧
    scorePercent (scoreQuiz equalFold [demoQuestion] demoAnswers) = 200 := by
  have h : scoreQuiz equalFold [demoQuestion] demoAnswers = (1, 2) := by
    simp only [scoreQuiz, questionsLoop, demoAnswers, answersLoop]
    have e : TrimSpace "a" = TrimSpace demoQuestion.CorrectAnswer := by decide
    rw [e, hrefl]
    decide
  refine ⟨h, ?_⟩
  rw [h]
  norm_num [scorePercent]

/-- Witness of C24 with equality of texts as the comparison. -/
theorem scoreQuiz_counts_repeated_answers_witness :
    scoreQuiz sameText [demoQuestion] demoAnswers = (1, 2) ∧
    scorePercent (scoreQuiz sameText [demoQuestion] demoAnswers) = 200 :=
  scoreQuiz_counts_repeated_answers sameText (fun t => by simp [sameText])

/-- C25 at its failing input: on an account with a balance of 100, a payout of 100 is created
and then processed twice; the first processing brings the balance to 0 and the second to
-100. -/
theorem balance_negative_after_repeated_processing :
    balanceOf demoAffiliateDB 1 = some 100 ∧
    balanceOf (affiliateRun (demoPayoutOps.take 2) demoAffiliateDB) 1 = some 0 ∧
    balanceOf (affiliateRun demoPayoutOps demoAffiliateDB) 1 = some (-100) := by
  decide

end Handlers

/-! ## Properties of the event bus with its mutex -/

namespace Events

namespace WithMutex

theorem On_free {σ : Type} (event : String) (handler : Handler) (s : Shared σ)
    (h : s.1.free) :
    ∃ w : World σ, On event handler s = some (s.1, w) ∧
      w.bus.lookup event = s.2.bus.lookup event ++ [handler] := by
  obtain ⟨mu, w0⟩ := s
  obtain ⟨r, wr⟩ := mu
  obtain ⟨h1, h2⟩ := h
  simp only at h1 h2
  subst h1
  subst h2
  refine ⟨{ w0 with bus := ⟨w0.bus.handlers.set event (w0.bus.lookup event ++ [handler])⟩,
                    log := w0.log ++ [.registered event] }, ?_, ?_⟩
  · simp only [On, RWMutex.Lock, RWMutex.Unlock, and_self, if_true]
  · simp [Bus.lookup, GoMap.get_set_same]

theorem On_waits_under_read_lock {σ : Type} (event : String) (handler : Handler)
    (s : Shared σ) (h : 0 < s.1.readers) : On event handler s = none := by
  have h1 : ¬ (s.1.readers = 0 ∧ s.1.writer = false) := by omega
  simp only [On, RWMutex.Lock, if_neg h1]

theorem syncLoop_registering {σ δ : Type} (prog : Program σ δ) (e : String) (p : δ)
    (h0 h1 : Handler)
    (hbody : ∀ t : Shared σ, prog h0 p t = (On e h1 t).map Outcome.returned)
    (l : List Handler)
    (hothers : ∀ h ∈ l, h ≠ h0 → ∀ t : Shared σ, t.1.free →
      ∃ t1 : Shared σ, (prog h p t = some (.returned t1) ∨ ∃ r, prog h p t = some (.panicked t1 r)) ∧
        t1.1.free ∧ t1.2.bus.lookup e = t.2.bus.lookup e)
    (s : State σ δ) (hfree : s.mu.free) :
    ∃ s1 : State σ δ, syncLoop prog e p l s = some (.returned s1) ∧ s1.mu.free ∧
      s1.exec.calls = s.exec.calls ++ l.map (fun h => (h, p)) ∧
      s1.exec.world.bus.lookup e
        = s.exec.world.bus.lookup e ++ List.replicate (l.count h0) h1 := by
  induction l generalizing s with
  | nil => exact ⟨s, rfl, hfree, by simp, by simp⟩
  | cons h hs ih =>
    have hrest : ∀ h ∈ hs, h ≠ h0 → ∀ t : Shared σ, t.1.free →
        ∃ t1 : Shared σ,
          (prog h p t = some (.returned t1) ∨ ∃ r, prog h p t = some (.panicked t1 r)) ∧
          t1.1.free ∧ t1.2.bus.lookup e = t.2.bus.lookup e :=
      fun h hh => hothers h (List.mem_cons_of_mem _ hh)
    by_cases hh : h = h0
    · subst hh
      obtain ⟨w, hw, hlook⟩ := On_free e h1 (s.mu, s.exec.world) hfree
      have hg : guarded prog e h p s = some (.returned
          ⟨s.mu, { s.exec with world := w, calls := s.exec.calls ++ [(h, p)] }⟩) := by
        simp only [guarded, call, hbody, hw, Option.map_some']
      obtain ⟨s1, k1, k2, k3, k4⟩ :=
        ih hrest ⟨s.mu, { s.exec with world := w, calls := s.exec.calls ++ [(h, p)] }⟩ hfree
      refine ⟨s1, ?_, k2, ?_, ?_⟩
      · simp only [syncLoop, hg, k1]
      · rw [k3]
        simp
      · rw [k4]
        simp only [hlook, List.count_cons_self, List.replicate_succ, List.append_assoc,
          List.singleton_append]
    · obtain ⟨t1, hcase, hf1, hl1⟩ := hothers h (List.mem_cons_self _ _) hh
        (s.mu, s.exec.world) hfree
      rcases hcase with hret | ⟨r, hpan⟩
      · have hg : guarded prog e h p s = some (.returned
            ⟨t1.1, { s.exec with world := t1.2, calls := s.exec.calls ++ [(h, p)] }⟩) := by
          simp only [guarded, call, hret]
        obtain ⟨s1, k1, k2, k3, k4⟩ :=
          ih hrest ⟨t1.1, { s.exec with world := t1.2, calls := s.exec.calls ++ [(h, p)] }⟩ hf1
        refine ⟨s1, ?_, k2, ?_, ?_⟩
        · simp only [syncLoop, hg, k1]
        · rw [k3]
          simp
        · rw [k4]
          simp only [hl1, List.count_cons_of_ne (Ne.symm hh)]
      · have hg : guarded prog e h p s = some (.returned
            ⟨t1.1, Exec.printf
              { s.exec with world := t1.2, calls := s.exec.calls ++ [(h, p)] }
              (.handlerPanic e r)⟩) := by
          simp only [guarded, call, hpan]
        obtain ⟨s1, k1, k2, k3, k4⟩ :=
          ih hrest ⟨t1.1, Exec.printf
              { s.exec with world := t1.2, calls := s.exec.calls ++ [(h, p)] }
              (.handlerPanic e r)⟩ hf1
        refine ⟨s1, ?_, k2, ?_, ?_⟩
        · simp only [syncLoop, hg, k1]
        · rw [k3]
          simp [Exec.printf]
        · rw [k4]
          simp only [Exec.printf, hl1, List.count_cons_of_ne (Ne.symm hh)]

theorem RLock_free (mu : RWMutex) (h : mu.free) :
    ∃ mu1, mu.RLock = some mu1 ∧ mu1.RUnlock = mu := by
  obtain ⟨r, wr⟩ := mu
  obtain ⟨h1, h2⟩ := h
  simp only at h1 h2
  subst h1
  subst h2
  exact ⟨_, rfl, rfl⟩

theorem HandlerCount_free {σ : Type} (event : String) (s : Shared σ) (h : s.1.free) :
    HandlerCount event s = some (s.1, (s.2.bus.lookup event).length) := by
  obtain ⟨mu1, k1, k2⟩ := RLock_free s.1 h
  simp only [HandlerCount, k1, k2]

/-- C26: publishing works on the slice read under the lock. Let the mutex be free, let `h0` be
registered once for `e` with a body that is the call `On(e, h1)` for a handler `h1` not yet
registered for `e`, and let the other handlers registered for `e` end with the mutex released
and the slice of `e` as they found it. Then `EmitSync(e, p)` returns, so the call of `On` inside
it did not wait; its calls are one call per handler registered before, in order, none of them of
`h1`; and afterwards the slice of `e` is the old one followed by `h1`, so `HandlerCount(e)` has
grown by one. -/
theorem EmitSync_registering_handler {σ δ : Type} (prog : Program σ δ) (e : String) (p : δ)
    (h0 h1 : Handler) (s : State σ δ) (hfree : s.mu.free)
    (hreg : (s.exec.world.bus.lookup e).count h0 = 1)
    (hnew : h1 ∉ s.exec.world.bus.lookup e)
    (hbody : ∀ t : Shared σ, prog h0 p t = (On e h1 t).map Outcome.returned)
    (hothers : ∀ h ∈ s.exec.world.bus.lookup e, h ≠ h0 → ∀ t : Shared σ, t.1.free →
      ∃ t1 : Shared σ,
        (prog h p t = some (.returned t1) ∨ ∃ r, prog h p t = some (.panicked t1 r)) ∧
        t1.1.free ∧ t1.2.bus.lookup e = t.2.bus.lookup e) :
    ∃ s1 : State σ δ, EmitSync prog e p s = some (.returned s1) ∧
      s1.exec.calls = s.exec.calls ++ (s.exec.world.bus.lookup e).map (fun h => (h, p)) ∧
      (∀ c ∈ (s.exec.world.bus.lookup e).map (fun h => (h, p)), c.1 ≠ h1) ∧
      s1.exec.world.bus.lookup e = s.exec.world.bus.lookup e ++ [h1] ∧
      HandlerCount e (s.mu, s.exec.world)
        = some (s.mu, (s.exec.world.bus.lookup e).length) ∧
      HandlerCount e (s1.mu, s1.exec.world)
        = some (s1.mu, (s.exec.world.bus.lookup e).length + 1) := by
  obtain ⟨mu1, k1, k2⟩ := RLock_free s.mu hfree
  have hne : (s.exec.world.bus.lookup e).length ≠ 0 := by
    intro h
    rw [List.length_eq_zero.mp h] at hreg
    simp at hreg
  obtain ⟨s1, j1, j2, j3, j4⟩ := syncLoop_registering prog e p h0 h1 hbody
    (s.exec.world.bus.lookup e) hothers
    ⟨s.mu, s.exec.printf (.emittingSync e (s.exec.world.bus.lookup e).length)⟩ hfree
  simp only [Exec.printf, hreg, List.replicate_one] at j3 j4
  refine ⟨s1, ?_, j3, ?_, j4, HandlerCount_free e (s.mu, s.exec.world) hfree, ?_⟩
  · simp only [EmitSync, k1, k2, if_neg hne]
    exact j1
  · intro c hc
    obtain ⟨h, hh, rfl⟩ := List.mem_map.mp hc
    intro heq
    exact hnew (heq ▸ hh)
  · rw [HandlerCount_free e (s1.mu, s1.exec.world) j2, j4]
    simp

/-- Witness of C26 on the demo bus: handler 1 of event `a` registers handler 9 for `a`. The
publication calls handlers 1 and 2 once each and not 9, and the count goes from 2 to 3. -/
theorem EmitSync_registering_handler_witness :
    ∃ s1 : State Nat Nat, EmitSync demoProg "a" 5 demoState = some (.returned s1) ∧
      s1.exec.calls = demoState.exec.calls ++ [(1, 5), (2, 5)] ∧
      (∀ c ∈ [((1 : Handler), 5), (2, 5)], c.1 ≠ 9) ∧
      s1.exec.world.bus.lookup "a" = [1, 2, 9] ∧
      HandlerCount "a" (demoState.mu, demoState.exec.world) = some (demoState.mu, 2) ∧
      HandlerCount "a" (s1.mu, s1.exec.world) = some (s1.mu, 3) :=
  EmitSync_registering_handler demoProg "a" 5 1 9 demoState (by decide) (by decide)
    (by decide) (fun t => by simp [demoProg])
    (fun h hh hne t ht => by
      have h2 : h = 2 := by
        have hmem : h ∈ [1, 2] := hh
        simp only [List.mem_cons, List.mem_singleton, List.not_mem_nil, or_false] at hmem
        rcases hmem with hmem | hmem
        · exact absurd hmem hne
        · exact hmem
      subst h2
      exact ⟨(t.1, { t.2 with mem := t.2.mem + 5 }), Or.inl (by simp [demoProg]), ht, rfl⟩)

end WithMutex

end Events
